import Mathlib

/-!
# go-domain-parser: the DNS message codec

A shallow embedding of `domainparser.go`.  Bytes are natural numbers below 256,
byte slices and Go strings are `List Nat`, the fixed-width integers `uint16`
and `uint32` are natural numbers reduced modulo `2^16` and `2^32` wherever the
source can overflow, and a Go `error` is an `Option` on the errors the package
can return.

The file has four parts: the program, the vocabulary in which the claims are
stated, the lemmas, and the claims C1 to C20 with their witnesses and
counterexamples.
-/

namespace DomainParser

/-! ## Part 1: the program

### Constants, library functions, header, question and request (lines 15-84) -/

/-- The record type A. -/
def typeA : Nat := 1

/-- The class IN. -/
def classIN : Nat := 1

/-- The byte that ends a name. -/
def eof : Nat := 0

/-- The two top bits of a byte, which mark a compression pointer. -/
def pointer : Nat := 0xC0

/-- The call `strings.Split(s, ".")` on the bytes of `s`, for a one-byte
separator: the segments between the separators, one more than there are
separators (so the empty string gives one empty segment). -/
def strings.Split : List Nat → Nat → List (List Nat)
  | [], _ => [[]]
  | c :: cs, sep =>
    if c = sep then [] :: strings.Split cs sep
    else
      match strings.Split cs sep with
      | [] => [[c]]
      | l :: ls => (c :: l) :: ls

/-- The bytes `binary.Write(_, binary.BigEndian, v)` appends for a `uint16`. -/
def putUint16 (v : Nat) : List Nat := [v / 256 % 256, v % 256]

/-- The bytes `binary.Write(_, binary.BigEndian, v)` appends for a `uint32`. -/
def putUint32 (v : Nat) : List Nat :=
  [v / 16777216 % 256, v / 65536 % 256, v / 256 % 256, v % 256]

/-- The value `binary.Read(_, binary.BigEndian, &v)` stores in a `uint16`
from a two-byte buffer. -/
def getUint16 : List Nat → Nat
  | [a, b] => a * 256 + b
  | _ => 0

/-- The value `binary.Read(_, binary.BigEndian, &v)` stores in a `uint32`
from a four-byte buffer. -/
def getUint32 : List Nat → Nat
  | [a, b, c, d] => a * 16777216 + b * 65536 + c * 256 + d
  | _ => 0

/-- Lines 24-31: the header, six `uint16` fields. -/
structure dnsHeader where
  ID : Nat
  Flag : Nat
  QDCount : Nat
  ANCount : Nat
  NSCount : Nat
  ARCount : Nat
  deriving DecidableEq, Repr

/-- Line 35: `h.Flag = qr<<15 + opcode<<11 + aa<<10 + tc<<9 + rd<<8 + ra<<7 + rcode`
in `uint16` arithmetic (a shift binds tighter than `+` in Go). -/
def dnsHeader.setFlag (h : dnsHeader) (qr opcode aa tc rd ra rcode : Nat) : dnsHeader :=
  { h with
    Flag := ((qr <<< 15) % 65536 + (opcode <<< 11) % 65536 + (aa <<< 10) % 65536
      + (tc <<< 9) % 65536 + (rd <<< 8) % 65536 + (ra <<< 7) % 65536 + rcode % 65536) % 65536 }

/-- The twelve bytes `binary.Write(&buf, binary.BigEndian, header)` appends: the
six `uint16` fields in declaration order. -/
def dnsHeader.bytes (h : dnsHeader) : List Nat :=
  putUint16 h.ID ++ putUint16 h.Flag ++ putUint16 h.QDCount ++ putUint16 h.ANCount
    ++ putUint16 h.NSCount ++ putUint16 h.ARCount

/-- Lines 39-43: the question. -/
structure dnsQuestion where
  QName : List Nat
  QType : Nat
  QClass : Nat
  deriving DecidableEq, Repr

/-- Lines 46-57: every segment of `strings.Split(qname, ".")` is written as
`byte(len(n))` followed by its bytes, then the byte `eof`. -/
def dnsQuestion.setQName (q : dnsQuestion) (qname : List Nat) : dnsQuestion :=
  { q with
    QName := (strings.Split qname 46).foldl (fun buf n => buf ++ [n.length % 256] ++ n) []
      ++ [eof] }

/-- Lines 60-84: the header with ID 1, QDCOUNT 1 and the flags of
`setFlag(0, 0, 0, 0, 1, 0, 0)`, the name as `setQName` encodes it, and the
question type and class. -/
def packRequest (qname : List Nat) : List Nat :=
  let header : dnsHeader :=
    { ID := 0x0001, Flag := 0, QDCount := 1, ANCount := 0, NSCount := 0, ARCount := 0 }
  let header := header.setFlag 0 0 0 0 1 0 0
  let question : dnsQuestion := { QName := [], QType := typeA, QClass := classIN }
  let question := question.setQName qname
  header.bytes ++ question.QName ++ (putUint16 question.QType ++ putUint16 question.QClass)

/-! ### The reader

`unpackResponse` wraps its `io.Reader` in `bufio.NewReader`, whose buffer has the
default size of 4096 bytes.  The response is modelled as the bytes an in-memory
reader (`bytes.Reader`) holds: a `Read` of the underlying reader copies as many
of the remaining bytes as the destination takes and reports `io.EOF` once none
remain.  `bufio.Reader` serves a `Read` from at most one `Read` of the
underlying reader and, when its buffer holds unread bytes, from the buffer
alone, so a `Read` can return fewer bytes than asked for without an error
(the documentation of `bufio.Reader.Read`).  A UDP connection, the reader
`Resolve` passes, delivers a response in one `Read` of the underlying reader
into the same 4096-byte buffer. -/

/-- The errors `unpackResponse` can return: `io.EOF` from the reader, "invalid
answer packet" (line 234) and "invalid resource record data" (line 117). -/
inductive Err
  | EOF
  | invalidAnswerPacket
  | invalidResourceRecordData
  deriving DecidableEq, Repr

/-- The buffer size `bufio.NewReader` allocates. -/
def defaultBufSize : Nat := 4096

/-- A `bufio.Reader`: `buf` is the buffered unread part `b.buf[b.r:b.w]`, `rd`
the bytes the underlying reader has not delivered yet. -/
structure Reader where
  buf : List Nat
  rd : List Nat
  deriving DecidableEq, Repr

/-- The method `fill` on a buffer that is not full: one `Read` of the underlying
reader into the free space behind the buffered bytes. -/
def Reader.fill (b : Reader) : Reader :=
  { buf := b.buf ++ b.rd.take (defaultBufSize - b.buf.length)
    rd := b.rd.drop (defaultBufSize - b.buf.length) }

/-- The call `Read(p)` with `len(p) = k`: the bytes stored in `p[:n]`, the error
and the reader afterwards.  With unread bytes in the buffer only those are
copied; with an empty buffer the underlying reader is read once (directly into
`p` when `p` is at least as long as the buffer). -/
def Reader.Read (b : Reader) (k : Nat) : List Nat × Option Err × Reader :=
  if k = 0 then ([], none, b)
  else if b.buf = [] then
    if b.rd = [] then ([], some Err.EOF, b)
    else if defaultBufSize ≤ k then (b.rd.take k, none, { buf := [], rd := b.rd.drop k })
    else (b.fill.buf.take k, none, { buf := b.fill.buf.drop k, rd := b.fill.rd })
  else (b.buf.take k, none, { buf := b.buf.drop k, rd := b.rd })

/-- The call `ReadByte()`: with an empty buffer the buffer is filled first, and
`io.EOF` is returned when the underlying reader has nothing left. -/
def Reader.ReadByte (b : Reader) : Except Err (Nat × Reader) :=
  match b.buf with
  | c :: cs => Except.ok (c, { buf := cs, rd := b.rd })
  | [] =>
    match b.fill.buf with
    | c :: cs => Except.ok (c, { buf := cs, rd := b.fill.rd })
    | [] => Except.error Err.EOF

/-- The list up to and including the first `delim`, and what follows it. -/
def cutAt (delim : Nat) : List Nat → Option (List Nat × List Nat)
  | [] => none
  | c :: cs =>
    if c = delim then some ([c], cs)
    else
      match cutAt delim cs with
      | some (line, rest) => some (c :: line, rest)
      | none => none

/-- The loop of `ReadBytes` (`collectFragments` over `ReadSlice`): return at the
delimiter; set a full buffer aside as a fragment; otherwise fill, or return what
was read with `io.EOF` when the underlying reader is exhausted.  The counter
only makes the recursion structural, `ReadBytes` starts it high enough. -/
def Reader.readBytesLoop (delim : Nat) : Nat → Reader → List Nat → List Nat × Option Err × Reader
  | 0, b, acc => (acc, some Err.EOF, b)
  | n + 1, b, acc =>
    match cutAt delim b.buf with
    | some (line, rest) => (acc ++ line, none, { buf := rest, rd := b.rd })
    | none =>
      if defaultBufSize ≤ b.buf.length then
        Reader.readBytesLoop delim n { buf := [], rd := b.rd } (acc ++ b.buf)
      else if b.rd = [] then (acc ++ b.buf, some Err.EOF, { buf := [], rd := [] })
      else Reader.readBytesLoop delim n b.fill acc

/-- The call `ReadBytes(delim)`. -/
def Reader.ReadBytes (b : Reader) (delim : Nat) : List Nat × Option Err × Reader :=
  b.readBytesLoop delim (2 * b.rd.length + 3) []

/-- The effect of `Peek(n)` on the reader, for `n` no larger than the buffer:
with fewer than `n` bytes buffered the buffer is filled (the pending `io.EOF`
of an exhausted underlying reader is consumed by `Peek` itself). -/
def Reader.Peek (b : Reader) (n : Nat) : Reader :=
  if b.buf.length < n then b.fill else b

/-! ### Answers, name resolution and the response (lines 86-278) -/

/-- The type `rdataA`: `addr` is the array `[4]uint8`. -/
structure rdataA where
  addr : List Nat
  deriving DecidableEq, Repr

/-- A `dnsAnswer`; `Typ` is the field `Type`, `RData` the interface value,
`none` for `nil`. -/
structure dnsAnswer where
  Name : List Nat
  Typ : Nat
  Class : Nat
  TTL : Nat
  RDLength : Nat
  RData : Option rdataA
  deriving DecidableEq, Repr

/-- The digits `%d` prints for an unsigned value (`fmt.fmtInteger` in base 10):
the loop `for u >= 10` writes the last digit in front of the digits written so
far and goes on with `u / 10`, then the leading digit is written.  `n` bounds
the iterations of the loop; a `uint8` takes at most two. -/
def fmtDecimal : Nat → Nat → List Nat → List Nat
  | 0, u, buf => (48 + u) :: buf
  | n + 1, u, buf =>
    if 10 ≤ u then fmtDecimal n (u / 10) ((48 + u % 10) :: buf) else (48 + u) :: buf

/-- Lines 107-109: `fmt.Sprintf("%d.%d.%d.%d", r.addr[0], r.addr[1], r.addr[2], r.addr[3])`. -/
def rdataA.value (r : rdataA) : List Nat :=
  fmtDecimal 2 (r.addr.getD 0 0) [] ++ [46] ++ fmtDecimal 2 (r.addr.getD 1 0) [] ++ [46]
    ++ fmtDecimal 2 (r.addr.getD 2 0) [] ++ [46] ++ fmtDecimal 2 (r.addr.getD 3 0) []

/-- Lines 111-133: for type A the four bytes of `rdata` are stored one by one
into a fresh `rdataA`; any other type leaves the interface value `nil`. -/
def dnsAnswer.setRData (r : dnsAnswer) (rdata _data : List Nat) : Except Err dnsAnswer :=
  if r.Typ = typeA then
    if rdata.length ≠ 4 then Except.error Err.invalidResourceRecordData
    else
      Except.ok { r with
        RData := some { addr := rdata.enum.foldl (fun a id => a.set id.1 id.2) [0, 0, 0, 0] } }
  else Except.ok { r with RData := none }

/-- The loop of `getRefData`, with the loop variable `i` and the slice `refData`;
`none` when the loop is still running after `fuel` iterations.  At a pointer
`p` is read from the two bytes and `i = int(p - 1)`, a `uint16` subtraction,
is followed by the `i++` of the loop. -/
def getRefData.loop (data : List Nat) : Nat → Nat → List Nat → Option (List Nat)
  | 0, _, _ => none
  | fuel + 1, i, refData =>
    match data[i]? with
    | none => some refData
    | some b =>
      if b &&& pointer = pointer then
        match data[i + 1]? with
        | none => some []
        | some b1 =>
          let p := getUint16 [b ^^^ pointer, b1]
          getRefData.loop data fuel ((p + 65535) % 65536 + 1) refData
      else if b = eof then some (refData ++ [b])
      else getRefData.loop data fuel (i + 1) (refData ++ [b])

/-- Lines 135-160: the loop from `i = int(p)` with an empty `refData`. -/
def getRefData (fuel : Nat) (data : List Nat) (p : Nat) : Option (List Nat) :=
  getRefData.loop data fuel p []

/-- The loop of `getRefData` with the index checks of Go: `data[i]` at line 143
is evaluated under the loop condition `i < len(data)`, `data[i+1]` at line 148
behind the guard of line 144, and an index expression out of range ends the
run with a panic, `Except.error ()`.  The index `i` is an `int` that is never
negative: it starts at `int(p)` and is set to `int(p - 1)` for an unsigned `p`. -/
def getRefData.checked (data : List Nat) : Nat → Nat → List Nat → Option (Except Unit (List Nat))
  | 0, _, _ => none
  | fuel + 1, i, refData =>
    if i < data.length then
      match data[i]? with
      | none => some (Except.error ())
      | some b =>
        if b &&& pointer = pointer then
          if i + 1 ≥ data.length then some (Except.ok [])
          else
            match data[i + 1]? with
            | none => some (Except.error ())
            | some b1 =>
              let p := getUint16 [b ^^^ pointer, b1]
              getRefData.checked data fuel ((p + 65535) % 65536 + 1) refData
        else if b = eof then some (Except.ok (refData ++ [b]))
        else getRefData.checked data fuel (i + 1) (refData ++ [b])
    else some (Except.ok refData)

/-- What `unpackResponse` returns: the slice (`none` for `nil`, its entries
pointers that may be `nil`) and the error. -/
structure Result where
  answers : Option (List (Option dnsAnswer))
  err : Option Err
  deriving DecidableEq, Repr

/-- The locals of `unpackResponse` once header and question are read. -/
structure Prelude where
  header : dnsHeader
  question : dnsQuestion
  data : List Nat
  reader : Reader
  deriving DecidableEq, Repr

/-- Lines 172-204: header and question.  `Except.error e` is `return nil, e`,
where `e` is `nil` after a short read without error. -/
def unpackResponse.prelude (rd : List Nat) : Except (Option Err) Prelude :=
  let reader : Reader := { buf := [], rd := rd }
  match reader.Read 12 with
  | (buf, err, reader) =>
    if err ≠ none ∨ buf.length ≠ 12 then Except.error err
    else
      let header : dnsHeader :=
        { ID := getUint16 (buf.take 2)
          Flag := getUint16 ((buf.drop 2).take 2)
          QDCount := getUint16 ((buf.drop 4).take 2)
          ANCount := getUint16 ((buf.drop 6).take 2)
          NSCount := getUint16 ((buf.drop 8).take 2)
          ARCount := getUint16 ((buf.drop 10).take 2) }
      let data := buf
      match reader.ReadBytes eof with
      | (buf, err, reader) =>
        if err ≠ none then Except.error err
        else
          let data := data ++ buf
          let qname := buf
          match reader.Read 4 with
          | (buf, err, reader) =>
            if err ≠ none ∨ buf.length ≠ 4 then Except.error err
            else
              Except.ok
                { header := header
                  question :=
                    { QName := qname
                      QType := getUint16 (buf.take 2)
                      QClass := getUint16 (buf.drop 2) }
                  data := data ++ buf
                  reader := reader }

/-- Lines 216-245: the NAME loop of one answer, from the reader, the buffer
`data` and the name read so far.  `none`: no result within `fuel` iterations;
`Except.error e`: `return nil, e`. -/
def unpackResponse.name (fuel : Nat) :
    Nat → Reader → List Nat → List Nat → Option (Except Err (Reader × List Nat × List Nat))
  | 0, _, _, _ => none
  | n + 1, reader, data, name =>
    match reader.ReadByte with
    | Except.error e => some (Except.error e)
    | Except.ok (b, reader) =>
      if b &&& pointer = pointer then
        match reader.ReadByte with
        | Except.error e => some (Except.error e)
        | Except.ok (b1, reader) =>
          let p := getUint16 [b ^^^ pointer, b1]
          match getRefData fuel (data ++ [b] ++ [b1]) p with
          | none => none
          | some buf =>
            if buf.length = 0 then some (Except.error Err.invalidAnswerPacket)
            else some (Except.ok (reader, data ++ [b] ++ [b1], name ++ buf))
      else if b = eof then some (Except.ok (reader, data ++ [b], name ++ [b]))
      else unpackResponse.name fuel n reader (data ++ [b]) (name ++ [b])

/-- Lines 211-273: the loop over the answers, `k` iterations from index `i`. -/
def unpackResponse.answers (fuel : Nat) :
    Nat → Nat → Reader → List Nat → List (Option dnsAnswer) → Option Result
  | 0, _, _, _, answers => some { answers := some answers, err := none }
  | k + 1, i, reader, data, answers =>
    match unpackResponse.name fuel fuel reader data [] with
    | none => none
    | some (Except.error e) => some { answers := none, err := some e }
    | some (Except.ok (reader, data, name)) =>
      match reader.Read 10 with
      | (buf, err, reader) =>
        if err ≠ none ∨ buf.length ≠ 10 then some { answers := none, err := err }
        else
          let answer : dnsAnswer :=
            { Name := name
              Typ := getUint16 (buf.take 2)
              Class := getUint16 ((buf.drop 2).take 2)
              TTL := getUint32 ((buf.drop 4).take 4)
              RDLength := getUint16 ((buf.drop 8).take 2)
              RData := none }
          let data := data ++ buf
          match reader.Read answer.RDLength with
          | (buf, err, reader) =>
            if err ≠ none ∨ buf.length < answer.RDLength then some { answers := none, err := err }
            else
              let data := data ++ buf
              match answer.setRData buf data with
              | Except.error e => some { answers := none, err := some e }
              | Except.ok answer =>
                unpackResponse.answers fuel k (i + 1) reader data (answers.set i (some answer))

/-- Lines 163-278, on the bytes `rd` the reader holds.  `fuel` bounds the
iterations of each name loop; `none` means a loop did not finish within it. -/
def unpackResponse (fuel : Nat) (rd : List Nat) : Option Result :=
  match unpackResponse.prelude rd with
  | Except.error e => some { answers := none, err := e }
  | Except.ok s =>
    unpackResponse.answers fuel s.header.ANCount 0 (s.reader.Peek 59) s.data
      (List.replicate s.header.ANCount none)

/-! ### The loop of `Resolve` over the records (lines 303-311) -/

/-- The address `net.IPv4(a, b, c, d)`: the sixteen-byte form of an IPv4 address. -/
def net.IPv4 (a b c d : Nat) : List Nat :=
  [0, 0, 0, 0, 0, 0, 0, 0, 0, 0, 0xFF, 0xFF, a, b, c, d]

/-- The loop of the IPv4 parser behind `net.ParseIP` (`parseIPv4Fields`) over the
rest of the string, with the previous byte, the value and the digit count of
the current field, the index of the field and the fields stored so far. -/
def net.parseIPv4Fields :
    List Nat → Option Nat → Nat → Nat → Nat → List Nat → Option (List Nat)
  | [], _, val, pos, _, fields => if pos < 3 then none else some (fields.set 3 val)
  | c :: rest, prev, val, pos, digLen, fields =>
    if 48 ≤ c ∧ c ≤ 57 then
      if digLen = 1 ∧ val = 0 then none
      else if 255 < val * 10 + (c - 48) then none
      else net.parseIPv4Fields rest (some c) (val * 10 + (c - 48)) pos (digLen + 1) fields
    else if c = 46 then
      if prev = none ∨ rest = [] ∨ prev = some 46 then none
      else if pos = 3 then none
      else net.parseIPv4Fields rest (some c) 0 (pos + 1) 0 (fields.set pos val)
    else none

/-- The call `net.ParseIP(s)` for a string without a colon or a percent sign:
the address in its sixteen-byte form, `none` for `nil`. -/
def net.ParseIP (s : List Nat) : Option (List Nat) :=
  match net.parseIPv4Fields s none 0 0 0 [0, 0, 0, 0] with
  | some [a, b, c, d] => some (net.IPv4 a b c d)
  | _ => none

/-- Lines 303-311: the loop of `Resolve` over the records, from the addresses
collected so far; `none` when it reads the `Type` of a `nil` record or calls
`value()` on a `nil` interface value (a run-time panic). -/
def Resolve.names : List (Option dnsAnswer) → List (List Nat) → Option (List (List Nat))
  | [], names => some names
  | none :: _, _ => none
  | some a :: rest, names =>
    if a.Typ ≠ typeA then Resolve.names rest names
    else
      match a.RData with
      | none => none
      | some rd =>
        match net.ParseIP rd.value with
        | some ip => Resolve.names rest (names ++ [ip])
        | none => Resolve.names rest names

/-! ## Part 2: the vocabulary of the claims

Names given by their labels, the records and responses of the wire format, and
the properties of readers and records that the decoder maintains. -/

/-- The name encoding that `setQName` stores, as a function of the name. -/
def setQName (qname : List Nat) : List Nat :=
  (dnsQuestion.setQName { QName := [], QType := 0, QClass := 0 } qname).QName

/-- The bytes of a Go string literal that holds ASCII text. -/
def str (s : String) : List Nat := s.toList.map Char.toNat

/-- A byte that both name loops take as label data: not the terminator, and
without the two top bits that mark a pointer. -/
def literalByte (b : Nat) : Prop := b ≠ 0 ∧ b &&& pointer ≠ pointer

instance (b : Nat) : Decidable (literalByte b) := by
  unfold literalByte
  infer_instance

/-- The label encoding of a list of labels without the terminating zero: each
label behind its length. -/
def labelBytes (labels : List (List Nat)) : List Nat := labels.flatMap (fun l => l.length :: l)

/-- Splitting a label encoding back into its labels: a length byte and that
many bytes, again and again, up to the zero length byte that ends the
encoding. -/
def splitLabels : Nat → List Nat → Option (List (List Nat))
  | 0, _ => none
  | _ + 1, [] => none
  | n + 1, len :: rest =>
    if len = 0 then (if rest = [] then some [] else none)
    else if rest.length < len then none
    else (splitLabels n (rest.drop len)).map (fun ls => rest.take len :: ls)

/-- The name a label encoding stands for: its labels joined with dots. -/
def decodeName (enc : List Nat) : Option (List Nat) :=
  (splitLabels (enc.length + 1) enc).map (List.intercalate [46])

/-- An answer record as it stands on the wire: the literal part of its name
(label after label, each behind its length byte), whether the name ends in
the pointer `C0 0C` to the question name instead of a zero byte, the fixed
fields, and the resource data. -/
structure WireAnswer where
  literal : List Nat
  compressed : Bool
  typ : Nat
  cls : Nat
  ttl : Nat
  rdata : List Nat
  deriving DecidableEq, Repr

/-- The name of the record on the wire. -/
def WireAnswer.nameBytes (a : WireAnswer) : List Nat :=
  a.literal ++ (if a.compressed then [0xC0, 0x0C] else [0])

/-- The ten bytes behind the name: TYPE, CLASS, TTL and RDLENGTH, big-endian. -/
def WireAnswer.fixedBytes (a : WireAnswer) : List Nat :=
  putUint16 a.typ ++ putUint16 a.cls ++ putUint32 a.ttl ++ putUint16 a.rdata.length

/-- The record on the wire. -/
def WireAnswer.bytes (a : WireAnswer) : List Nat :=
  a.nameBytes ++ a.fixedBytes ++ a.rdata

/-- The fields fit their widths, the literal part of the name holds label
data only, and a record of type A carries four bytes. -/
def WireAnswer.WellFormed (a : WireAnswer) : Prop :=
  (∀ b ∈ a.literal, literalByte b) ∧ a.typ < 65536 ∧ a.cls < 65536 ∧ a.ttl < 4294967296
    ∧ a.rdata.length < 65536 ∧ (a.typ = typeA → a.rdata.length = 4)

instance (a : WireAnswer) : Decidable a.WellFormed := by
  unfold WireAnswer.WellFormed
  infer_instance

/-- The record a decoder is expected to produce for a wire record, in a
response whose question name is `qname`. -/
def WireAnswer.decoded (qname : List Nat) (a : WireAnswer) : dnsAnswer :=
  { Name := a.literal ++ (if a.compressed then qname else [0])
    Typ := a.typ
    Class := a.cls
    TTL := a.ttl
    RDLength := a.rdata.length
    RData := if a.typ = typeA then some { addr := a.rdata } else none }

/-- A response on the wire: the twelve header bytes, the question name with its
zero byte, the four bytes of question type and class, the answer records. -/
def response (hdr qname qtc : List Nat) (recs : List WireAnswer) : List Nat :=
  hdr ++ qname ++ qtc ++ recs.flatMap WireAnswer.bytes

/-- The slice after the records `recs` are stored from index `i` on. -/
def storeFrom (answers : List (Option dnsAnswer)) (i : Nat) (recs : List dnsAnswer) :
    List (Option dnsAnswer) :=
  match recs with
  | [] => answers
  | r :: rs => storeFrom (answers.set i (some r)) (i + 1) rs

/-- A response with one answer of type A and class IN under a literal name:
twelve header bytes, the question name `qlit` with its zero byte, four bytes
of question type and class, and the answer record (the labels of its name and
a zero byte, type 1, class 1, the TTL, RDLENGTH 4, the resource data). -/
def oneAnswerA (hdr qlit qtc : List Nat) (labels : List (List Nat)) (ttl : Nat)
    (rdata : List Nat) : List Nat :=
  hdr ++ (qlit ++ [0]) ++ qtc
    ++ ((labelBytes labels ++ [0]) ++ (putUint16 1 ++ putUint16 1 ++ putUint32 ttl ++ putUint16 4)
      ++ rdata)

/-- The answer record of `oneAnswerA`. -/
def recordA (labels : List (List Nat)) (ttl : Nat) (rdata : List Nat) : WireAnswer :=
  { literal := labelBytes labels, compressed := false, typ := 1, cls := 1, ttl := ttl,
    rdata := rdata }

/-- Every byte the reader still holds is below 256. -/
def Reader.bytesOK (b : Reader) : Prop := (∀ x ∈ b.buf, x < 256) ∧ (∀ x ∈ b.rd, x < 256)

/-- A record as `unpackResponse` stores it: one of type A holds four address
bytes. -/
def goodRecord (r : dnsAnswer) : Prop :=
  r.Typ = typeA →
    ∃ b0 b1 b2 b3, r.RData = some { addr := [b0, b1, b2, b3] } ∧ r.RDLength = 4
      ∧ b0 < 256 ∧ b1 < 256 ∧ b2 < 256 ∧ b3 < 256

/-- The address `Resolve` takes from a record of type A: `net.IPv4` of the four
bytes of its resource data. -/
def address (r : dnsAnswer) : List Nat :=
  match r.RData with
  | some rd => net.IPv4 (rd.addr.getD 0 0) (rd.addr.getD 1 0) (rd.addr.getD 2 0) (rd.addr.getD 3 0)
  | none => []

/-! ### The inputs of the examples -/

/-- The question name of the examples. -/
def exampleLabels : List (List Nat) := [str "example", str "com"]

/-- Sixty-three labels of 63 bytes `a` and one more of `n` bytes `a`. -/
def aLabels (n : Nat) : List (List Nat) :=
  List.replicate 63 (List.replicate 63 97) ++ [List.replicate n 97]

/-- An answer of type A and class IN whose name is the pointer `C0 0C`:
sixteen bytes. -/
def pointerA : WireAnswer :=
  { literal := [], compressed := true, typ := 1, cls := 1, ttl := 300,
    rdata := [0x5D, 0xB8, 0xD8, 0x22] }

/-- An answer of type A and class IN whose name is the label "www" and the
pointer `C0 0C`: twenty bytes. -/
def wwwPointerA : WireAnswer :=
  { literal := labelBytes [str "www"], compressed := true, typ := 1, cls := 1, ttl := 300,
    rdata := [0x5D, 0xB8, 0xD8, 0x22] }

/-- An answer of type 28 (AAAA) and class IN under the pointer `C0 0C`, with
sixteen bytes of resource data. -/
def pointerAAAA : WireAnswer :=
  { literal := [], compressed := true, typ := 28, cls := 1, ttl := 300,
    rdata := [0x26, 0x06, 0x28, 0x00, 0x02, 0x20, 0x00, 0x01, 0x02, 0x48, 0x18, 0x93, 0x25, 0xC8,
      0x19, 0x46] }

/-- An answer of type 16 (TXT) and class IN under the pointer `C0 0C`, with
4096 bytes of resource data. -/
def longTXT : WireAnswer :=
  { literal := [], compressed := true, typ := 16, cls := 1, ttl := 300,
    rdata := List.replicate 4096 97 }

/-- The answer of the long response: the name has sixty-three labels of 63 bytes
and one of 28 bytes, 4062 bytes with its zero byte. -/
def longNameResponse : List Nat :=
  oneAnswerA [0x00, 0x01, 0x81, 0x80, 0x00, 0x01, 0x00, 0x01, 0x00, 0x00, 0x00, 0x00]
    (labelBytes [str "example", str "com"]) [0x00, 0x01, 0x00, 0x01]
    (aLabels 28) 300 [0x5D, 0xB8, 0xD8, 0x22]

/-- A response to a query for "example.com" with ID 1 and two answers of type A:
the name of the first is the pointer `C0 00` to offset 0, the name of the
second the pointer `C0 1D` to the name of the first at offset 29. -/
def chainToZero : List Nat :=
  [0x00, 0x01, 0x81, 0x80, 0x00, 0x01, 0x00, 0x02, 0x00, 0x00, 0x00, 0x00]
    ++ (labelBytes exampleLabels ++ [0]) ++ [0x00, 0x01, 0x00, 0x01]
    ++ [0xC0, 0x00, 0x00, 0x01, 0x00, 0x01, 0x00, 0x00, 0x01, 0x2C, 0x00, 0x04,
        0x5D, 0xB8, 0xD8, 0x22]
    ++ [0xC0, 0x1D, 0x00, 0x01, 0x00, 0x01, 0x00, 0x00, 0x01, 0x2C, 0x00, 0x04,
        0x5D, 0xB8, 0xD8, 0x22]

/-- The same response with the pointer `C0 00` as the name of both answers. -/
def directToZero : List Nat :=
  [0x00, 0x01, 0x81, 0x80, 0x00, 0x01, 0x00, 0x02, 0x00, 0x00, 0x00, 0x00]
    ++ (labelBytes exampleLabels ++ [0]) ++ [0x00, 0x01, 0x00, 0x01]
    ++ [0xC0, 0x00, 0x00, 0x01, 0x00, 0x01, 0x00, 0x00, 0x01, 0x2C, 0x00, 0x04,
        0x5D, 0xB8, 0xD8, 0x22]
    ++ [0xC0, 0x00, 0x00, 0x01, 0x00, 0x01, 0x00, 0x00, 0x01, 0x2C, 0x00, 0x04,
        0x5D, 0xB8, 0xD8, 0x22]

/-- A response of 45 bytes to a query for "example.com": one answer of type A
under the pointer `C0 0C`. -/
def shortResponse : List Nat :=
  response [0x00, 0x01, 0x81, 0x80, 0x00, 0x01, 0x00, 0x01, 0x00, 0x00, 0x00, 0x00]
    (labelBytes exampleLabels ++ [0]) [0x00, 0x01, 0x00, 0x01] [pointerA]

/-- A response to a query for "example.com" with an answer of type A and an
answer of type 28, both under the pointer `C0 0C`. -/
def twoTypes : List Nat :=
  response [0x00, 0x01, 0x81, 0x80, 0x00, 0x01, 0x00, 0x02, 0x00, 0x00, 0x00, 0x00]
    (labelBytes exampleLabels ++ [0]) [0x00, 0x01, 0x00, 0x01] [pointerA, pointerAAAA]

/-! ### Streams, stored records and followed pointers

What a reader still has to deliver, the relation between a reader and one on a
longer input, the place of a stored record in the input, and the pointers a
run follows. -/

/-- The bytes the reader has not returned yet: the buffered ones, then those
the underlying reader still holds. -/
def Reader.stream (b : Reader) : List Nat := b.buf ++ b.rd

/-- The reader `b2` reads the input of `b` followed by `x`, and is where `b` is:
its buffer holds what the buffer of `b` holds, and more only once `b` has
taken the whole of its own input into the buffer. -/
def Reader.Extends (x : List Nat) (b b2 : Reader) : Prop :=
  ∃ u, b2.buf = b.buf ++ u ∧ u ++ b2.rd = b.rd ++ x ∧ (u = [] ∨ b.rd = [])

/-- The record `r` stands in the bytes `resp` with the resource data `rdata`:
somewhere in `resp` ten bytes hold its Type, Class, TTL and RDLength in
big-endian form, and the RDLength bytes behind them are `rdata`. -/
def decodedFrom (resp : List Nat) (r : dnsAnswer) (rdata : List Nat) : Prop :=
  ∃ pre fixed post, resp = pre ++ fixed ++ rdata ++ post ∧ fixed.length = 10
    ∧ r.Typ = getUint16 (fixed.take 2) ∧ r.Class = getUint16 ((fixed.drop 2).take 2)
    ∧ r.TTL = getUint32 ((fixed.drop 4).take 4) ∧ r.RDLength = getUint16 ((fixed.drop 8).take 2)
    ∧ rdata.length = r.RDLength

/-- A record as `unpackResponse` stores it for the bytes `resp`: its fixed
fields and resource data stand in `resp`, and a record of type A has RDLength 4
and an address value that holds the four bytes of its resource data. -/
def storedRecord (resp : List Nat) (r : dnsAnswer) : Prop :=
  ∃ rdata, decodedFrom resp r rdata
    ∧ (r.Typ = typeA → r.RDLength = 4 ∧ r.RData = some { addr := rdata })

/-- Reading `q` as length-prefixed labels meets a label whose declared length is
larger than the number of bytes behind its length byte. -/
def labelOverrun : Nat → List Nat → Bool
  | 0, _ => false
  | _ + 1, [] => false
  | n + 1, len :: rest =>
    if len = 0 then false
    else if rest.length < len then true
    else labelOverrun n (rest.drop len)

/-- Every pointer of the buffer points strictly backwards: wherever a byte with
the two top bits set is followed by another byte, the offset the two encode is
smaller than the position of the first. -/
def pointersBackward (data : List Nat) : Prop :=
  ∀ q < data.length, data.getD q 0 &&& pointer = pointer → q + 1 < data.length →
    getUint16 [data.getD q 0 ^^^ pointer, data.getD (q + 1) 0] < q

instance (data : List Nat) : Decidable (pointersBackward data) := by
  unfold pointersBackward
  infer_instance

/-- A list of offsets that strictly decreases: every entry is smaller than all
the entries before it. -/
def decreasing (l : List Nat) : Prop := l.Pairwise (fun a b => b < a)

instance (l : List Nat) : Decidable (decreasing l) := by
  unfold decreasing
  infer_instance

/-- The pointer targets that the loop of `getRefData` follows from index `i`
within `fuel` iterations: the offsets `p` read at line 148, in order. -/
def getRefData.targets (data : List Nat) : Nat → Nat → List Nat
  | 0, _ => []
  | fuel + 1, i =>
    match data[i]? with
    | none => []
    | some b =>
      if b &&& pointer = pointer then
        match data[i + 1]? with
        | none => []
        | some b1 =>
          let p := getUint16 [b ^^^ pointer, b1]
          p :: getRefData.targets data fuel ((p + 65535) % 65536 + 1)
      else if b = eof then []
      else getRefData.targets data fuel (i + 1)

/-- The pointer targets followed while the NAME loop decodes one name: the
offset `p` of the pointer in the name (line 231), with which `getRefData` is
called, and the targets `getRefData` follows from there. -/
def unpackResponse.nameTargets (fuel : Nat) : Nat → Reader → List Nat → List Nat
  | 0, _, _ => []
  | n + 1, reader, data =>
    match reader.ReadByte with
    | Except.error _ => []
    | Except.ok (b, reader) =>
      if b &&& pointer = pointer then
        match reader.ReadByte with
        | Except.error _ => []
        | Except.ok (b1, _) =>
          let p := getUint16 [b ^^^ pointer, b1]
          p :: getRefData.targets (data ++ [b] ++ [b1]) fuel p
      else if b = eof then []
      else unpackResponse.nameTargets fuel n reader (data ++ [b])

/-- The pointer targets followed while the loop over the answers runs: those of
the name of each answer the loop gets to. -/
def unpackResponse.answersTargets (fuel : Nat) : Nat → Reader → List Nat → List Nat
  | 0, _, _ => []
  | k + 1, reader, data =>
    unpackResponse.nameTargets fuel fuel reader data ++
      match unpackResponse.name fuel fuel reader data [] with
      | some (Except.ok (reader, data, name)) =>
        match reader.Read 10 with
        | (buf, err, reader) =>
          if err ≠ none ∨ buf.length ≠ 10 then []
          else
            let answer : dnsAnswer :=
              { Name := name
                Typ := getUint16 (buf.take 2)
                Class := getUint16 ((buf.drop 2).take 2)
                TTL := getUint32 ((buf.drop 4).take 4)
                RDLength := getUint16 ((buf.drop 8).take 2)
                RData := none }
            let data := data ++ buf
            match reader.Read answer.RDLength with
            | (buf, err, reader) =>
              if err ≠ none ∨ buf.length < answer.RDLength then []
              else
                let data := data ++ buf
                match answer.setRData buf data with
                | Except.error _ => []
                | Except.ok _ => unpackResponse.answersTargets fuel k reader data
      | _ => []

/-- The pointer targets followed while `unpackResponse` decodes the input `rd`,
with `fuel` iterations for each loop. -/
def unpackResponse.targets (fuel : Nat) (rd : List Nat) : List Nat :=
  match unpackResponse.prelude rd with
  | Except.error _ => []
  | Except.ok s => unpackResponse.answersTargets fuel s.header.ANCount (s.reader.Peek 59) s.data

/-- The pointer targets followed while the loop over the answers runs, name by
name: for each answer the loop gets to, the targets followed while its name is
decoded. -/
def unpackResponse.answersChains (fuel : Nat) : Nat → Reader → List Nat → List (List Nat)
  | 0, _, _ => []
  | k + 1, reader, data =>
    unpackResponse.nameTargets fuel fuel reader data ::
      match unpackResponse.name fuel fuel reader data [] with
      | some (Except.ok (reader, data, name)) =>
        match reader.Read 10 with
        | (buf, err, reader) =>
          if err ≠ none ∨ buf.length ≠ 10 then []
          else
            let answer : dnsAnswer :=
              { Name := name
                Typ := getUint16 (buf.take 2)
                Class := getUint16 ((buf.drop 2).take 2)
                TTL := getUint32 ((buf.drop 4).take 4)
                RDLength := getUint16 ((buf.drop 8).take 2)
                RData := none }
            let data := data ++ buf
            match reader.Read answer.RDLength with
            | (buf, err, reader) =>
              if err ≠ none ∨ buf.length < answer.RDLength then []
              else
                let data := data ++ buf
                match answer.setRData buf data with
                | Except.error _ => []
                | Except.ok _ => unpackResponse.answersChains fuel k reader data
      | _ => []

/-- The pointer targets followed while `unpackResponse` decodes the input `rd`,
name by name: one list for each answer name the loop gets to, with the offset
of the pointer in the name first and the targets `getRefData` follows from
there behind it. -/
def unpackResponse.chains (fuel : Nat) (rd : List Nat) : List (List Nat) :=
  match unpackResponse.prelude rd with
  | Except.error _ => []
  | Except.ok s => unpackResponse.answersChains fuel s.header.ANCount (s.reader.Peek 59) s.data

/-! ### Further inputs of the examples -/

/-- An answer of type A and class IN under the pointer `C0 0C` with five bytes
of resource data. -/
def fiveByteA : WireAnswer :=
  { literal := [], compressed := true, typ := 1, cls := 1, ttl := 300,
    rdata := [0x5D, 0xB8, 0xD8, 0x22, 0x00] }

/-- A response to a query for "example.com" with two answers.  The first, under
the pointer `C0 0C`, is a CNAME (type 5) whose six bytes of resource data, at
offsets 41 to 46, are the label "www" and the pointer `C0 FF` to offset 255.
The name of the second, of type A, is the pointer `C0 29` to offset 41. -/
def chainOutside : List Nat :=
  [0x00, 0x01, 0x81, 0x80, 0x00, 0x01, 0x00, 0x02, 0x00, 0x00, 0x00, 0x00]
    ++ (labelBytes exampleLabels ++ [0]) ++ [0x00, 0x01, 0x00, 0x01]
    ++ [0xC0, 0x0C, 0x00, 0x05, 0x00, 0x01, 0x00, 0x00, 0x01, 0x2C, 0x00, 0x06,
        0x03, 0x77, 0x77, 0x77, 0xC0, 0xFF]
    ++ [0xC0, 0x29, 0x00, 0x01, 0x00, 0x01, 0x00, 0x00, 0x01, 0x2C, 0x00, 0x04,
        0x5D, 0xB8, 0xD8, 0x22]

/-- The same response with the label "www" and the pointer `C0 FF` as the name
of the second answer itself. -/
def directOutside : List Nat :=
  [0x00, 0x01, 0x81, 0x80, 0x00, 0x01, 0x00, 0x02, 0x00, 0x00, 0x00, 0x00]
    ++ (labelBytes exampleLabels ++ [0]) ++ [0x00, 0x01, 0x00, 0x01]
    ++ [0xC0, 0x0C, 0x00, 0x05, 0x00, 0x01, 0x00, 0x00, 0x01, 0x2C, 0x00, 0x06,
        0x03, 0x77, 0x77, 0x77, 0xC0, 0xFF]
    ++ [0x03, 0x77, 0x77, 0x77, 0xC0, 0xFF, 0x00, 0x01, 0x00, 0x01, 0x00, 0x00, 0x01, 0x2C,
        0x00, 0x04, 0x5D, 0xB8, 0xD8, 0x22]

/-- A response to a query for "example.com" with one answer of type A whose
name is the label "é" in UTF-8, the bytes `02 C3 A9`, and a zero byte. -/
def utf8Name : List Nat :=
  [0x00, 0x01, 0x81, 0x80, 0x00, 0x01, 0x00, 0x01, 0x00, 0x00, 0x00, 0x00]
    ++ (labelBytes exampleLabels ++ [0]) ++ [0x00, 0x01, 0x00, 0x01]
    ++ [0x02, 0xC3, 0xA9, 0x00, 0x00, 0x01, 0x00, 0x01, 0x00, 0x00, 0x01, 0x2C, 0x00, 0x04,
        0x5D, 0xB8, 0xD8, 0x22]

/-- A response to a query for "example.com" with one answer of type A whose
name is a label of one byte, the byte `00`, and a zero byte: `01 00 00`. -/
def zeroName : List Nat :=
  [0x00, 0x01, 0x81, 0x80, 0x00, 0x01, 0x00, 0x01, 0x00, 0x00, 0x00, 0x00]
    ++ (labelBytes exampleLabels ++ [0]) ++ [0x00, 0x01, 0x00, 0x01]
    ++ [0x01, 0x00, 0x00, 0x00, 0x01, 0x00, 0x01, 0x00, 0x00, 0x01, 0x2C, 0x00, 0x04,
        0x5D, 0xB8, 0xD8, 0x22]

/-- A response to a query for "example.com" with one answer of type A whose
name, at offset 29, is the label "a" and the pointer `C0 1D` back to offset 29. -/
def cycleResponse : List Nat :=
  [0x00, 0x01, 0x81, 0x80, 0x00, 0x01, 0x00, 0x01, 0x00, 0x00, 0x00, 0x00]
    ++ (labelBytes exampleLabels ++ [0]) ++ [0x00, 0x01, 0x00, 0x01]
    ++ [0x01, 0x61, 0xC0, 0x1D, 0x00, 0x01, 0x00, 0x01, 0x00, 0x00, 0x01, 0x2C, 0x00, 0x04,
        0x0A, 0x00, 0x00, 0x01]

/-- An answer of type A and class IN under the pointer `C0 0C` with the TTL
2604, on the wire `00 00 0A 2C`. -/
def pointerATtl : WireAnswer :=
  { literal := [], compressed := true, typ := 1, cls := 1, ttl := 2604,
    rdata := [0x5D, 0xB8, 0xD8, 0x22] }

/-- An answer of type A and class IN whose name is a label of one byte, the
byte `00`, and a zero byte, `01 00 00`, with the TTL 256 and the address
10.1.0.1. -/
def zeroLabelA : WireAnswer :=
  { literal := labelBytes [[0x00]], compressed := false, typ := 1, cls := 1, ttl := 256,
    rdata := [0x0A, 0x01, 0x00, 0x01] }

/-! ## Part 3: lemmas -/

theorem split_ne_nil (s : List Nat) (sep : Nat) : strings.Split s sep ≠ [] := by
  induction s with
  | nil => simp [strings.Split]
  | cons c cs ih =>
    unfold strings.Split
    split
    · simp
    · split <;> simp

theorem split_append (l rest : List Nat) (sep : Nat) (h : sep ∉ l) :
    strings.Split (l ++ rest) sep
      = (l ++ (strings.Split rest sep).headD []) :: (strings.Split rest sep).tail := by
  induction l with
  | nil =>
    cases hs : strings.Split rest sep with
    | nil => exact absurd hs (split_ne_nil rest sep)
    | cons x xs => simp [hs]
  | cons c cs ih =>
    have hc : c ≠ sep := fun e => h (by simp [e])
    have hcs : sep ∉ cs := fun e => h (by simp [e])
    rw [List.cons_append, strings.Split, if_neg hc, ih hcs]
    rfl

theorem split_intercalate (labels : List (List Nat)) (sep : Nat) (hne : labels ≠ [])
    (hsep : ∀ l ∈ labels, sep ∉ l) :
    strings.Split (List.intercalate [sep] labels) sep = labels := by
  induction labels with
  | nil => exact absurd rfl hne
  | cons l ls ih =>
    cases ls with
    | nil =>
      have h := split_append l [] sep (hsep l (by simp))
      simpa [List.intercalate, strings.Split] using h
    | cons l2 ls =>
      have h1 : List.intercalate [sep] (l :: l2 :: ls)
          = l ++ sep :: List.intercalate [sep] (l2 :: ls) := by
        simp [List.intercalate]
      have h2 : strings.Split (sep :: List.intercalate [sep] (l2 :: ls)) sep
          = [] :: (l2 :: ls) := by
        rw [strings.Split, if_pos rfl, ih (by simp) (fun x hx => hsep x (by simp [hx]))]
      rw [h1, split_append l _ sep (hsep l (by simp)), h2]
      simp

theorem foldl_labels (segs : List (List Nat)) (acc : List Nat) :
    segs.foldl (fun buf n => buf ++ [n.length % 256] ++ n) acc
      = acc ++ segs.flatMap (fun n => n.length % 256 :: n) := by
  induction segs generalizing acc with
  | nil => simp
  | cons x xs ih => rw [List.foldl_cons, ih]; simp

theorem setQName_eq (qname : List Nat) :
    setQName qname
      = (strings.Split qname 46).flatMap (fun n => n.length % 256 :: n) ++ [0] := by
  unfold setQName dnsQuestion.setQName
  rw [foldl_labels]
  rfl

theorem flatMap_labels_congr (labels : List (List Nat)) (h : ∀ l ∈ labels, l.length < 256) :
    labels.flatMap (fun n => n.length % 256 :: n) = labels.flatMap (fun n => n.length :: n) := by
  induction labels with
  | nil => rfl
  | cons l ls ih =>
    have hl : l.length % 256 = l.length := Nat.mod_eq_of_lt (h l (by simp))
    simp [List.flatMap_cons, hl, ih (fun x hx => h x (by simp [hx]))]

/-- The encoding of a name given by its labels: each label behind its length,
then the zero byte. -/
theorem setQName_intercalate (labels : List (List Nat)) (hne : labels ≠ [])
    (hdot : ∀ l ∈ labels, 46 ∉ l) (hlen : ∀ l ∈ labels, l.length < 256) :
    setQName (List.intercalate [46] labels)
      = labels.flatMap (fun l => l.length :: l) ++ [0] := by
  rw [setQName_eq, split_intercalate labels 46 hne hdot, flatMap_labels_congr labels hlen]

theorem packRequest_eq (name : List Nat) :
    packRequest name
      = [0x00, 0x01, 0x01, 0x00, 0x00, 0x01, 0x00, 0x00, 0x00, 0x00, 0x00, 0x00]
        ++ setQName name ++ [0x00, 0x01, 0x00, 0x01] := by
  simp [packRequest, setQName, dnsQuestion.setQName, dnsHeader.setFlag, dnsHeader.bytes,
    putUint16, typeA, classIN]

theorem Read_append (a t rd : List Nat) :
    Reader.Read { buf := a ++ t, rd := rd } a.length = (a, none, { buf := t, rd := rd }) := by
  cases a with
  | nil => simp [Reader.Read]
  | cons x xs => simp [Reader.Read]

theorem ReadByte_cons (c : Nat) (t rd : List Nat) :
    Reader.ReadByte { buf := c :: t, rd := rd } = Except.ok (c, { buf := t, rd := rd }) := rfl

theorem cutAt_append (d : Nat) (a t : List Nat) (h : d ∉ a) :
    cutAt d (a ++ d :: t) = some (a ++ [d], t) := by
  induction a with
  | nil => simp [cutAt]
  | cons x xs ih =>
    have hx : x ≠ d := fun e => h (by simp [e])
    have hxs : d ∉ xs := fun e => h (by simp [e])
    simp [cutAt, hx, ih hxs]

theorem ReadBytes_append (a t rd : List Nat) (h : 0 ∉ a) :
    Reader.ReadBytes { buf := a ++ 0 :: t, rd := rd } 0
      = (a ++ [0], none, { buf := t, rd := rd }) := by
  show Reader.readBytesLoop 0 ((2 * rd.length + 2) + 1) _ [] = _
  rw [Reader.readBytesLoop]
  simp [cutAt_append 0 a t h]

/-- The first `Read(buf)` of twelve bytes on a fresh reader loads the first 4096
bytes of the response into the buffer. -/
theorem Read_header (hdr rest : List Nat) (h : hdr.length = 12) :
    Reader.Read { buf := [], rd := hdr ++ rest } 12
      = (hdr, none, { buf := rest.take 4084, rd := rest.drop 4084 }) := by
  have hne : hdr ++ rest ≠ [] := by
    intro e
    have := congrArg List.length e
    simp [h] at this
  have h1 : List.take 4096 (hdr ++ rest) = hdr ++ rest.take 4084 := by
    have := @List.take_append _ hdr rest 4084
    rw [h] at this
    exact this
  have h2 : List.drop 4096 (hdr ++ rest) = rest.drop 4084 := by
    have := @List.drop_append _ hdr rest 4084
    rw [h] at this
    exact this
  have h3 : List.take 12 (hdr ++ rest.take 4084) = hdr := List.take_left' h
  have h4 : List.drop 12 (hdr ++ rest.take 4084) = rest.take 4084 := List.drop_left' h
  simp [Reader.Read, Reader.fill, defaultBufSize, hne, h1, h2, h3, h4]

/-- The call `Peek(59)` leaves the buffered bytes in front of the buffer. -/
theorem Peek_buf (buf rd : List Nat) (n : Nat) :
    ∃ x rd2, Reader.Peek { buf := buf, rd := rd } n = { buf := buf ++ x, rd := rd2 } := by
  unfold Reader.Peek
  split
  · exact ⟨_, _, rfl⟩
  · exact ⟨[], rd, by simp⟩

theorem literalByte_of_lt (b : Nat) (h0 : 1 ≤ b) (h : b < 128) : literalByte b := by
  refine ⟨by omega, fun e => ?_⟩
  have : b &&& pointer ≤ b := Nat.and_le_left
  rw [e] at this
  simp [pointer] at this
  omega

theorem getElem?_length_append (pre : List Nat) (b : Nat) (rest : List Nat) :
    (pre ++ b :: rest)[pre.length]? = some b := by
  rw [List.getElem?_append_right (le_refl _)]
  simp

theorem getRefData_loop_literal (lit pre post acc : List Nat) (fuel : Nat)
    (hlit : ∀ b ∈ lit, literalByte b) (hfuel : lit.length < fuel) :
    getRefData.loop (pre ++ lit ++ 0 :: post) fuel pre.length acc = some (acc ++ lit ++ [0]) := by
  induction lit generalizing pre acc fuel with
  | nil =>
    obtain ⟨f, rfl⟩ : ∃ f, fuel = f + 1 := ⟨fuel - 1, by simp at hfuel; omega⟩
    rw [List.append_nil, getRefData.loop, getElem?_length_append]
    simp [pointer, eof]
  | cons b bs ih =>
    obtain ⟨f, rfl⟩ : ∃ f, fuel = f + 1 := ⟨fuel - 1, by simp at hfuel; omega⟩
    have hb := hlit b (by simp)
    have hget : (pre ++ (b :: bs) ++ 0 :: post)[pre.length]? = some b := by
      rw [List.append_assoc, List.cons_append, getElem?_length_append]
    have hstep := ih (pre ++ [b]) (acc ++ [b]) f (fun x hx => hlit x (by simp [hx]))
      (by simp at hfuel; omega)
    rw [getRefData.loop, hget]
    simp only [hb.2, if_false, hb.1, eof]
    simpa using hstep

theorem name_literal (fuel : Nat) (lit t rd data name : List Nat) (n : Nat)
    (hlit : ∀ b ∈ lit, literalByte b) (hn : lit.length < n) :
    unpackResponse.name fuel n { buf := lit ++ 0 :: t, rd := rd } data name
      = some (Except.ok ({ buf := t, rd := rd }, data ++ lit ++ [0], name ++ lit ++ [0])) := by
  induction lit generalizing data name n with
  | nil =>
    obtain ⟨m, rfl⟩ : ∃ m, n = m + 1 := ⟨n - 1, by simp at hn; omega⟩
    simp [unpackResponse.name, ReadByte_cons, pointer, eof]
  | cons b bs ih =>
    obtain ⟨m, rfl⟩ : ∃ m, n = m + 1 := ⟨n - 1, by simp at hn; omega⟩
    have hb := hlit b (by simp)
    have hstep := ih (data ++ [b]) (name ++ [b]) m (fun x hx => hlit x (by simp [hx]))
      (by simp at hn; omega)
    rw [List.cons_append, unpackResponse.name, ReadByte_cons]
    simp only [hb.2, if_false, hb.1, eof]
    simpa using hstep

theorem name_pointer (fuel : Nat) (lit t rd data name : List Nat) (n b b1 : Nat)
    (hlit : ∀ b ∈ lit, literalByte b) (hn : lit.length < n) (hb : b &&& pointer = pointer) :
    unpackResponse.name fuel n { buf := lit ++ b :: b1 :: t, rd := rd } data name
      = match getRefData fuel (data ++ lit ++ [b] ++ [b1]) (getUint16 [b ^^^ pointer, b1]) with
        | none => none
        | some buf =>
          if buf.length = 0 then some (Except.error Err.invalidAnswerPacket)
          else some (Except.ok ({ buf := t, rd := rd }, data ++ lit ++ [b] ++ [b1], name ++ lit ++ buf)) := by
  induction lit generalizing data name n with
  | nil =>
    obtain ⟨m, rfl⟩ : ∃ m, n = m + 1 := ⟨n - 1, by simp at hn; omega⟩
    simp [unpackResponse.name, ReadByte_cons, hb]
  | cons c cs ih =>
    obtain ⟨m, rfl⟩ : ∃ m, n = m + 1 := ⟨n - 1, by simp at hn; omega⟩
    have hc := hlit c (by simp)
    have hstep := ih (data ++ [c]) (name ++ [c]) m (fun x hx => hlit x (by simp [hx]))
      (by simp at hn; omega)
    rw [List.cons_append, unpackResponse.name, ReadByte_cons]
    simp only [hc.2, if_false, hc.1, eof]
    simpa using hstep

theorem getRefData_question (fuel : Nat) (hdr qlit rest : List Nat) (hhdr : hdr.length = 12)
    (hq : ∀ b ∈ qlit, literalByte b) (hfuel : qlit.length < fuel) :
    getRefData fuel (hdr ++ (qlit ++ [0]) ++ rest) 12 = some (qlit ++ [0]) := by
  have h := getRefData_loop_literal qlit hdr rest [] fuel hq hfuel
  rw [hhdr] at h
  unfold getRefData
  simpa using h

theorem getUint16_putUint16 (v : Nat) (h : v < 65536) : getUint16 (putUint16 v) = v := by
  simp only [putUint16, getUint16]
  omega

theorem getUint32_putUint32 (v : Nat) (h : v < 4294967296) : getUint32 (putUint32 v) = v := by
  simp only [putUint32, getUint32]
  omega

theorem setRData_loop (rdata : List Nat) (h : rdata.length = 4) :
    rdata.enum.foldl (fun a id => a.set id.1 id.2) [0, 0, 0, 0] = rdata := by
  match rdata, h with
  | [a, b, c, d], _ => rfl

theorem setRData_wellFormed (a : WireAnswer) (name data : List Nat) (h : a.WellFormed) :
    dnsAnswer.setRData
        { Name := name, Typ := a.typ, Class := a.cls, TTL := a.ttl,
          RDLength := a.rdata.length, RData := none } a.rdata data
      = Except.ok
          { Name := name, Typ := a.typ, Class := a.cls, TTL := a.ttl,
            RDLength := a.rdata.length,
            RData := if a.typ = typeA then some { addr := a.rdata } else none } := by
  unfold dnsAnswer.setRData
  by_cases ht : a.typ = typeA
  · have h4 := h.2.2.2.2.2 ht
    simp [ht, h4, setRData_loop a.rdata h4]
  · simp [ht]

theorem fixedBytes_length (a : WireAnswer) : a.fixedBytes.length = 10 := by
  simp [WireAnswer.fixedBytes, putUint16, putUint32]

/-- The name loop on a well-formed record. -/
theorem name_wellFormed (fuel : Nat) (a : WireAnswer) (hdr qlit more t rd : List Nat)
    (hhdr : hdr.length = 12) (hq : a.compressed = true → ∀ b ∈ qlit, literalByte b)
    (hqf : qlit.length < fuel)
    (hwf : a.WellFormed) (haf : a.literal.length < fuel) :
    unpackResponse.name fuel fuel { buf := a.nameBytes ++ t, rd := rd }
        (hdr ++ (qlit ++ [0]) ++ more) []
      = some (Except.ok ({ buf := t, rd := rd }, hdr ++ (qlit ++ [0]) ++ more ++ a.nameBytes,
          (a.decoded (qlit ++ [0])).Name)) := by
  unfold WireAnswer.nameBytes WireAnswer.decoded
  cases hc : a.compressed with
  | false =>
    have h := name_literal fuel a.literal t rd (hdr ++ (qlit ++ [0]) ++ more) [] fuel hwf.1 haf
    simpa using h
  | true =>
    have h := name_pointer fuel a.literal t rd (hdr ++ (qlit ++ [0]) ++ more) [] fuel 0xC0 0x0C
      hwf.1 haf (by decide)
    have hp : getUint16 [0xC0 ^^^ pointer, 0x0C] = 12 := by decide
    have hg := getRefData_question fuel hdr qlit (more ++ a.literal ++ [0xC0] ++ [0x0C]) hhdr
      (hq hc) hqf
    simp only [List.append_assoc] at hg h
    simp only [hp, hg] at h
    simpa using h

theorem fixedBytes_fields (a : WireAnswer) (h : a.WellFormed) :
    getUint16 (a.fixedBytes.take 2) = a.typ
      ∧ getUint16 ((a.fixedBytes.drop 2).take 2) = a.cls
      ∧ getUint32 ((a.fixedBytes.drop 4).take 4) = a.ttl
      ∧ getUint16 ((a.fixedBytes.drop 8).take 2) = a.rdata.length := by
  obtain ⟨_, h1, h2, h3, h4, _⟩ := h
  refine ⟨?_, ?_, ?_, ?_⟩
  · exact getUint16_putUint16 a.typ h1
  · exact getUint16_putUint16 a.cls h2
  · exact getUint32_putUint32 a.ttl h3
  · exact getUint16_putUint16 a.rdata.length h4

/-- One iteration of the loop over the answers on a well-formed record. -/
theorem answers_step (fuel k i : Nat) (a : WireAnswer) (hdr qlit more t rd : List Nat)
    (answers : List (Option dnsAnswer))
    (hhdr : hdr.length = 12) (hq : a.compressed = true → ∀ b ∈ qlit, literalByte b)
    (hqf : qlit.length < fuel) (hwf : a.WellFormed) (haf : a.literal.length < fuel) :
    unpackResponse.answers fuel (k + 1) i { buf := a.bytes ++ t, rd := rd }
        (hdr ++ (qlit ++ [0]) ++ more) answers
      = unpackResponse.answers fuel k (i + 1) { buf := t, rd := rd }
          (hdr ++ (qlit ++ [0]) ++ (more ++ a.bytes))
          (answers.set i (some (a.decoded (qlit ++ [0])))) := by
  have hbuf : a.bytes ++ t = a.nameBytes ++ (a.fixedBytes ++ (a.rdata ++ t)) := by
    simp [WireAnswer.bytes]
  have hname := name_wellFormed fuel a hdr qlit more (a.fixedBytes ++ (a.rdata ++ t)) rd
    hhdr hq hqf hwf haf
  have hfix := Read_append a.fixedBytes (a.rdata ++ t) rd
  rw [fixedBytes_length] at hfix
  have hrd := Read_append a.rdata t rd
  obtain ⟨f1, f2, f3, f4⟩ := fixedBytes_fields a hwf
  have hset := setRData_wellFormed a (a.decoded (qlit ++ [0])).Name
    (hdr ++ (qlit ++ [0]) ++ more ++ a.nameBytes ++ a.fixedBytes ++ a.rdata) hwf
  rw [unpackResponse.answers, hbuf, hname]
  simp only [hfix, fixedBytes_length, f1, f2, f3, f4, hrd, hset, ne_eq, not_true_eq_false,
    or_self, if_false, lt_self_iff_false]
  have hdata : hdr ++ (qlit ++ [0]) ++ more ++ a.nameBytes ++ a.fixedBytes ++ a.rdata
      = hdr ++ (qlit ++ [0]) ++ (more ++ a.bytes) := by
    simp [WireAnswer.bytes]
  rw [hdata]
  rfl

/-- The loop over the answers on well-formed records: every record is decoded
and stored, and the bytes behind the records stay in the reader. -/
theorem answers_wellFormed (fuel : Nat) (recs : List WireAnswer) (i : Nat)
    (hdr qlit more t rd : List Nat) (answers : List (Option dnsAnswer))
    (hhdr : hdr.length = 12)
    (hq : ∀ a ∈ recs, a.compressed = true → ∀ b ∈ qlit, literalByte b)
    (hqf : qlit.length < fuel)
    (hwf : ∀ a ∈ recs, a.WellFormed) (haf : ∀ a ∈ recs, a.literal.length < fuel) :
    unpackResponse.answers fuel recs.length i
        { buf := recs.flatMap WireAnswer.bytes ++ t, rd := rd }
        (hdr ++ (qlit ++ [0]) ++ more) answers
      = some { answers := some (storeFrom answers i (recs.map (WireAnswer.decoded (qlit ++ [0])))),
               err := none } := by
  induction recs generalizing i more answers with
  | nil => simp [unpackResponse.answers, storeFrom]
  | cons a as ih =>
    have h1 : (a :: as).flatMap WireAnswer.bytes ++ t
        = a.bytes ++ (as.flatMap WireAnswer.bytes ++ t) := by simp
    rw [h1, List.length_cons,
      answers_step fuel as.length i a hdr qlit more _ rd answers hhdr (hq a (by simp)) hqf
        (hwf a (by simp)) (haf a (by simp)),
      ih (i + 1) (more ++ a.bytes) _ (fun x hx => hq x (by simp [hx]))
        (fun x hx => hwf x (by simp [hx])) (fun x hx => haf x (by simp [hx]))]
    simp [storeFrom]

theorem storeFrom_replicate (recs : List dnsAnswer) (pre : List (Option dnsAnswer)) (m : Nat) :
    storeFrom (pre ++ List.replicate (recs.length + m) none) pre.length recs
      = pre ++ recs.map some ++ List.replicate m none := by
  induction recs generalizing pre with
  | nil => simp [storeFrom]
  | cons r rs ih =>
    have h1 : (pre ++ List.replicate ((r :: rs).length + m) none).set pre.length (some r)
        = (pre ++ [some r]) ++ List.replicate (rs.length + m) none := by
      have : (r :: rs).length + m = (rs.length + m) + 1 := by simp; omega
      rw [this, List.replicate_succ, List.set_append]
      simp
    have h2 := ih (pre ++ [some r])
    rw [storeFrom, h1]
    simpa using h2

theorem take_append_of_length_le (a x : List Nat) (n : Nat) (h : a.length ≤ n) :
    (a ++ x).take n = a ++ x.take (n - a.length) := by
  rw [List.take_append_eq_append_take, List.take_of_length_le h]

theorem drop_append_of_length_le (a x : List Nat) (n : Nat) (h : a.length ≤ n) :
    (a ++ x).drop n = x.drop (n - a.length) := by
  rw [List.drop_append_eq_append_drop, List.drop_of_length_le h, List.nil_append]

/-- Header and question of a response whose question ends within the first 4096
bytes: the header fields are the big-endian words of the first twelve bytes,
the question name is everything up to the first zero byte, and of what follows
the question the part within the first 4096 bytes is in the buffer. -/
theorem prelude_question (hdr qlit qtc rest : List Nat) (hhdr : hdr.length = 12)
    (hq0 : 0 ∉ qlit) (hqtc : qtc.length = 4)
    (hsize : (hdr ++ (qlit ++ [0]) ++ qtc).length ≤ defaultBufSize) :
    unpackResponse.prelude (hdr ++ (qlit ++ [0]) ++ qtc ++ rest)
      = Except.ok
          { header :=
              { ID := getUint16 (hdr.take 2)
                Flag := getUint16 ((hdr.drop 2).take 2)
                QDCount := getUint16 ((hdr.drop 4).take 2)
                ANCount := getUint16 ((hdr.drop 6).take 2)
                NSCount := getUint16 ((hdr.drop 8).take 2)
                ARCount := getUint16 ((hdr.drop 10).take 2) }
            question :=
              { QName := qlit ++ [0]
                QType := getUint16 (qtc.take 2)
                QClass := getUint16 (qtc.drop 2) }
            data := hdr ++ (qlit ++ [0]) ++ qtc
            reader := { buf := rest.take (4079 - qlit.length),
                        rd := rest.drop (4079 - qlit.length) } } := by
  have hlen : (qlit ++ 0 :: qtc).length ≤ 4084 := by
    simp [defaultBufSize, hhdr, hqtc] at hsize ⊢
    omega
  have hm : 4084 - (qlit ++ 0 :: qtc).length = 4079 - qlit.length := by
    simp only [List.length_append, List.length_cons, hqtc]
    omega
  have hshape : hdr ++ (qlit ++ [0]) ++ qtc ++ rest = hdr ++ ((qlit ++ 0 :: qtc) ++ rest) := by
    simp
  have htake := take_append_of_length_le (qlit ++ 0 :: qtc) rest 4084 hlen
  have hdrop := drop_append_of_length_le (qlit ++ 0 :: qtc) rest 4084 hlen
  rw [hm] at htake hdrop
  have hrb := ReadBytes_append qlit (qtc ++ rest.take (4079 - qlit.length))
    (rest.drop (4079 - qlit.length)) hq0
  have hr4 := Read_append qtc (rest.take (4079 - qlit.length)) (rest.drop (4079 - qlit.length))
  rw [hqtc] at hr4
  have hbuf : List.take 4084 ((qlit ++ 0 :: qtc) ++ rest)
      = qlit ++ 0 :: (qtc ++ rest.take (4079 - qlit.length)) := by
    rw [htake]
    simp
  rw [hshape]
  unfold unpackResponse.prelude
  simp only [Read_header hdr _ hhdr, hbuf, hdrop, hhdr, hrb, hr4, hqtc, eof, ne_eq,
    not_true_eq_false, or_self, if_false]

/-- The form of `prelude_question` for a body that lies within the first 4096
bytes: the body is at the front of the buffer. -/
theorem prelude_wellFormed (hdr qlit qtc body x : List Nat) (hhdr : hdr.length = 12)
    (hq0 : 0 ∉ qlit) (hqtc : qtc.length = 4)
    (hsize : (hdr ++ (qlit ++ [0]) ++ qtc ++ body).length ≤ defaultBufSize) :
    ∃ t rd, unpackResponse.prelude (hdr ++ (qlit ++ [0]) ++ qtc ++ body ++ x)
      = Except.ok
          { header :=
              { ID := getUint16 (hdr.take 2)
                Flag := getUint16 ((hdr.drop 2).take 2)
                QDCount := getUint16 ((hdr.drop 4).take 2)
                ANCount := getUint16 ((hdr.drop 6).take 2)
                NSCount := getUint16 ((hdr.drop 8).take 2)
                ARCount := getUint16 ((hdr.drop 10).take 2) }
            question :=
              { QName := qlit ++ [0]
                QType := getUint16 (qtc.take 2)
                QClass := getUint16 (qtc.drop 2) }
            data := hdr ++ (qlit ++ [0]) ++ qtc
            reader := { buf := body ++ t, rd := rd } } := by
  have hsz : (hdr ++ (qlit ++ [0]) ++ qtc).length ≤ defaultBufSize := by
    simp only [List.length_append] at hsize ⊢
    omega
  have hb : body.length ≤ 4079 - qlit.length := by
    simp [defaultBufSize, hhdr, hqtc] at hsize
    omega
  refine ⟨x.take (4079 - qlit.length - body.length), (body ++ x).drop (4079 - qlit.length), ?_⟩
  rw [List.append_assoc _ body x, prelude_question hdr qlit qtc (body ++ x) hhdr hq0 hqtc hsz,
    take_append_of_length_le body x _ hb]

theorem length_le_flatMap (recs : List WireAnswer) (a : WireAnswer) (h : a ∈ recs) :
    a.bytes.length ≤ (recs.flatMap WireAnswer.bytes).length := by
  induction recs with
  | nil => simp at h
  | cons r rs ih =>
    rcases List.mem_cons.mp h with e | e
    · subst e
      simp
    · have := ih e
      rw [List.flatMap_cons, List.length_append]
      omega

/-- A response made of twelve header bytes with ANCOUNT the number of records,
a question name without an inner zero byte, four bytes of type and class and
well-formed records, all within the first 4096 bytes: `unpackResponse` returns
the records decoded in order, whatever follows them. -/
theorem unpackResponse_wellFormed (fuel : Nat) (hdr qlit qtc : List Nat)
    (recs : List WireAnswer) (x : List Nat) (hhdr : hdr.length = 12)
    (hcount : getUint16 ((hdr.drop 6).take 2) = recs.length) (hq0 : 0 ∉ qlit)
    (hq : ∀ a ∈ recs, a.compressed = true → ∀ b ∈ qlit, literalByte b)
    (hqtc : qtc.length = 4) (hwf : ∀ a ∈ recs, a.WellFormed)
    (hsize : (hdr ++ (qlit ++ [0]) ++ qtc ++ recs.flatMap WireAnswer.bytes).length
      ≤ defaultBufSize)
    (hfuel : (hdr ++ (qlit ++ [0]) ++ qtc ++ recs.flatMap WireAnswer.bytes).length ≤ fuel) :
    unpackResponse fuel (hdr ++ (qlit ++ [0]) ++ qtc ++ recs.flatMap WireAnswer.bytes ++ x)
      = some { answers := some (recs.map (fun a => some (a.decoded (qlit ++ [0])))),
               err := none } := by
  obtain ⟨t, rd, hpre⟩ := prelude_wellFormed hdr qlit qtc (recs.flatMap WireAnswer.bytes) x
    hhdr hq0 hqtc hsize
  obtain ⟨y, rd2, hpeek⟩ := Peek_buf (recs.flatMap WireAnswer.bytes ++ t) rd 59
  have hqf : qlit.length < fuel := by
    simp at hfuel
    omega
  have haf : ∀ a ∈ recs, a.literal.length < fuel := by
    intro a ha
    have h1 := length_le_flatMap recs a ha
    have h2 : a.literal.length + 11 ≤ a.bytes.length := by
      simp only [WireAnswer.bytes, WireAnswer.nameBytes, List.length_append, fixedBytes_length]
      split
      · simp
        omega
      · simp
    simp only [List.length_append] at hfuel
    omega
  have hloop := answers_wellFormed fuel recs 0 hdr qlit qtc (t ++ y) rd2
    (List.replicate recs.length none) hhdr hq hqf hwf haf
  have hstore := storeFrom_replicate (recs.map (WireAnswer.decoded (qlit ++ [0]))) [] 0
  simp only [List.length_map, Nat.add_zero, List.nil_append, List.length_nil,
    List.replicate_zero, List.append_nil, List.map_map] at hstore
  unfold unpackResponse
  rw [hpre]
  simp only [hcount, hpeek, List.append_assoc]
  simp only [List.append_assoc] at hloop
  rw [hloop, hstore]
  rfl

theorem zero_not_mem_labelBytes (labels : List (List Nat))
    (h : ∀ l ∈ labels, 1 ≤ l.length ∧ 0 ∉ l) : 0 ∉ labelBytes labels := by
  intro hmem
  obtain ⟨l, hl, hb⟩ := List.mem_flatMap.mp hmem
  rcases List.mem_cons.mp hb with e | e
  · have := (h l hl).1
    omega
  · exact (h l hl).2 e

theorem literal_labelBytes (labels : List (List Nat))
    (h : ∀ l ∈ labels, 1 ≤ l.length ∧ l.length ≤ 63 ∧ ∀ b ∈ l, 1 ≤ b ∧ b < 128) :
    ∀ b ∈ labelBytes labels, literalByte b := by
  intro b hmem
  obtain ⟨l, hl, hb⟩ := List.mem_flatMap.mp hmem
  obtain ⟨h1, h2, h3⟩ := h l hl
  rcases List.mem_cons.mp hb with e | e
  · exact literalByte_of_lt b (by omega) (by omega)
  · exact literalByte_of_lt b (h3 b e).1 (h3 b e).2

theorem length_labelBytes (labels : List (List Nat)) (hne : labels ≠ []) :
    (labelBytes labels).length = (List.intercalate [46] labels).length + 1 := by
  induction labels with
  | nil => exact absurd rfl hne
  | cons l ls ih =>
    cases ls with
    | nil => simp [labelBytes, List.intercalate]
    | cons l2 ls =>
      have h1 : List.intercalate [46] (l :: l2 :: ls)
          = l ++ 46 :: List.intercalate [46] (l2 :: ls) := by
        simp [List.intercalate]
      have h2 : labelBytes (l :: l2 :: ls) = (l.length :: l) ++ labelBytes (l2 :: ls) := by
        simp [labelBytes]
      have h3 := ih (by simp)
      rw [h1, h2, List.length_append, h3]
      simp
      omega

theorem setQName_labelBytes (labels : List (List Nat)) (hne : labels ≠ [])
    (hdot : ∀ l ∈ labels, 46 ∉ l) (hlen : ∀ l ∈ labels, l.length < 256) :
    setQName (List.intercalate [46] labels) = labelBytes labels ++ [0] :=
  setQName_intercalate labels hne hdot hlen

theorem splitLabels_labelBytes (labels : List (List Nat)) (n : Nat)
    (h : ∀ l ∈ labels, 1 ≤ l.length) (hn : labels.length < n) :
    splitLabels n (labelBytes labels ++ [0]) = some labels := by
  induction labels generalizing n with
  | nil =>
    obtain ⟨m, rfl⟩ : ∃ m, n = m + 1 := ⟨n - 1, by simp at hn; omega⟩
    simp [labelBytes, splitLabels]
  | cons l ls ih =>
    obtain ⟨m, rfl⟩ : ∃ m, n = m + 1 := ⟨n - 1, by simp at hn; omega⟩
    have hl : l.length ≠ 0 := by
      have := h l (by simp)
      omega
    have hshape : labelBytes (l :: ls) ++ [0] = l.length :: (l ++ (labelBytes ls ++ [0])) := by
      simp [labelBytes]
    have hrec := ih m (fun x hx => h x (by simp [hx])) (by simp at hn; omega)
    rw [hshape, splitLabels, if_neg hl, if_neg (by simp), List.drop_left, List.take_left, hrec]
    rfl

theorem decodeName_labelBytes (labels : List (List Nat)) (h : ∀ l ∈ labels, 1 ≤ l.length) :
    decodeName (labelBytes labels ++ [0]) = some (List.intercalate [46] labels) := by
  have hlen : labels.length ≤ (labelBytes labels).length := by
    induction labels with
    | nil => simp
    | cons l ls ih =>
      have := ih (fun x hx => h x (by simp [hx]))
      simp [labelBytes] at this ⊢
      omega
  unfold decodeName
  rw [splitLabels_labelBytes labels _ h (by simp; omega)]
  rfl

theorem length_flatMap_replicate {α : Type} (n : Nat) (a : α) (f : α → List Nat) :
    ((List.replicate n a).flatMap f).length = n * (f a).length := by
  induction n with
  | zero => simp
  | succ k ih =>
    rw [List.replicate_succ, List.flatMap_cons, List.length_append, ih]
    ring

/-- A question whose type and class lie across byte 4096 of the response: the
buffer holds the first 4096 bytes, `Read(buf)` at line 197 returns the one to
three buffered bytes with a `nil` error, and line 198 returns `nil, nil`. -/
theorem prelude_short_question (hdr qlit q1 q2 : List Nat) (hhdr : hdr.length = 12)
    (hq0 : 0 ∉ qlit) (hpos : q1 ≠ []) (hlt : q1.length < 4)
    (hsize : (hdr ++ (qlit ++ [0]) ++ q1).length = defaultBufSize) :
    unpackResponse.prelude (hdr ++ (qlit ++ [0]) ++ q1 ++ q2) = Except.error none := by
  have hlen : (qlit ++ 0 :: q1).length = 4084 := by
    simp [defaultBufSize, hhdr] at hsize ⊢
    omega
  have hshape : hdr ++ (qlit ++ [0]) ++ q1 ++ q2 = hdr ++ ((qlit ++ 0 :: q1) ++ q2) := by simp
  have htake : List.take 4084 ((qlit ++ 0 :: q1) ++ q2) = qlit ++ 0 :: q1 := List.take_left' hlen
  have hdrop : List.drop 4084 ((qlit ++ 0 :: q1) ++ q2) = q2 := List.drop_left' hlen
  have hrb := ReadBytes_append qlit q1 q2 hq0
  have hr4 : Reader.Read { buf := q1, rd := q2 } 4 = (q1, none, { buf := [], rd := q2 }) := by
    have h1 : List.take 4 q1 = q1 := List.take_of_length_le (by omega)
    have h2 : List.drop 4 q1 = [] := List.drop_of_length_le (by omega)
    simp [Reader.Read, hpos, h1, h2]
  have hne : q1.length ≠ 4 := by omega
  rw [hshape]
  unfold unpackResponse.prelude
  simp only [Read_header hdr _ hhdr, htake, hdrop, hhdr, hrb, hr4, eof, ne_eq, not_true_eq_false,
    false_or, if_false, hne, not_false_eq_true, if_true]

theorem aLabels_ok (n : Nat) (h1 : 1 ≤ n) (h2 : n ≤ 63) :
    ∀ l ∈ aLabels n,
      1 ≤ l.length ∧ l.length ≤ 63 ∧ (∀ b ∈ l, 1 ≤ b ∧ b < 128) ∧ 0 ∉ l ∧ 46 ∉ l := by
  have key : ∀ m : Nat, 1 ≤ m → m ≤ 63 →
      1 ≤ (List.replicate m 97).length ∧ (List.replicate m 97).length ≤ 63
        ∧ (∀ b ∈ List.replicate m 97, 1 ≤ b ∧ b < 128) ∧ 0 ∉ List.replicate m 97
        ∧ 46 ∉ List.replicate m 97 := by
    intro m hm1 hm2
    refine ⟨by simp; omega, by simp; omega, ?_, ?_, ?_⟩
    · intro b hb
      obtain ⟨_, rfl⟩ := List.mem_replicate.mp hb
      omega
    · intro hb
      have := (List.mem_replicate.mp hb).2
      omega
    · intro hb
      have := (List.mem_replicate.mp hb).2
      omega
  intro l hl
  rcases List.mem_append.mp hl with h | h
  · obtain ⟨_, rfl⟩ := List.mem_replicate.mp h
    exact key 63 (by omega) (by omega)
  · obtain rfl := List.mem_singleton.mp h
    exact key n h1 h2

theorem aLabels_ne (n : Nat) : aLabels n ≠ [] := by
  unfold aLabels
  exact fun e => by simpa using congrArg List.length e

theorem length_aLabels (n : Nat) : (labelBytes (aLabels n)).length = 4033 + n := by
  simp only [labelBytes, aLabels, List.flatMap_append, length_flatMap_replicate,
    List.length_append, List.flatMap_cons, List.flatMap_nil, List.length_cons,
    List.length_replicate, List.append_nil]
  omega

theorem Read_short (b1 rd : List Nat) (k : Nat) (h1 : b1 ≠ []) (hk : b1.length < k) :
    Reader.Read { buf := b1, rd := rd } k = (b1, none, { buf := [], rd := rd }) := by
  have hk0 : k ≠ 0 := by omega
  have ht : List.take k b1 = b1 := List.take_of_length_le (by omega)
  have hd : List.drop k b1 = [] := List.drop_of_length_le (by omega)
  simp [Reader.Read, hk0, h1, ht, hd]

theorem Peek_of_le (buf rd : List Nat) (n : Nat) (h : n ≤ buf.length) :
    Reader.Peek { buf := buf, rd := rd } n = { buf := buf, rd := rd } := by
  unfold Reader.Peek
  rw [if_neg (by simpa using h)]

/-- A response whose first 4096 bytes end `B` behind the question, with at
least 59 bytes in `B`: the loop over the answers starts with `B` in the buffer
and the rest of the response still in the underlying reader. -/
theorem unpackResponse_buffer_end (fuel : Nat) (hdr qlit qtc B R : List Nat)
    (hhdr : hdr.length = 12) (hq0 : 0 ∉ qlit) (hqtc : qtc.length = 4)
    (hsize : (hdr ++ (qlit ++ [0]) ++ qtc ++ B).length = defaultBufSize)
    (hpeek : 59 ≤ B.length) :
    unpackResponse fuel (hdr ++ (qlit ++ [0]) ++ qtc ++ (B ++ R))
      = unpackResponse.answers fuel (getUint16 ((hdr.drop 6).take 2)) 0 { buf := B, rd := R }
          (hdr ++ (qlit ++ [0]) ++ qtc)
          (List.replicate (getUint16 ((hdr.drop 6).take 2)) none) := by
  have hB : B.length = 4079 - qlit.length := by
    simp [defaultBufSize, hhdr, hqtc] at hsize
    omega
  have hsz : (hdr ++ (qlit ++ [0]) ++ qtc).length ≤ defaultBufSize := by
    simp only [List.length_append] at hsize ⊢
    omega
  have hpre := prelude_question hdr qlit qtc (B ++ R) hhdr hq0 hqtc hsz
  rw [← hB, List.take_left, List.drop_left] at hpre
  unfold unpackResponse
  rw [hpre]
  simp only [Peek_of_le B R 59 hpeek]

/-- The loop over the answers on a record of which the buffer holds the name and
a proper part of the ten fixed bytes: the `Read` at line 249 returns that part
with a `nil` error, and line 250 returns `nil, nil`. -/
theorem answers_short_fixed (fuel k i : Nat) (a : WireAnswer) (hdr qlit more f1 rd : List Nat)
    (answers : List (Option dnsAnswer))
    (hhdr : hdr.length = 12) (hq : a.compressed = true → ∀ b ∈ qlit, literalByte b)
    (hqf : qlit.length < fuel) (hwf : a.WellFormed) (haf : a.literal.length < fuel)
    (hf1 : f1 ≠ []) (hlt : f1.length < 10) :
    unpackResponse.answers fuel (k + 1) i { buf := a.nameBytes ++ f1, rd := rd }
        (hdr ++ (qlit ++ [0]) ++ more) answers
      = some { answers := none, err := none } := by
  have hname := name_wellFormed fuel a hdr qlit more f1 rd hhdr hq hqf hwf haf
  have hfix := Read_short f1 rd 10 hf1 hlt
  have hne : f1.length ≠ 10 := by omega
  rw [unpackResponse.answers, hname]
  simp only [hfix, ne_eq, not_true_eq_false, false_or, hne, not_false_eq_true, if_true]

/-- The loop over the answers on a record of which the buffer holds the name, the
fixed bytes and a proper part of the resource data: the `Read` at line 261
returns that part with a `nil` error, and line 262 returns `nil, nil`. -/
theorem answers_short_rdata (fuel k i : Nat) (a : WireAnswer) (hdr qlit more r1 rd : List Nat)
    (answers : List (Option dnsAnswer))
    (hhdr : hdr.length = 12) (hq : a.compressed = true → ∀ b ∈ qlit, literalByte b)
    (hqf : qlit.length < fuel) (hwf : a.WellFormed) (haf : a.literal.length < fuel)
    (hr1 : r1 ≠ []) (hlt : r1.length < a.rdata.length) :
    unpackResponse.answers fuel (k + 1) i { buf := a.nameBytes ++ (a.fixedBytes ++ r1), rd := rd }
        (hdr ++ (qlit ++ [0]) ++ more) answers
      = some { answers := none, err := none } := by
  have hname := name_wellFormed fuel a hdr qlit more (a.fixedBytes ++ r1) rd hhdr hq hqf hwf haf
  have hfix := Read_append a.fixedBytes r1 rd
  rw [fixedBytes_length] at hfix
  obtain ⟨f1, f2, f3, f4⟩ := fixedBytes_fields a hwf
  have hrd := Read_short r1 rd a.rdata.length hr1 hlt
  rw [unpackResponse.answers, hname]
  simp only [hfix, fixedBytes_length, f1, f2, f3, f4, hrd, ne_eq, not_true_eq_false,
    or_self, if_false, false_or, hlt, if_true]

/-- The loop over the answers on well-formed records goes through them one by
one, stores what it decodes, and goes on behind them. -/
theorem answers_prefix (fuel : Nat) (recs : List WireAnswer) (k i : Nat)
    (hdr qlit more t rd : List Nat) (answers : List (Option dnsAnswer))
    (hhdr : hdr.length = 12)
    (hq : ∀ a ∈ recs, a.compressed = true → ∀ b ∈ qlit, literalByte b)
    (hqf : qlit.length < fuel)
    (hwf : ∀ a ∈ recs, a.WellFormed) (haf : ∀ a ∈ recs, a.literal.length < fuel) :
    unpackResponse.answers fuel (recs.length + k) i
        { buf := recs.flatMap WireAnswer.bytes ++ t, rd := rd }
        (hdr ++ (qlit ++ [0]) ++ more) answers
      = unpackResponse.answers fuel k (i + recs.length) { buf := t, rd := rd }
          (hdr ++ (qlit ++ [0]) ++ (more ++ recs.flatMap WireAnswer.bytes))
          (storeFrom answers i (recs.map (WireAnswer.decoded (qlit ++ [0])))) := by
  induction recs generalizing i more answers with
  | nil => simp [storeFrom]
  | cons a as ih =>
    have h1 : (a :: as).flatMap WireAnswer.bytes ++ t
        = a.bytes ++ (as.flatMap WireAnswer.bytes ++ t) := by simp
    have h2 : (a :: as).length + k = (as.length + k) + 1 := by simp; omega
    rw [h1, h2,
      answers_step fuel (as.length + k) i a hdr qlit more _ rd answers hhdr (hq a (by simp)) hqf
        (hwf a (by simp)) (haf a (by simp)),
      ih (i + 1) (more ++ a.bytes) _ (fun x hx => hq x (by simp [hx]))
        (fun x hx => hwf x (by simp [hx])) (fun x hx => haf x (by simp [hx]))]
    have h3 : i + 1 + as.length = i + (a :: as).length := by simp; omega
    simp [storeFrom, h3]

theorem literal_length_lt (recs : List WireAnswer) (a : WireAnswer) (h : a ∈ recs) :
    a.literal.length < (recs.flatMap WireAnswer.bytes).length := by
  have h1 := length_le_flatMap recs a h
  have h2 : a.literal.length + 11 ≤ a.bytes.length := by
    simp only [WireAnswer.bytes, WireAnswer.nameBytes, List.length_append, fixedBytes_length]
    split
    · simp
      omega
    · simp
  omega

/-- A response in which the first 4096 bytes end inside the ten fixed bytes of a
record, after well-formed records and at least 59 bytes behind the question:
`unpackResponse` returns `nil, nil`. -/
theorem unpackResponse_short_fixed (fuel k : Nat) (hdr qlit qtc : List Nat)
    (recs : List WireAnswer) (a : WireAnswer) (more : List WireAnswer) (f1 f2 x : List Nat)
    (hhdr : hdr.length = 12)
    (hcount : getUint16 ((hdr.drop 6).take 2) = recs.length + (k + 1))
    (hq0 : 0 ∉ qlit) (hq : ∀ r ∈ a :: recs, r.compressed = true → ∀ b ∈ qlit, literalByte b)
    (hqtc : qtc.length = 4) (hwf : ∀ r ∈ a :: recs, r.WellFormed)
    (hfix : a.fixedBytes = f1 ++ f2) (hf1 : f1 ≠ []) (hf2 : f2 ≠ [])
    (hsize : (hdr ++ (qlit ++ [0]) ++ qtc
      ++ (recs.flatMap WireAnswer.bytes ++ (a.nameBytes ++ f1))).length = defaultBufSize)
    (hpeek : 59 ≤ (recs.flatMap WireAnswer.bytes ++ (a.nameBytes ++ f1)).length)
    (hfuel : defaultBufSize ≤ fuel) :
    unpackResponse fuel (response hdr (qlit ++ [0]) qtc (recs ++ a :: more) ++ x)
      = some { answers := none, err := none } := by
  have hshape : response hdr (qlit ++ [0]) qtc (recs ++ a :: more) ++ x
      = hdr ++ (qlit ++ [0]) ++ qtc
        ++ ((recs.flatMap WireAnswer.bytes ++ (a.nameBytes ++ f1))
          ++ (f2 ++ a.rdata ++ more.flatMap WireAnswer.bytes ++ x)) := by
    simp [response, List.flatMap_append, WireAnswer.bytes, hfix]
  have hf10 : f1.length < 10 := by
    have h1 := fixedBytes_length a
    rw [hfix, List.length_append] at h1
    have h2 : f2.length ≠ 0 := fun e => hf2 (List.length_eq_zero.mp e)
    omega
  have hlens : qlit.length < fuel ∧ (recs.flatMap WireAnswer.bytes).length < fuel
      ∧ a.literal.length < fuel := by
    simp only [List.length_append, WireAnswer.nameBytes, hhdr, hqtc] at hsize
    omega
  rw [hshape, unpackResponse_buffer_end fuel hdr qlit qtc _ _ hhdr hq0 hqtc hsize hpeek, hcount,
    answers_prefix fuel recs (k + 1) 0 hdr qlit qtc _ _ _ hhdr
      (fun r hr => hq r (by simp [hr])) hlens.1 (fun r hr => hwf r (by simp [hr]))
      (fun r hr => by have := literal_length_lt recs r hr; omega)]
  exact answers_short_fixed fuel k _ a hdr qlit _ f1 _ _ hhdr (hq a (by simp)) hlens.1
    (hwf a (by simp)) hlens.2.2 hf1 hf10

/-- A response in which the first 4096 bytes end inside the resource data of a
record, after well-formed records and at least 59 bytes behind the question:
`unpackResponse` returns `nil, nil`. -/
theorem unpackResponse_short_rdata (fuel k : Nat) (hdr qlit qtc : List Nat)
    (recs : List WireAnswer) (a : WireAnswer) (more : List WireAnswer) (r1 r2 x : List Nat)
    (hhdr : hdr.length = 12)
    (hcount : getUint16 ((hdr.drop 6).take 2) = recs.length + (k + 1))
    (hq0 : 0 ∉ qlit) (hq : ∀ r ∈ a :: recs, r.compressed = true → ∀ b ∈ qlit, literalByte b)
    (hqtc : qtc.length = 4) (hwf : ∀ r ∈ a :: recs, r.WellFormed)
    (hrd : a.rdata = r1 ++ r2) (hr1 : r1 ≠ []) (hr2 : r2 ≠ [])
    (hsize : (hdr ++ (qlit ++ [0]) ++ qtc
      ++ (recs.flatMap WireAnswer.bytes ++ (a.nameBytes ++ (a.fixedBytes ++ r1)))).length
        = defaultBufSize)
    (hpeek : 59 ≤ (recs.flatMap WireAnswer.bytes ++ (a.nameBytes ++ (a.fixedBytes ++ r1))).length)
    (hfuel : defaultBufSize ≤ fuel) :
    unpackResponse fuel (response hdr (qlit ++ [0]) qtc (recs ++ a :: more) ++ x)
      = some { answers := none, err := none } := by
  have hshape : response hdr (qlit ++ [0]) qtc (recs ++ a :: more) ++ x
      = hdr ++ (qlit ++ [0]) ++ qtc
        ++ ((recs.flatMap WireAnswer.bytes ++ (a.nameBytes ++ (a.fixedBytes ++ r1)))
          ++ (r2 ++ more.flatMap WireAnswer.bytes ++ x)) := by
    simp [response, List.flatMap_append, WireAnswer.bytes, hrd]
  have hlt : r1.length < a.rdata.length := by
    rw [hrd, List.length_append]
    have h2 : r2.length ≠ 0 := fun e => hr2 (List.length_eq_zero.mp e)
    omega
  have hlens : qlit.length < fuel ∧ (recs.flatMap WireAnswer.bytes).length < fuel
      ∧ a.literal.length < fuel := by
    simp only [List.length_append, WireAnswer.nameBytes, hhdr, hqtc] at hsize
    omega
  rw [hshape, unpackResponse_buffer_end fuel hdr qlit qtc _ _ hhdr hq0 hqtc hsize hpeek, hcount,
    answers_prefix fuel recs (k + 1) 0 hdr qlit qtc _ _ _ hhdr
      (fun r hr => hq r (by simp [hr])) hlens.1 (fun r hr => hwf r (by simp [hr]))
      (fun r hr => by have := literal_length_lt recs r hr; omega)]
  exact answers_short_rdata fuel k _ a hdr qlit _ r1 _ _ hhdr (hq a (by simp)) hlens.1
    (hwf a (by simp)) hlens.2.2 hr1 hlt

set_option maxRecDepth 100000 in
theorem fmtDecimal_uint8 : ∀ b < 256, fmtDecimal 2 b [] = str (Nat.repr b) := by decide

theorem value_dotted (b0 b1 b2 b3 : Nat) (h0 : b0 < 256) (h1 : b1 < 256) (h2 : b2 < 256)
    (h3 : b3 < 256) :
    rdataA.value { addr := [b0, b1, b2, b3] }
      = List.intercalate [46]
          [str (Nat.repr b0), str (Nat.repr b1), str (Nat.repr b2), str (Nat.repr b3)] := by
  simp [rdataA.value, fmtDecimal_uint8 _ h0, fmtDecimal_uint8 _ h1, fmtDecimal_uint8 _ h2,
    fmtDecimal_uint8 _ h3, List.intercalate]

theorem oneAnswerA_eq (hdr qlit qtc : List Nat) (labels : List (List Nat)) (ttl : Nat)
    (rdata : List Nat) (h : rdata.length = 4) :
    oneAnswerA hdr qlit qtc labels ttl rdata
      = hdr ++ (qlit ++ [0]) ++ qtc ++ [recordA labels ttl rdata].flatMap WireAnswer.bytes := by
  simp [oneAnswerA, recordA, WireAnswer.bytes, WireAnswer.nameBytes, WireAnswer.fixedBytes, h]

theorem recordA_wellFormed (labels : List (List Nat)) (ttl : Nat) (rdata : List Nat)
    (hlab : ∀ l ∈ labels, 1 ≤ l.length ∧ l.length ≤ 63 ∧ ∀ b ∈ l, 1 ≤ b ∧ b < 128)
    (httl : ttl < 4294967296) (h : rdata.length = 4) : (recordA labels ttl rdata).WellFormed :=
  ⟨literal_labelBytes labels hlab, by simp [recordA], by simp [recordA], httl,
    by simp [recordA, h], fun _ => h⟩

theorem response_wellFormed (fuel : Nat) (hdr : List Nat) (qlabels : List (List Nat))
    (qtc : List Nat) (recs : List WireAnswer) (x : List Nat)
    (hhdr : hdr.length = 12) (hcount : getUint16 ((hdr.drop 6).take 2) = recs.length)
    (hqlab : ∀ l ∈ qlabels, 1 ≤ l.length ∧ l.length ≤ 63 ∧ ∀ b ∈ l, 1 ≤ b ∧ b < 128)
    (hqtc : qtc.length = 4) (hwf : ∀ r ∈ recs, r.WellFormed)
    (hsize : (response hdr (labelBytes qlabels ++ [0]) qtc recs).length ≤ defaultBufSize)
    (hfuel : (response hdr (labelBytes qlabels ++ [0]) qtc recs).length ≤ fuel) :
    unpackResponse fuel (response hdr (labelBytes qlabels ++ [0]) qtc recs ++ x)
      = some { answers := some (recs.map (fun a => some (a.decoded (labelBytes qlabels ++ [0])))),
               err := none } := by
  have hlit := literal_labelBytes qlabels hqlab
  have hq0 : 0 ∉ labelBytes qlabels := fun h => (hlit 0 h).1 rfl
  exact unpackResponse_wellFormed fuel hdr (labelBytes qlabels) qtc recs x hhdr hcount hq0
    (fun _ _ _ => hlit) hqtc hwf hsize hfuel

theorem pointerA_wellFormed : pointerA.WellFormed := by
  refine ⟨by simp [pointerA], ?_, ?_, ?_, ?_, ?_⟩ <;> simp [pointerA]

theorem replicate_wellFormed (n : Nat) (a : WireAnswer) (h : a.WellFormed) :
    ∀ r ∈ a :: List.replicate n a, r.WellFormed := by
  intro r hr
  rcases List.mem_cons.mp hr with e | e
  · exact e ▸ h
  · exact (List.mem_replicate.mp e).2 ▸ h

theorem exampleLabels_literal : ∀ b ∈ labelBytes exampleLabels, literalByte b := by decide

theorem longTXT_wellFormed : longTXT.WellFormed := by
  refine ⟨fun b hb => absurd hb (List.not_mem_nil b), by decide, by decide, by decide, ?_, ?_⟩
  · show (List.replicate 4096 97).length < 65536
    rw [List.length_replicate]
    omega
  · intro h
    exact absurd h (by decide)

theorem pointer_bits :
    ∀ k < 64, (0xC0 + k) &&& pointer = pointer ∧ (0xC0 + k) ^^^ pointer = k := by
  decide

/-- At a pointer to an offset `t` of at least 1, the loop of `getRefData` goes
on at `t` with what it has collected. -/
theorem getRefData_loop_pointer (data : List Nat) (fuel q t : Nat) (acc : List Nat)
    (hq : data[q]? = some (0xC0 + t / 256)) (hq1 : data[q + 1]? = some (t % 256))
    (ht1 : 1 ≤ t) (ht : t < 16384) :
    getRefData.loop data (fuel + 1) q acc = getRefData.loop data fuel t acc := by
  obtain ⟨h1, h2⟩ := pointer_bits (t / 256) (by omega)
  have hp : (getUint16 [t / 256, t % 256] + 65535) % 65536 + 1 = t := by
    simp only [getUint16]
    omega
  rw [getRefData.loop, hq]
  simp only [h1, if_true, hq1, h2, hp]

/-- Chained pointers with a target of at least 1: when resolving from `t`
returns `r`, resolving from a pointer to `t` returns `r` as well. -/
theorem getRefData_pointer (data : List Nat) (fuel q t : Nat) (r : List Nat)
    (hq : data[q]? = some (0xC0 + t / 256)) (hq1 : data[q + 1]? = some (t % 256))
    (ht1 : 1 ≤ t) (ht : t < 16384) (hres : getRefData fuel data t = some r) :
    getRefData (fuel + 1) data q = some r := by
  unfold getRefData at hres ⊢
  rw [getRefData_loop_pointer data fuel q t [] hq hq1 ht1 ht, hres]

theorem fmtDecimal_cases (b : Nat) (h : b < 256) :
    fmtDecimal 2 b [] =
      if b < 10 then [48 + b]
      else if b < 100 then [48 + b / 10, 48 + b % 10]
      else [48 + b / 100, 48 + b / 10 % 10, 48 + b % 10] := by
  by_cases h1 : b < 10
  · have : ¬ 10 ≤ b := by omega
    simp [fmtDecimal, h1, this]
  · by_cases h2 : b < 100
    · have h3 : 10 ≤ b := by omega
      have h4 : ¬ 10 ≤ b / 10 := by omega
      simp [fmtDecimal, h1, h2, h3, h4]
    · have h3 : 10 ≤ b := by omega
      have h4 : 10 ≤ b / 10 := by omega
      have h5 : b / 10 / 10 = b / 100 := by omega
      simp [fmtDecimal, h1, h2, h3, h4, h5]

/-- One digit of a field: the value is extended by it. -/
theorem parse_digit (d val v pos digLen : Nat) (prev : Option Nat) (rest fields : List Nat)
    (hd : d ≤ 9) (hz : ¬ (digLen = 1 ∧ val = 0)) (hv : val * 10 + d = v) (h255 : v ≤ 255) :
    net.parseIPv4Fields ((48 + d) :: rest) prev val pos digLen fields
      = net.parseIPv4Fields rest (some (48 + d)) v pos (digLen + 1) fields := by
  have e : 48 + d - 48 = d := by omega
  rw [net.parseIPv4Fields, if_pos ⟨by omega, by omega⟩, if_neg hz, e, hv, if_neg (by omega)]

/-- Parsing one field written by `%d`: the loop reaches what follows the digits
with the value of the field. -/
theorem parse_field (b pos : Nat) (prev : Option Nat) (rest fields : List Nat) (h : b < 256) :
    ∃ digLen, net.parseIPv4Fields (fmtDecimal 2 b [] ++ rest) prev 0 pos 0 fields
      = net.parseIPv4Fields rest (some (48 + b % 10)) b pos digLen fields := by
  rw [fmtDecimal_cases b h]
  by_cases h1 : b < 10
  · have e : b % 10 = b := by omega
    refine ⟨1, ?_⟩
    rw [if_pos h1, e]
    exact parse_digit b 0 b pos 0 prev rest fields (by omega) (by omega) (by omega) (by omega)
  · by_cases h2 : b < 100
    · refine ⟨2, ?_⟩
      rw [if_neg h1, if_pos h2]
      show net.parseIPv4Fields ((48 + b / 10) :: (48 + b % 10) :: rest) prev 0 pos 0 fields = _
      rw [parse_digit (b / 10) 0 (b / 10) pos 0 prev _ fields (by omega) (by omega) (by omega)
          (by omega),
        parse_digit (b % 10) (b / 10) b pos 1 _ rest fields (by omega) (by omega) (by omega)
          (by omega)]
    · refine ⟨3, ?_⟩
      rw [if_neg h1, if_neg h2]
      show net.parseIPv4Fields ((48 + b / 100) :: (48 + b / 10 % 10) :: (48 + b % 10) :: rest)
        prev 0 pos 0 fields = _
      rw [parse_digit (b / 100) 0 (b / 100) pos 0 prev _ fields (by omega) (by omega) (by omega)
          (by omega),
        parse_digit (b / 10 % 10) (b / 100) (b / 10) pos 1 _ _ fields (by omega) (by omega)
          (by omega) (by omega),
        parse_digit (b % 10) (b / 10) b pos 2 _ rest fields (by omega) (by omega) (by omega)
          (by omega)]

theorem fmtDecimal_ne_nil (b : Nat) : fmtDecimal 2 b [] ≠ [] := by
  unfold fmtDecimal
  split
  · unfold fmtDecimal
    split
    · simp [fmtDecimal]
    · simp
  · simp

/-- A dot behind a field written by `%d`, with more to come: the field is stored
and the loop goes on with the next field. -/
theorem parse_dot (b pos digLen : Nat) (rest fields : List Nat) (hrest : rest ≠ [])
    (hpos : pos < 3) :
    net.parseIPv4Fields (46 :: rest) (some (48 + b % 10)) b pos digLen fields
      = net.parseIPv4Fields rest (some 46) 0 (pos + 1) 0 (fields.set pos b) := by
  have h1 : ¬ (48 + b % 10 = 46) := by omega
  have h2 : ¬ pos = 3 := by omega
  simp [net.parseIPv4Fields, hrest, h1, h2]

theorem ParseIP_value (b0 b1 b2 b3 : Nat) (h0 : b0 < 256) (h1 : b1 < 256) (h2 : b2 < 256)
    (h3 : b3 < 256) :
    net.ParseIP (rdataA.value { addr := [b0, b1, b2, b3] }) = some (net.IPv4 b0 b1 b2 b3) := by
  have hshape : rdataA.value { addr := [b0, b1, b2, b3] }
      = fmtDecimal 2 b0 [] ++ (46 :: (fmtDecimal 2 b1 [] ++ (46 :: (fmtDecimal 2 b2 []
          ++ (46 :: (fmtDecimal 2 b3 [] ++ [])))))) := by
    simp [rdataA.value]
  have n1 : ∀ (b : Nat) (t : List Nat), fmtDecimal 2 b [] ++ t ≠ [] := by
    intro b t e
    exact fmtDecimal_ne_nil b (List.append_eq_nil.mp e).1
  obtain ⟨d0, e0⟩ := parse_field b0 0 none
    (46 :: (fmtDecimal 2 b1 [] ++ (46 :: (fmtDecimal 2 b2 [] ++ (46 :: (fmtDecimal 2 b3 [] ++ []))))))
    [0, 0, 0, 0] h0
  obtain ⟨d1, e1⟩ := parse_field b1 1 (some 46)
    (46 :: (fmtDecimal 2 b2 [] ++ (46 :: (fmtDecimal 2 b3 [] ++ [])))) ([0, 0, 0, 0].set 0 b0) h1
  obtain ⟨d2, e2⟩ := parse_field b2 2 (some 46) (46 :: (fmtDecimal 2 b3 [] ++ []))
    (([0, 0, 0, 0].set 0 b0).set 1 b1) h2
  obtain ⟨d3, e3⟩ := parse_field b3 3 (some 46) []
    ((([0, 0, 0, 0].set 0 b0).set 1 b1).set 2 b2) h3
  unfold net.ParseIP
  rw [hshape, e0, parse_dot b0 0 d0 _ _ (n1 _ _) (by omega), e1,
    parse_dot b1 1 d1 _ _ (n1 _ _) (by omega), e2, parse_dot b2 2 d2 _ _ (n1 _ _) (by omega), e3]
  simp [net.parseIPv4Fields, net.IPv4]

theorem fill_ok (b : Reader) (h : b.bytesOK) : b.fill.bytesOK := by
  refine ⟨fun x hx => ?_, fun x hx => ?_⟩
  · rcases List.mem_append.mp hx with e | e
    · exact h.1 x e
    · exact h.2 x (List.mem_of_mem_take e)
  · exact h.2 x (List.mem_of_mem_drop hx)

theorem Read_ok (b : Reader) (k : Nat) (h : b.bytesOK) :
    (∀ x ∈ (b.Read k).1, x < 256) ∧ (b.Read k).2.2.bytesOK := by
  have hf := fill_ok b h
  unfold Reader.Read
  split
  · exact ⟨fun x hx => by simp at hx, h⟩
  · split
    · split
      · exact ⟨fun x hx => by simp at hx, h⟩
      · split
        · exact ⟨fun x hx => h.2 x (List.mem_of_mem_take hx),
            fun x hx => by simp at hx, fun x hx => h.2 x (List.mem_of_mem_drop hx)⟩
        · exact ⟨fun x hx => hf.1 x (List.mem_of_mem_take hx),
            fun x hx => hf.1 x (List.mem_of_mem_drop hx), hf.2⟩
    · exact ⟨fun x hx => h.1 x (List.mem_of_mem_take hx),
        fun x hx => h.1 x (List.mem_of_mem_drop hx), h.2⟩

theorem ReadByte_ok (b b2 : Reader) (c : Nat) (h : b.bytesOK)
    (hr : b.ReadByte = Except.ok (c, b2)) : b2.bytesOK := by
  have hf := fill_ok b h
  unfold Reader.ReadByte at hr
  split at hr
  · rename_i c1 cs hb
    injection hr with e
    injection e with e1 e2
    subst e2
    exact ⟨fun x hx => h.1 x (by rw [hb]; simp [hx]), h.2⟩
  · split at hr
    · rename_i c1 cs hb
      injection hr with e
      injection e with e1 e2
      subst e2
      exact ⟨fun x hx => hf.1 x (by rw [hb]; simp [hx]), hf.2⟩
    · cases hr

theorem cutAt_mem (d : Nat) (l line rest : List Nat) (h : cutAt d l = some (line, rest)) :
    ∀ x ∈ rest, x ∈ l := by
  induction l generalizing line with
  | nil => simp [cutAt] at h
  | cons c cs ih =>
    unfold cutAt at h
    split at h
    · injection h with e
      injection e with e1 e2
      subst e2
      intro x hx
      simp [hx]
    · split at h
      · rename_i l2 r2 hc
        injection h with e
        injection e with e1 e2
        subst e2
        intro x hx
        exact List.mem_cons_of_mem _ (ih l2 hc x hx)
      · cases h

theorem readBytesLoop_ok (delim n : Nat) (b : Reader) (acc : List Nat) (h : b.bytesOK) :
    (b.readBytesLoop delim n acc).2.2.bytesOK := by
  induction n generalizing b acc with
  | zero => exact h
  | succ m ih =>
    unfold Reader.readBytesLoop
    split
    · rename_i line rest hc
      exact ⟨fun x hx => h.1 x (cutAt_mem delim b.buf line rest hc x hx), h.2⟩
    · split
      · exact ih _ _ ⟨fun x hx => by simp at hx, h.2⟩
      · split
        · exact ⟨fun x hx => by simp at hx, fun x hx => by simp at hx⟩
        · exact ih _ _ (fill_ok b h)

theorem ReadBytes_ok (b : Reader) (delim : Nat) (h : b.bytesOK) :
    (b.ReadBytes delim).2.2.bytesOK :=
  readBytesLoop_ok delim _ b [] h

theorem Peek_ok (b : Reader) (n : Nat) (h : b.bytesOK) : (b.Peek n).bytesOK := by
  unfold Reader.Peek
  split
  · exact fill_ok b h
  · exact h

theorem prelude_ok (rd : List Nat) (s : Prelude) (h : ∀ x ∈ rd, x < 256)
    (hp : unpackResponse.prelude rd = Except.ok s) : s.reader.bytesOK := by
  have h0 : Reader.bytesOK { buf := [], rd := rd } := ⟨fun x hx => by simp at hx, h⟩
  have h1 := (Read_ok _ 12 h0).2
  have h2 := ReadBytes_ok _ eof h1
  have h3 := (Read_ok _ 4 h2).2
  unfold unpackResponse.prelude at hp
  simp only at hp
  split at hp
  · cases hp
  · split at hp
    · cases hp
    · split at hp
      · cases hp
      · injection hp with e
        subst e
        exact h3

theorem name_ok (fuel n : Nat) (reader r2 : Reader) (data name d2 n2 : List Nat)
    (h : reader.bytesOK)
    (hn : unpackResponse.name fuel n reader data name = some (Except.ok (r2, d2, n2))) :
    r2.bytesOK := by
  induction n generalizing reader data name with
  | zero => simp [unpackResponse.name] at hn
  | succ m ih =>
    unfold unpackResponse.name at hn
    split at hn
    · cases hn
    · rename_i b rdr hb
      have hr := ReadByte_ok reader rdr b h hb
      split at hn
      · split at hn
        · cases hn
        · rename_i b1 rdr1 hb1
          have hr1 := ReadByte_ok rdr rdr1 b1 hr hb1
          simp only at hn
          split at hn
          · cases hn
          · split at hn
            · cases hn
            · injection hn with e
              injection e with e
              injection e with e1 e2
              subst e1
              exact hr1
      · split at hn
        · injection hn with e
          injection e with e
          injection e with e1 e2
          subst e1
          exact hr
        · exact ih _ _ _ hr hn

theorem Read_length_le (b : Reader) (k : Nat) : (b.Read k).1.length ≤ k := by
  unfold Reader.Read
  split
  · simp
  · split
    · split
      · simp
      · split <;> simp [List.length_take]
    · simp [List.length_take]

theorem setRData_good (a r : dnsAnswer) (rdata data : List Nat) (hb : ∀ x ∈ rdata, x < 256)
    (hlen : rdata.length = a.RDLength) (h : a.setRData rdata data = Except.ok r) :
    goodRecord r := by
  unfold dnsAnswer.setRData at h
  split at h
  · rename_i ht
    split at h
    · cases h
    · rename_i h4
      have h4 : rdata.length = 4 := by simpa using h4
      injection h with e
      subst e
      intro _
      match rdata, h4, hb, hlen with
      | [b0, b1, b2, b3], _, hb, hlen =>
        exact ⟨b0, b1, b2, b3, rfl, by simpa using hlen.symm, hb b0 (by simp), hb b1 (by simp),
          hb b2 (by simp), hb b3 (by simp)⟩
  · rename_i ht
    injection h with e
    subst e
    intro h1
    exact absurd h1 ht

/-- The loop over the answers keeps the records it has stored and stores a good
record at every further index. -/
theorem answers_inv (fuel k : Nat) :
    ∀ (i : Nat) (reader : Reader) (data : List Nat) (answers out : List (Option dnsAnswer)),
      reader.bytesOK → answers.length = i + k →
      (∀ j, j < i → ∃ r, answers[j]? = some (some r) ∧ goodRecord r) →
      unpackResponse.answers fuel k i reader data answers
        = some { answers := some out, err := none } →
      out.length = i + k ∧ ∀ j, j < i + k → ∃ r, out[j]? = some (some r) ∧ goodRecord r := by
  induction k with
  | zero =>
    intro i reader data answers out _ hlen hdone h
    simp only [unpackResponse.answers, Option.some.injEq, Result.mk.injEq, and_true] at h
    subst h
    exact ⟨hlen, fun j hj => hdone j (by omega)⟩
  | succ k ih =>
    intro i reader data answers out hok hlen hdone h
    unfold unpackResponse.answers at h
    split at h
    · cases h
    · simp at h
    · rename_i rdr dat name hname
      have hr := name_ok fuel fuel reader rdr data [] dat name hok hname
      have h10 := Read_ok rdr 10 hr
      simp only at h
      split at h
      · simp at h
      · have hrd := Read_ok (rdr.Read 10).2.2 (getUint16 (List.take 2 (List.drop 8 (rdr.Read 10).1)))
          h10.2
        have hle := Read_length_le (rdr.Read 10).2.2
          (getUint16 (List.take 2 (List.drop 8 (rdr.Read 10).1)))
        split at h
        · simp at h
        · rename_i hcond
          split at h
          · simp at h
          · rename_i answer hset
            have hgood := setRData_good _ answer _ _ hrd.1
              (by
                simp only [not_or, not_lt] at hcond
                exact Nat.le_antisymm hle hcond.2) hset
            have hrec := ih (i + 1) _ _ _ out hrd.2 (by simp; omega) ?_ h
            · exact ⟨by omega, fun j hj => hrec.2 j (by omega)⟩
            intro j2 hj2
            by_cases e : j2 = i
            · subst e
              exact ⟨answer, by simp [List.getElem?_set, hlen], hgood⟩
            · obtain ⟨r, h1, h2⟩ := hdone j2 (by omega)
              exact ⟨r, by rw [List.getElem?_set_ne (Ne.symm e)]; exact h1, h2⟩

/-- Every record list that `unpackResponse` returns without an error has a
record at every index, and its records of type A hold four address bytes. -/
theorem unpackResponse_good (fuel : Nat) (resp : List Nat) (answers : List (Option dnsAnswer))
    (hb : ∀ x ∈ resp, x < 256)
    (h : unpackResponse fuel resp = some { answers := some answers, err := none }) :
    ∀ e ∈ answers, ∃ r, e = some r ∧ goodRecord r := by
  unfold unpackResponse at h
  split at h
  · simp at h
  · rename_i s hs
    have hok := Peek_ok _ 59 (prelude_ok resp s hb hs)
    have hinv := answers_inv fuel s.header.ANCount 0 _ _ _ answers hok (by simp)
      (fun j hj => absurd hj (Nat.not_lt_zero j)) h
    intro e he
    obtain ⟨j, hj⟩ := List.mem_iff_getElem?.mp he
    have hlt : j < answers.length := by
      by_contra hge
      rw [List.getElem?_eq_none (by omega)] at hj
      cases hj
    obtain ⟨r, h1, h2⟩ := hinv.2 j (by omega)
    rw [hj] at h1
    exact ⟨r, by injection h1, h2⟩

theorem names_good (records : List dnsAnswer) (names : List (List Nat))
    (h : ∀ r ∈ records, goodRecord r) :
    Resolve.names (records.map some) names
      = some (names ++ (records.filter (fun r => r.Typ = typeA)).map address) := by
  induction records generalizing names with
  | nil => simp [Resolve.names]
  | cons r rs ih =>
    have hrs := fun x hx => h x (List.mem_cons_of_mem r hx)
    by_cases ht : r.Typ = typeA
    · obtain ⟨b0, b1, b2, b3, hrd, _, h0, h1, h2, h3⟩ := h r (by simp) ht
      have haddr : address r = net.IPv4 b0 b1 b2 b3 := by simp [address, hrd]
      simp only [List.map_cons, Resolve.names, ht, ne_eq, not_true_eq_false, if_false, hrd,
        ParseIP_value b0 b1 b2 b3 h0 h1 h2 h3, ih _ hrs]
      simp [ht, haddr]
    · simp only [List.map_cons, Resolve.names, ht, ne_eq, not_false_eq_true, if_true, ih _ hrs]
      simp [ht]

/-! ### Streams, termination, stored records, longer inputs and other headers -/

theorem setFlag_value (h : dnsHeader) (qr opcode aa tc rd ra rcode : Nat)
    (hqr : qr < 2) (hop : opcode < 16) (haa : aa < 2) (htc : tc < 2) (hrd : rd < 2) (hra : ra < 2)
    (hrc : rcode < 16) :
    (h.setFlag qr opcode aa tc rd ra rcode).Flag
      = qr * 32768 + opcode * 2048 + aa * 1024 + tc * 512 + rd * 256 + ra * 128 + rcode := by
  simp only [dnsHeader.setFlag, Nat.shiftLeft_eq]
  omega

theorem fill_stream (b : Reader) : b.fill.stream = b.stream := by
  simp [Reader.fill, Reader.stream]

theorem Read_stream (b : Reader) (k : Nat) :
    (b.Read k).1 ++ (b.Read k).2.2.stream = b.stream := by
  have hf := fill_stream b
  unfold Reader.stream at hf ⊢
  unfold Reader.Read
  split
  · rfl
  · split
    · rename_i hbuf
      split
      · rfl
      · split
        · simp [hbuf]
        · simp only [← hf, ← List.append_assoc, List.take_append_drop]
    · simp only [← List.append_assoc, List.take_append_drop]

theorem ReadByte_stream (b b2 : Reader) (c : Nat) (h : b.ReadByte = Except.ok (c, b2)) :
    c :: b2.stream = b.stream := by
  have hf := fill_stream b
  unfold Reader.stream at hf ⊢
  unfold Reader.ReadByte at h
  split at h
  · rename_i c1 cs hb
    cases h
    simp [hb]
  · rename_i hb
    split at h
    · rename_i c1 cs hfb
      cases h
      rw [← hf, hfb]
      rfl
    · cases h

theorem ReadByte_error (b : Reader) (e : Err) (h : b.ReadByte = Except.error e) :
    b.stream = [] ∧ e = Err.EOF := by
  have hf := fill_stream b
  unfold Reader.ReadByte at h
  split at h
  · cases h
  · rename_i hb
    split at h
    · cases h
    · rename_i hfb
      cases h
      have h2 : b.fill.buf = b.rd.take defaultBufSize := by simp [Reader.fill, hb]
      rw [hfb] at h2
      have h3 : b.rd = [] := by
        cases hrd : b.rd with
        | nil => rfl
        | cons x xs => rw [hrd] at h2; simp [defaultBufSize] at h2
      simp [Reader.stream, hb, h3]

theorem cutAt_stream (d : Nat) (l line rest : List Nat) (h : cutAt d l = some (line, rest)) :
    line ++ rest = l := by
  induction l generalizing line rest with
  | nil => simp [cutAt] at h
  | cons c cs ih =>
    unfold cutAt at h
    split at h
    · cases h; rfl
    · split at h
      · rename_i l2 r2 hc
        cases h
        rw [List.cons_append, ih l2 _ hc]
      · cases h

theorem readBytesLoop_stream (delim n : Nat) (b : Reader) (acc : List Nat) :
    (b.readBytesLoop delim n acc).1 ++ (b.readBytesLoop delim n acc).2.2.stream
      = acc ++ b.stream := by
  induction n generalizing b acc with
  | zero => rfl
  | succ n ih =>
    unfold Reader.readBytesLoop
    split
    · rename_i line rest hc
      have := cutAt_stream delim b.buf line rest hc
      simp [Reader.stream, ← this]
    · split
      · rw [ih]
        simp [Reader.stream]
      · split
        · rename_i hrd
          simp [Reader.stream, hrd]
        · rw [ih, fill_stream]

theorem ReadBytes_stream (b : Reader) (delim : Nat) :
    (b.ReadBytes delim).1 ++ (b.ReadBytes delim).2.2.stream = b.stream := by
  have := readBytesLoop_stream delim (2 * b.rd.length + 3) b []
  simpa [Reader.ReadBytes] using this

theorem Peek_stream (b : Reader) (n : Nat) : (b.Peek n).stream = b.stream := by
  unfold Reader.Peek
  split
  · exact fill_stream b
  · rfl

theorem cutAt_none (d : Nat) (l : List Nat) (h : d ∉ l) : cutAt d l = none := by
  induction l with
  | nil => rfl
  | cons c cs ih =>
    have hc : c ≠ d := fun e => h (by simp [e])
    have hcs : d ∉ cs := fun e => h (by simp [e])
    simp [cutAt, hc, ih hcs]

/-- Without the delimiter among the bytes left, the loop of `ReadBytes` ends
with `io.EOF` once the underlying reader is exhausted. -/
theorem readBytesLoop_eof (delim n : Nat) (b : Reader) (acc : List Nat)
    (hb : delim ∉ b.buf) (hrd : delim ∉ b.rd)
    (hn : 2 * b.rd.length + (if defaultBufSize ≤ b.buf.length then 2 else 1) ≤ n) :
    (b.readBytesLoop delim n acc).2.1 = some Err.EOF := by
  induction n generalizing b acc with
  | zero => rfl
  | succ n ih =>
    unfold Reader.readBytesLoop
    rw [cutAt_none delim b.buf hb]
    simp only
    split
    · rename_i hfull
      rw [if_pos hfull] at hn
      apply ih
      · simp
      · exact hrd
      · simp [defaultBufSize]
        omega
    · rename_i hfull
      rw [if_neg hfull] at hn
      split
      · rfl
      · rename_i hne
        apply ih
        · intro hm
          simp only [Reader.fill, List.mem_append] at hm
          rcases hm with hm | hm
          · exact hb hm
          · exact hrd (List.mem_of_mem_take hm)
        · intro hm
          exact hrd (List.mem_of_mem_drop hm)
        · have hpos : 0 < b.rd.length := List.length_pos.mpr hne
          simp only [Reader.fill, List.length_drop]
          split <;> omega

theorem ReadBytes_eof (b : Reader) (delim : Nat) (hb : delim ∉ b.buf) (hrd : delim ∉ b.rd) :
    (b.ReadBytes delim).2.1 = some Err.EOF := by
  apply readBytesLoop_eof delim _ b [] hb hrd
  split <;> omega

/-- An input of at least twelve bytes without a zero byte behind the header: the
`ReadBytes` at line 189 returns `io.EOF`. -/
theorem unpackResponse_unterminated (fuel : Nat) (hdr rest : List Nat) (hhdr : hdr.length = 12)
    (h0 : 0 ∉ rest) :
    unpackResponse fuel (hdr ++ rest) = some { answers := none, err := some Err.EOF } := by
  have hrb := ReadBytes_eof { buf := rest.take 4084, rd := rest.drop 4084 } eof
    (fun hm => h0 (List.mem_of_mem_take hm)) (fun hm => h0 (List.mem_of_mem_drop hm))
  unfold unpackResponse unpackResponse.prelude
  simp only [Read_header hdr rest hhdr, hhdr, ne_eq, not_true_eq_false, or_self, if_false]
  generalize Reader.ReadBytes { buf := rest.take 4084, rd := rest.drop 4084 } eof = res at hrb
  obtain ⟨line, err, r2⟩ := res
  simp only at hrb
  subst hrb
  simp

/-- One iteration of the loop over the answers on a record of type A whose
resource data is not four bytes long: `setRData` refuses it. -/
theorem answers_invalid_A (fuel k i : Nat) (a : WireAnswer) (hdr qlit more t rd : List Nat)
    (answers : List (Option dnsAnswer))
    (hhdr : hdr.length = 12) (hq : a.compressed = true → ∀ b ∈ qlit, literalByte b)
    (hqf : qlit.length < fuel) (hlit : ∀ b ∈ a.literal, literalByte b)
    (hcls : a.cls < 65536) (httl : a.ttl < 4294967296) (hlen : a.rdata.length < 65536)
    (haf : a.literal.length < fuel) (htyp : a.typ = typeA) (h4 : a.rdata.length ≠ 4) :
    unpackResponse.answers fuel (k + 1) i { buf := a.bytes ++ t, rd := rd }
        (hdr ++ (qlit ++ [0]) ++ more) answers
      = some { answers := none, err := some Err.invalidResourceRecordData } := by
  have hbuf : a.bytes ++ t = a.nameBytes ++ (a.fixedBytes ++ (a.rdata ++ t)) := by
    simp [WireAnswer.bytes]
  have hwf0 : WireAnswer.WellFormed { a with typ := 0 } :=
    ⟨hlit, by simp, hcls, httl, hlen, fun h => by simp [typeA] at h⟩
  have hname := name_wellFormed fuel { a with typ := 0 } hdr qlit more
    (a.fixedBytes ++ (a.rdata ++ t)) rd hhdr hq hqf hwf0 haf
  have hnb : WireAnswer.nameBytes { a with typ := 0 } = a.nameBytes := rfl
  rw [hnb] at hname
  have hfix := Read_append a.fixedBytes (a.rdata ++ t) rd
  rw [fixedBytes_length] at hfix
  have hrd := Read_append a.rdata t rd
  have f1 : getUint16 (a.fixedBytes.take 2) = a.typ :=
    getUint16_putUint16 a.typ (by rw [htyp]; decide)
  have f4 : getUint16 ((a.fixedBytes.drop 8).take 2) = a.rdata.length :=
    getUint16_putUint16 a.rdata.length hlen
  rw [unpackResponse.answers, hbuf, hname]
  simp only [hfix, fixedBytes_length, f1, f4, hrd, ne_eq, not_true_eq_false,
    or_self, if_false, lt_self_iff_false]
  simp [dnsAnswer.setRData, htyp, h4]

/-- With a byte left, `ReadByte` returns it. -/
theorem ReadByte_of_stream (b : Reader) (c : Nat) (rest : List Nat) (h : b.stream = c :: rest) :
    ∃ b2, b.ReadByte = Except.ok (c, b2) ∧ b2.stream = rest := by
  cases hr : b.ReadByte with
  | error e =>
    have := (ReadByte_error b e hr).1
    rw [h] at this
    cases this
  | ok v =>
    obtain ⟨c1, b2⟩ := v
    have := ReadByte_stream b b2 c1 hr
    rw [h] at this
    injection this with h1 h2
    subst h1
    exact ⟨b2, rfl, h2⟩

/-- The name loop on a literal name, wherever the name lies in the stream: every
byte up to the zero byte is taken into the name, and the reader is left at the
byte behind the zero byte. -/
theorem name_literal_stream (fuel : Nat) (lit rest : List Nat) (n : Nat) (b : Reader)
    (data name : List Nat) (hlit : ∀ c ∈ lit, literalByte c) (hn : lit.length < n)
    (hs : b.stream = lit ++ 0 :: rest) :
    ∃ b2, unpackResponse.name fuel n b data name
        = some (Except.ok (b2, data ++ lit ++ [0], name ++ lit ++ [0]))
      ∧ b2.stream = rest := by
  induction lit generalizing n b data name with
  | nil =>
    obtain ⟨m, rfl⟩ : ∃ m, n = m + 1 := ⟨n - 1, by simp at hn; omega⟩
    obtain ⟨b2, hr, hs2⟩ := ReadByte_of_stream b 0 rest hs
    refine ⟨b2, ?_, hs2⟩
    rw [unpackResponse.name, hr]
    simp [pointer, eof]
  | cons c cs ih =>
    obtain ⟨m, rfl⟩ : ∃ m, n = m + 1 := ⟨n - 1, by simp at hn; omega⟩
    obtain ⟨b2, hr, hs2⟩ := ReadByte_of_stream b c (cs ++ 0 :: rest) hs
    obtain ⟨hc0, hcp⟩ := hlit c (by simp)
    obtain ⟨b3, h3, hs3⟩ := ih m b2 (data ++ [c]) (name ++ [c])
      (fun x hx => hlit x (by simp [hx])) (by simp at hn; omega) hs2
    refine ⟨b3, ?_, hs3⟩
    rw [unpackResponse.name, hr]
    simp only [hcp, if_false, eof, hc0, h3]
    simp

/-- The bytes a `Read` returns are the first of the stream. -/
theorem Read_initial (b : Reader) (k : Nat) : (b.Read k).1 <+: b.stream :=
  ⟨_, Read_stream b k⟩

theorem literal_labelBytes_general (labels : List (List Nat))
    (h : ∀ l ∈ labels, 1 ≤ l.length ∧ l.length ≤ 63 ∧ ∀ b ∈ l, literalByte b) :
    ∀ b ∈ labelBytes labels, literalByte b := by
  intro b hb
  obtain ⟨l, hl, hbl⟩ := List.mem_flatMap.mp hb
  obtain ⟨h1, h2, h3⟩ := h l hl
  rcases List.mem_cons.mp hbl with e | e
  · subst e
    exact literalByte_of_lt _ h1 (by omega)
  · exact h3 b e

theorem pointer_target_lt (b b1 : Nat) (hb : b < 256) (hb1 : b1 < 256)
    (hp : b &&& pointer = pointer) : getUint16 [b ^^^ pointer, b1] < 16384 := by
  have h192 : 192 ≤ b := by
    have := @Nat.and_le_left b pointer
    rw [hp] at this
    exact this
  have h := (pointer_bits (b - 192) (by omega)).2
  rw [show 0xC0 + (b - 192) = b by omega] at h
  simp only [getUint16, h]
  omega

/-- The loop of `getRefData` returns when the targets it follows strictly
decrease: `T` bounds the next target, and between two pointers the index only
grows. -/
theorem getRefData_loop_decreasing (data : List Nat) (hbytes : ∀ x ∈ data, x < 256)
    (fuel : Nat) :
    ∀ (i T : Nat) (acc : List Nat),
      decreasing (T :: getRefData.targets data fuel i) →
      (if data.length ≤ i then 1
        else (data.length - i) + 1 + min T data.length * (data.length + 1)) ≤ fuel →
      ∃ r, getRefData.loop data fuel i acc = some r := by
  induction fuel with
  | zero =>
    intro i T acc _ hf
    split at hf <;> omega
  | succ fuel ih =>
    intro i T acc hdec hf
    rw [getRefData.loop]
    rw [getRefData.targets] at hdec
    cases hi : data[i]? with
    | none => exact ⟨acc, rfl⟩
    | some b =>
      have hil : i < data.length := (List.getElem?_eq_some_iff.mp hi).1
      rw [if_neg (by omega)] at hf
      rw [hi] at hdec
      simp only at hdec ⊢
      by_cases hp : b &&& pointer = pointer
      · simp only [if_pos hp] at hdec ⊢
        cases hi1 : data[i + 1]? with
        | none => exact ⟨[], rfl⟩
        | some b1 =>
          rw [hi1] at hdec
          simp only at hdec ⊢
          have hbb : b < 256 := hbytes b (List.getElem?_mem hi)
          have hbb1 : b1 < 256 := hbytes b1 (List.getElem?_mem hi1)
          have ht := pointer_target_lt b b1 hbb hbb1 hp
          unfold decreasing at hdec
          rw [List.pairwise_cons] at hdec
          have htT : getUint16 [b ^^^ pointer, b1] < T := hdec.1 _ (List.mem_cons_self _ _)
          have hM : data.length + 1 ≤ min T data.length * (data.length + 1) := by
            have h1 : 1 ≤ min T data.length := by
              rw [Nat.le_min]
              omega
            have := Nat.mul_le_mul_right (data.length + 1) h1
            rwa [Nat.one_mul] at this
          apply ih _ (getUint16 [b ^^^ pointer, b1]) acc hdec.2
          by_cases hjl : data.length ≤ (getUint16 [b ^^^ pointer, b1] + 65535) % 65536 + 1
          · rw [if_pos hjl]
            omega
          · rw [if_neg hjl]
            by_cases h0 : getUint16 [b ^^^ pointer, b1] = 0
            · rw [h0]
              simp only [Nat.zero_min, Nat.zero_mul]
              omega
            · have hw : (getUint16 [b ^^^ pointer, b1] + 65535) % 65536 + 1
                  = getUint16 [b ^^^ pointer, b1] := by omega
              rw [hw] at hjl ⊢
              have h2 : min (getUint16 [b ^^^ pointer, b1]) data.length + 1
                  ≤ min T data.length := by
                rw [Nat.le_min]
                constructor
                · have := Nat.min_le_left (getUint16 [b ^^^ pointer, b1]) data.length
                  omega
                · have := Nat.min_le_left (getUint16 [b ^^^ pointer, b1]) data.length
                  omega
              have h3 := Nat.mul_le_mul_right (data.length + 1) h2
              rw [Nat.add_mul, Nat.one_mul] at h3
              omega
      · simp only [if_neg hp] at hdec ⊢
        by_cases h0 : b = eof
        · simp only [if_pos h0]
          exact ⟨_, rfl⟩
        · simp only [if_neg h0] at hdec ⊢
          apply ih _ T _ hdec
          split <;> omega

theorem decreasing_fuel_bound (n i T : Nat) :
    (if n ≤ i then 1 else (n - i) + 1 + min T n * (n + 1)) ≤ (n + 1) * (n + 1) := by
  have h1 : min T n * (n + 1) ≤ n * (n + 1) := Nat.mul_le_mul_right _ (Nat.min_le_right T n)
  have h2 : (n + 1) * (n + 1) = n * (n + 1) + (n + 1) := by rw [Nat.add_mul, Nat.one_mul]
  split <;> omega

/-- From the start offset `p`, `getRefData` returns when the targets followed
strictly decrease below `T`. -/
theorem getRefData_chain (data : List Nat) (hbytes : ∀ x ∈ data, x < 256) (fuel p T : Nat)
    (hdec : decreasing (T :: getRefData.targets data fuel p))
    (hfuel : (data.length + 1) * (data.length + 1) ≤ fuel) :
    ∃ r, getRefData fuel data p = some r :=
  getRefData_loop_decreasing data hbytes fuel p T [] hdec
    (Nat.le_trans (decreasing_fuel_bound data.length p T) hfuel)

/-- In a buffer of bytes every target is below 16384. -/
theorem targets_lt (data : List Nat) (hbytes : ∀ x ∈ data, x < 256) (fuel : Nat) :
    ∀ i, ∀ t ∈ getRefData.targets data fuel i, t < 16384 := by
  induction fuel with
  | zero => intro i t ht; simp [getRefData.targets] at ht
  | succ fuel ih =>
    intro i t ht
    rw [getRefData.targets] at ht
    cases hi : data[i]? with
    | none => rw [hi] at ht; simp at ht
    | some b =>
      rw [hi] at ht
      simp only at ht
      by_cases hp : b &&& pointer = pointer
      · simp only [if_pos hp] at ht
        cases hi1 : data[i + 1]? with
        | none => rw [hi1] at ht; simp at ht
        | some b1 =>
          rw [hi1] at ht
          simp only at ht
          rcases List.mem_cons.mp ht with e | e
          · rw [e]
            exact pointer_target_lt b b1 (hbytes b (List.getElem?_mem hi))
              (hbytes b1 (List.getElem?_mem hi1)) hp
          · exact ih _ t e
      · simp only [if_neg hp] at ht
        by_cases h0 : b = eof
        · simp [if_pos h0] at ht
        · simp only [if_neg h0] at ht
          exact ih _ t ht

/-- With strictly decreasing targets `getRefData` returns from the start
offset `p`. -/
theorem getRefData_decreasing (data : List Nat) (hbytes : ∀ x ∈ data, x < 256)
    (fuel p : Nat) (hdec : decreasing (getRefData.targets data fuel p))
    (hfuel : (data.length + 1) * (data.length + 1) ≤ fuel) :
    ∃ r, getRefData fuel data p = some r := by
  apply getRefData_chain data hbytes fuel p 16384 _ hfuel
  unfold decreasing at hdec ⊢
  rw [List.pairwise_cons]
  exact ⟨targets_lt data hbytes fuel p, hdec⟩

/-- The loop of `getRefData` in the buffer `00 01 61 C0 01` never ends: from
offset 1 it takes the label "a", and the pointer at offset 3 sends it back to
offset 1. -/
theorem getRefData_loop_cycle (fuel : Nat) :
    ∀ acc, getRefData.loop [0x00, 0x01, 0x61, 0xC0, 0x01] fuel 1 acc = none
      ∧ getRefData.loop [0x00, 0x01, 0x61, 0xC0, 0x01] fuel 2 acc = none
      ∧ getRefData.loop [0x00, 0x01, 0x61, 0xC0, 0x01] fuel 3 acc = none := by
  induction fuel with
  | zero => intro acc; exact ⟨rfl, rfl, rfl⟩
  | succ fuel ih =>
    intro acc
    refine ⟨?_, ?_, ?_⟩
    · rw [getRefData.loop]
      exact (ih (acc ++ [0x01])).2.1
    · rw [getRefData.loop]
      exact (ih (acc ++ [0x61])).2.2
    · rw [getRefData.loop]
      exact (ih acc).1

/-- Header and question are the first bytes of the input, and the reader holds
the rest. -/
theorem prelude_stream (rd : List Nat) (s : Prelude)
    (hp : unpackResponse.prelude rd = Except.ok s) : s.data ++ s.reader.stream = rd := by
  have h1 := Read_stream { buf := [], rd := rd } 12
  have h2 := ReadBytes_stream (Reader.Read { buf := [], rd := rd } 12).2.2 eof
  have h3 := Read_stream
    (Reader.ReadBytes (Reader.Read { buf := [], rd := rd } 12).2.2 eof).2.2 4
  unfold unpackResponse.prelude at hp
  simp only at hp
  split at hp
  · cases hp
  · split at hp
    · cases hp
    · split at hp
      · cases hp
      · injection hp with e
        subst e
        simp only [List.append_assoc]
        rw [h3, h2, h1]
        rfl

/-- The name loop keeps `data` and the reader in step: what it has appended to
`data` it has taken from the reader. -/
theorem name_stream (fuel n : Nat) (reader r2 : Reader) (data name d2 n2 : List Nat)
    (hn : unpackResponse.name fuel n reader data name = some (Except.ok (r2, d2, n2))) :
    d2 ++ r2.stream = data ++ reader.stream := by
  induction n generalizing reader data name with
  | zero => simp [unpackResponse.name] at hn
  | succ m ih =>
    unfold unpackResponse.name at hn
    split at hn
    · cases hn
    · rename_i b rdr hb
      have hr := ReadByte_stream reader rdr b hb
      split at hn
      · split at hn
        · cases hn
        · rename_i b1 rdr1 hb1
          have hr1 := ReadByte_stream rdr rdr1 b1 hb1
          simp only at hn
          split at hn
          · cases hn
          · split at hn
            · cases hn
            · injection hn with e
              injection e with e
              injection e with e1 e2
              injection e2 with e2 e3
              subst e1 e2
              rw [← hr, ← hr1]
              simp
      · split at hn
        · injection hn with e
          injection e with e
          injection e with e1 e2
          injection e2 with e2 e3
          subst e1 e2
          rw [← hr]
          simp
        · rw [ih _ _ _ hn, ← hr]
          simp

/-- The name loop returns when the targets followed for the name strictly
decrease: every iteration takes a byte from the reader. -/
theorem name_decreasing (fuel : Nat) (rd : List Nat) (hbytes : ∀ x ∈ rd, x < 256)
    (hfuel : (rd.length + 1) * (rd.length + 1) ≤ fuel) (n : Nat) :
    ∀ (reader : Reader) (data name : List Nat), data ++ reader.stream = rd →
      reader.stream.length < n → decreasing (unpackResponse.nameTargets fuel n reader data) →
      ∃ r, unpackResponse.name fuel n reader data name = some r := by
  induction n with
  | zero => intro reader data name _ hn; omega
  | succ m ih =>
    intro reader data name hs hn hdec
    unfold unpackResponse.name
    rw [unpackResponse.nameTargets] at hdec
    cases hb : reader.ReadByte with
    | error e => exact ⟨_, rfl⟩
    | ok v =>
      obtain ⟨b, rdr⟩ := v
      have hr := ReadByte_stream reader rdr b hb
      rw [hb] at hdec
      simp only at hdec ⊢
      by_cases hp : b &&& pointer = pointer
      · simp only [if_pos hp] at hdec ⊢
        cases hb1 : rdr.ReadByte with
        | error e => exact ⟨_, rfl⟩
        | ok v1 =>
          obtain ⟨b1, rdr1⟩ := v1
          have hr1 := ReadByte_stream rdr rdr1 b1 hb1
          rw [hb1] at hdec
          simp only at hdec ⊢
          have hrd : (data ++ [b] ++ [b1]) ++ rdr1.stream = rd := by
            rw [← hs, ← hr, ← hr1]
            simp
          have hlen : (data ++ [b] ++ [b1]).length ≤ rd.length := by
            have hl := congrArg List.length hrd
            simp only [List.length_append] at hl ⊢
            omega
          have hf2 : ((data ++ [b] ++ [b1]).length + 1) * ((data ++ [b] ++ [b1]).length + 1)
              ≤ fuel :=
            Nat.le_trans (Nat.mul_le_mul (by omega) (by omega)) hfuel
          obtain ⟨r, hg⟩ := getRefData_chain (data ++ [b] ++ [b1])
            (fun x hx => hbytes x (by rw [← hrd]; exact List.mem_append_left _ hx))
            fuel (getUint16 [b ^^^ pointer, b1]) (getUint16 [b ^^^ pointer, b1]) hdec hf2
          rw [hg]
          simp only
          split
          · exact ⟨_, rfl⟩
          · exact ⟨_, rfl⟩
      · simp only [if_neg hp] at hdec ⊢
        by_cases h0 : b = eof
        · simp only [if_pos h0]
          exact ⟨_, rfl⟩
        · simp only [if_neg h0] at hdec ⊢
          apply ih
          · rw [← hs, ← hr]
            simp
          · rw [← hr] at hn
            simp at hn
            omega
          · exact hdec

/-- The loop over the answers returns when the targets followed for each name
strictly decrease. -/
theorem answers_decreasing (fuel : Nat) (rd : List Nat) (hbytes : ∀ x ∈ rd, x < 256)
    (hfuel : (rd.length + 1) * (rd.length + 1) ≤ fuel) (k : Nat) :
    ∀ (i : Nat) (reader : Reader) (data : List Nat) (answers : List (Option dnsAnswer)),
      data ++ reader.stream = rd →
      (∀ c ∈ unpackResponse.answersChains fuel k reader data, decreasing c) →
      ∃ res, unpackResponse.answers fuel k i reader data answers = some res := by
  have hf : rd.length < fuel := by
    have : (rd.length + 1) * (rd.length + 1) = rd.length * (rd.length + 1) + (rd.length + 1) := by
      rw [Nat.add_mul, Nat.one_mul]
    omega
  induction k with
  | zero => intro i reader data answers _ _; exact ⟨_, rfl⟩
  | succ k ih =>
    intro i reader data answers hs hch
    have hlen : reader.stream.length < fuel := by
      have := congrArg List.length hs
      rw [List.length_append] at this
      omega
    rw [unpackResponse.answersChains] at hch
    obtain ⟨r, hname⟩ := name_decreasing fuel rd hbytes hfuel fuel reader data [] hs hlen
      (hch _ (List.mem_cons_self _ _))
    have hch2 := fun c hc => hch c (List.mem_cons_of_mem _ hc)
    unfold unpackResponse.answers
    rw [hname] at hch2 ⊢
    match r, hname with
    | Except.error e, _ => exact ⟨_, rfl⟩
    | Except.ok (rdr, dat, name), hname =>
      have hs1 := name_stream fuel fuel reader rdr data [] dat name hname
      have h10 := Read_stream rdr 10
      simp only at hch2 ⊢
      by_cases hc : (rdr.Read 10).2.1 ≠ none ∨ (rdr.Read 10).1.length ≠ 10
      · rw [if_pos hc]
        exact ⟨_, rfl⟩
      · rw [if_neg hc] at hch2 ⊢
        have hrd := Read_stream (rdr.Read 10).2.2
          (getUint16 (List.take 2 (List.drop 8 (rdr.Read 10).1)))
        by_cases hc2 : ((rdr.Read 10).2.2.Read
              (getUint16 (List.take 2 (List.drop 8 (rdr.Read 10).1)))).2.1 ≠ none
            ∨ ((rdr.Read 10).2.2.Read
              (getUint16 (List.take 2 (List.drop 8 (rdr.Read 10).1)))).1.length
              < getUint16 (List.take 2 (List.drop 8 (rdr.Read 10).1))
        · rw [if_pos hc2]
          exact ⟨_, rfl⟩
        · rw [if_neg hc2] at hch2 ⊢
          split
          · exact ⟨_, rfl⟩
          · rename_i answer hset
            rw [hset] at hch2
            apply ih
            · rw [List.append_assoc, List.append_assoc, hrd, h10, hs1, hs]
            · exact hch2

/-- On a response of bytes in which the targets followed for each answer name
strictly decrease, `unpackResponse` returns. -/
theorem unpackResponse_decreasing (rd : List Nat) (hbytes : ∀ x ∈ rd, x < 256) (fuel : Nat)
    (hch : ∀ c ∈ unpackResponse.chains fuel rd, decreasing c)
    (hfuel : (rd.length + 1) * (rd.length + 1) ≤ fuel) :
    ∃ res, unpackResponse fuel rd = some res := by
  unfold unpackResponse
  unfold unpackResponse.chains at hch
  cases hp : unpackResponse.prelude rd with
  | error e => exact ⟨_, rfl⟩
  | ok s =>
    rw [hp] at hch
    simp only at hch ⊢
    apply answers_decreasing fuel rd hbytes hfuel
    · rw [Peek_stream]
      exact prelude_stream rd s hp
    · exact hch

theorem getRefData_loop_cycleResponse (fuel : Nat) :
    ∀ acc, getRefData.loop (cycleResponse.take 33) fuel 29 acc = none
      ∧ getRefData.loop (cycleResponse.take 33) fuel 30 acc = none
      ∧ getRefData.loop (cycleResponse.take 33) fuel 31 acc = none := by
  induction fuel with
  | zero => intro acc; exact ⟨rfl, rfl, rfl⟩
  | succ fuel ih =>
    intro acc
    refine ⟨?_, ?_, ?_⟩
    · rw [getRefData.loop]
      exact (ih (acc ++ [0x01])).2.1
    · rw [getRefData.loop]
      exact (ih (acc ++ [0x61])).2.2
    · rw [getRefData.loop]
      exact (ih acc).1

theorem unpackResponse_cycleResponse (fuel : Nat) :
    unpackResponse fuel cycleResponse = none := by
  match fuel with
  | 0 => rfl
  | 1 => rfl
  | 2 => rfl
  | n + 3 =>
    have hg := (getRefData_loop_cycleResponse (n + 3) []).1
    have hname : unpackResponse.name (n + 3) (n + 3)
        { buf := cycleResponse.drop 29, rd := [] } (cycleResponse.take 29) [] = none := by
      rw [unpackResponse.name]
      show unpackResponse.name (n + 3) (n + 2)
        { buf := cycleResponse.drop 30, rd := [] } (cycleResponse.take 30) [0x01] = none
      rw [unpackResponse.name]
      show unpackResponse.name (n + 3) (n + 1)
        { buf := cycleResponse.drop 31, rd := [] } (cycleResponse.take 31) [0x01, 0x61] = none
      rw [unpackResponse.name]
      show (match getRefData (n + 3) (cycleResponse.take 33) 29 with
        | none => none
        | some buf =>
          if buf.length = 0 then some (Except.error Err.invalidAnswerPacket)
          else some (Except.ok
            (({ buf := cycleResponse.drop 33, rd := [] } : Reader), cycleResponse.take 33,
              [0x01, 0x61] ++ buf))) = none
      unfold getRefData
      rw [hg]
    unfold unpackResponse
    rw [show unpackResponse.prelude cycleResponse
        = Except.ok
            { header := ⟨0x0001, 0x8180, 1, 1, 0, 0⟩
              question := ⟨labelBytes exampleLabels ++ [0], 1, 1⟩
              data := cycleResponse.take 29
              reader := { buf := cycleResponse.drop 29, rd := [] } } from rfl]
    show unpackResponse.answers (n + 3) (0 + 1) 0 { buf := cycleResponse.drop 29, rd := [] }
      (cycleResponse.take 29) [none] = none
    rw [unpackResponse.answers, hname]

theorem getRefData_checked_eq (data : List Nat) (fuel : Nat) :
    ∀ i acc, getRefData.checked data fuel i acc
      = (getRefData.loop data fuel i acc).map Except.ok := by
  induction fuel with
  | zero => intro i acc; rfl
  | succ fuel ih =>
    intro i acc
    rw [getRefData.checked, getRefData.loop]
    by_cases hi : i < data.length
    · rw [if_pos hi, List.getElem?_eq_getElem hi]
      simp only
      split
      · by_cases hi1 : i + 1 < data.length
        · rw [if_neg (by omega), List.getElem?_eq_getElem hi1]
          simp only
          exact ih _ _
        · rw [if_pos (by omega), List.getElem?_eq_none (by omega)]
          rfl
      · split
        · rfl
        · exact ih _ _
    · rw [if_neg hi, List.getElem?_eq_none (by omega)]
      rfl

theorem setRData_fields (a r : dnsAnswer) (rdata data : List Nat)
    (h : a.setRData rdata data = Except.ok r) :
    r.Typ = a.Typ ∧ r.Class = a.Class ∧ r.TTL = a.TTL ∧ r.RDLength = a.RDLength
      ∧ (r.Typ = typeA → rdata.length = 4 ∧ r.RData = some { addr := rdata }) := by
  unfold dnsAnswer.setRData at h
  split at h
  · rename_i ht
    split at h
    · cases h
    · rename_i h4
      have h4 : rdata.length = 4 := by simpa using h4
      injection h with e
      subst e
      refine ⟨rfl, rfl, rfl, rfl, fun _ => ⟨h4, ?_⟩⟩
      simp only [setRData_loop rdata h4]
  · rename_i ht
    injection h with e
    subst e
    exact ⟨rfl, rfl, rfl, rfl, fun h1 => absurd h1 ht⟩

/-- The loop over the answers keeps the records it has stored and stores at
every further index a record that stands in the input. -/
theorem answers_stored (fuel : Nat) (resp : List Nat) (k : Nat) :
    ∀ (i : Nat) (reader : Reader) (data : List Nat) (answers out : List (Option dnsAnswer)),
      data ++ reader.stream = resp → answers.length = i + k →
      (∀ j, j < i → ∃ r, answers[j]? = some (some r) ∧ storedRecord resp r) →
      unpackResponse.answers fuel k i reader data answers
        = some { answers := some out, err := none } →
      out.length = i + k ∧ ∀ j, j < i + k → ∃ r, out[j]? = some (some r) ∧ storedRecord resp r := by
  induction k with
  | zero =>
    intro i reader data answers out _ hlen hdone h
    simp only [unpackResponse.answers, Option.some.injEq, Result.mk.injEq, and_true] at h
    subst h
    exact ⟨hlen, fun j hj => hdone j (by omega)⟩
  | succ k ih =>
    intro i reader data answers out hs hlen hdone h
    unfold unpackResponse.answers at h
    split at h
    · cases h
    · simp at h
    · rename_i rdr dat name hname
      have hs1 := name_stream fuel fuel reader rdr data [] dat name hname
      have h10 := Read_stream rdr 10
      simp only at h
      split at h
      · simp at h
      · rename_i hc10
        have hrd := Read_stream (rdr.Read 10).2.2
          (getUint16 (List.take 2 (List.drop 8 (rdr.Read 10).1)))
        have hle := Read_length_le (rdr.Read 10).2.2
          (getUint16 (List.take 2 (List.drop 8 (rdr.Read 10).1)))
        split at h
        · simp at h
        · rename_i hcond
          split at h
          · simp at h
          · rename_i answer hset
            obtain ⟨f1, f2, f3, f4, f5⟩ := setRData_fields _ answer _ _ hset
            simp only [not_or, not_lt, ne_eq, not_not] at hcond hc10
            have hlen2 := Nat.le_antisymm hle hcond.2
            have hstored : storedRecord resp answer := by
              refine ⟨((rdr.Read 10).2.2.Read
                  (getUint16 (List.take 2 (List.drop 8 (rdr.Read 10).1)))).1,
                ⟨dat, (rdr.Read 10).1,
                  ((rdr.Read 10).2.2.Read
                    (getUint16 (List.take 2 (List.drop 8 (rdr.Read 10).1)))).2.2.stream,
                  ?_, hc10.2, f1, f2, f3, f4, ?_⟩, ?_⟩
              · rw [List.append_assoc, List.append_assoc, hrd, h10, hs1, hs]
              · rw [f4]
                exact hlen2
              · intro ht
                obtain ⟨g1, g2⟩ := f5 ht
                exact ⟨by rw [f4]; rw [← hlen2]; exact g1, g2⟩
            have hrec := ih (i + 1) _ _ _ out
              (by rw [List.append_assoc, List.append_assoc, hrd, h10, hs1, hs])
              (by simp; omega) ?_ h
            · exact ⟨by omega, fun j hj => hrec.2 j (by omega)⟩
            intro j2 hj2
            by_cases e : j2 = i
            · subst e
              exact ⟨answer, by simp [List.getElem?_set, hlen], hstored⟩
            · obtain ⟨r, h1, h2⟩ := hdone j2 (by omega)
              exact ⟨r, by rw [List.getElem?_set_ne (Ne.symm e)]; exact h1, h2⟩

theorem unpackResponse_stored (fuel : Nat) (resp : List Nat)
    (answers : List (Option dnsAnswer))
    (h : unpackResponse fuel resp = some { answers := some answers, err := none }) :
    ∀ e ∈ answers, ∃ r, e = some r ∧ storedRecord resp r := by
  unfold unpackResponse at h
  split at h
  · simp at h
  · rename_i s hs
    have hst : s.data ++ (s.reader.Peek 59).stream = resp := by
      rw [Peek_stream]
      exact prelude_stream resp s hs
    have hinv := answers_stored fuel resp s.header.ANCount 0 _ _ _ answers hst (by simp)
      (fun j hj => absurd hj (Nat.not_lt_zero j)) h
    intro e he
    obtain ⟨j, hj⟩ := List.mem_iff_getElem?.mp he
    have hlt : j < answers.length := by
      by_contra hge
      rw [List.getElem?_eq_none (by omega)] at hj
      cases hj
    obtain ⟨r, h1, h2⟩ := hinv.2 j (by omega)
    rw [hj] at h1
    exact ⟨r, by injection h1, h2⟩

/-- The loop of `Resolve` does not dereference `nil` on a list without a `nil`
entry whose records of type A have an address value. -/
theorem names_some (answers : List (Option dnsAnswer))
    (h : ∀ e ∈ answers, ∃ r, e = some r ∧ (r.Typ = typeA → r.RData ≠ none)) :
    ∀ names, ∃ out, Resolve.names answers names = some out := by
  induction answers with
  | nil => intro names; exact ⟨names, rfl⟩
  | cons e es ih =>
    intro names
    obtain ⟨r, he, hr⟩ := h e (by simp)
    subst he
    have ih2 := ih (fun x hx => h x (by simp [hx]))
    unfold Resolve.names
    split
    · exact ih2 names
    · rename_i ht
      have ht : r.Typ = typeA := by simpa using ht
      cases hrd : r.RData with
      | none => exact absurd hrd (hr ht)
      | some rd =>
        simp only
        split
        · exact ih2 _
        · exact ih2 _

theorem fill_extends (x : List Nat) (b b2 : Reader) (h : b.Extends x b2) :
    b.fill.Extends x b2.fill := by
  obtain ⟨u, h1, h2, h3⟩ := h
  rcases h3 with h3 | h3
  · subst h3
    simp only [List.nil_append, List.append_nil] at h1 h2
    by_cases hl : defaultBufSize - b.buf.length ≤ b.rd.length
    · refine ⟨[], ?_, ?_, Or.inl rfl⟩
      · simp only [Reader.fill, h1, h2, List.append_nil, List.take_append_of_le_length hl]
      · simp only [Reader.fill, h1, h2, List.nil_append, List.drop_append_of_le_length hl]
    · have hl2 : b.rd.length ≤ defaultBufSize - b.buf.length := by omega
      refine ⟨x.take (defaultBufSize - b.buf.length - b.rd.length), ?_, ?_, Or.inr ?_⟩
      · simp only [Reader.fill, h1, h2, take_append_of_length_le b.rd x _ hl2,
          List.take_of_length_le hl2, List.append_assoc]
      · simp only [Reader.fill, h1, h2, drop_append_of_length_le b.rd x _ hl2,
          List.drop_of_length_le hl2, List.take_append_drop, List.nil_append]
      · simp only [Reader.fill, List.drop_of_length_le hl2]
  · refine ⟨u ++ b2.rd.take (defaultBufSize - b2.buf.length), ?_, ?_, Or.inr ?_⟩
    · simp only [Reader.fill, h1, h3, List.take_nil, List.append_nil, List.append_assoc]
    · simp only [Reader.fill, h3, List.drop_nil, List.nil_append, List.append_assoc,
        List.take_append_drop]
      rw [h2, h3, List.nil_append]
    · simp only [Reader.fill, h3, List.drop_nil]

theorem fill_of_rd_nil (b : Reader) (h : b.rd = []) : b.fill = b := by
  cases b with
  | mk buf rd =>
    simp only at h
    subst h
    simp [Reader.fill]

theorem Peek_extends (x : List Nat) (b b2 : Reader) (n : Nat) (h : b.Extends x b2) :
    (b.Peek n).Extends x (b2.Peek n) := by
  unfold Reader.Peek
  by_cases h1 : b.buf.length < n
  · by_cases h2 : b2.buf.length < n
    · rw [if_pos h1, if_pos h2]
      exact fill_extends x b b2 h
    · rw [if_pos h1, if_neg h2]
      obtain ⟨u, g1, g2, g3⟩ := h
      rcases g3 with g3 | g3
      · subst g3
        rw [g1, List.append_nil] at h2
        exact absurd h1 h2
      · rw [fill_of_rd_nil b g3]
        exact ⟨u, g1, g2, Or.inr g3⟩
  · have h2 : ¬ b2.buf.length < n := by
      obtain ⟨u, g1, _, _⟩ := h
      rw [g1, List.length_append]
      omega
    rw [if_neg h1, if_neg h2]
    exact h

/-- A `Read` that the input of `b` can serve returns the same on the extended
input. -/
theorem Read_extends (x : List Nat) (b b2 : Reader) (k : Nat) (h : b.Extends x b2)
    (hk : k ≤ b.stream.length) :
    (b2.Read k).1 = (b.Read k).1 ∧ (b2.Read k).2.1 = (b.Read k).2.1
      ∧ (b.Read k).2.2.Extends x (b2.Read k).2.2 := by
  by_cases hk0 : k = 0
  · subst hk0
    exact ⟨rfl, rfl, h⟩
  have hfill := fill_extends x b b2 h
  obtain ⟨u, g1, g2, g3⟩ := h
  by_cases hb : b.buf = []
  · have hrd : b.rd ≠ [] := by
      intro e
      simp [Reader.stream, hb, e] at hk
      exact hk0 hk
    have hu : u = [] := by
      rcases g3 with g3 | g3
      · exact g3
      · exact absurd g3 hrd
    subst hu
    simp only [List.nil_append, List.append_nil] at g1 g2
    have hb2 : b2.buf = [] := by rw [g1, hb]
    have hrd2 : b2.rd ≠ [] := by
      rw [g2]
      intro e
      exact hrd (List.append_eq_nil.mp e).1
    have hkl : k ≤ b.rd.length := by simpa [Reader.stream, hb] using hk
    unfold Reader.Read
    rw [if_neg hk0, if_neg hk0, if_pos hb, if_pos hb2, if_neg hrd, if_neg hrd2]
    by_cases hbig : defaultBufSize ≤ k
    · rw [if_pos hbig, if_pos hbig]
      refine ⟨?_, rfl, [], ?_, ?_, Or.inl rfl⟩
      · simp only [g2, List.take_append_of_le_length hkl]
      · rfl
      · simp only [g2, List.nil_append, List.drop_append_of_le_length hkl]
    · rw [if_neg hbig, if_neg hbig]
      obtain ⟨u2, f1, f2, f3⟩ := hfill
      have hfl : k ≤ b.fill.buf.length := by
        simp only [Reader.fill, hb, List.nil_append, List.length_nil, Nat.sub_zero,
          List.length_take]
        omega
      refine ⟨?_, rfl, u2, ?_, f2, f3⟩
      · simp only [f1, List.take_append_of_le_length hfl]
      · simp only [f1, List.drop_append_of_le_length hfl]
  · have hb2 : b2.buf ≠ [] := by
      rw [g1]
      intro e
      exact hb (List.append_eq_nil.mp e).1
    unfold Reader.Read
    rw [if_neg hk0, if_neg hk0, if_neg hb, if_neg hb2]
    rcases g3 with g3 | g3
    · subst g3
      simp only [List.nil_append, List.append_nil] at g1 g2
      refine ⟨by rw [g1], rfl, [], ?_, ?_, Or.inl rfl⟩
      · simp only [g1, List.append_nil]
      · simp only [List.nil_append, g2]
    · have hkl : k ≤ b.buf.length := by simpa [Reader.stream, g3] using hk
      refine ⟨?_, rfl, u, ?_, g2, Or.inr g3⟩
      · simp only [g1, List.take_append_of_le_length hkl]
      · simp only [g1, List.drop_append_of_le_length hkl]

/-- A `ReadByte` that the input of `b` can serve returns the same byte on the
extended input. -/
theorem ReadByte_extends (x : List Nat) (b b2 r : Reader) (c : Nat) (h : b.Extends x b2)
    (hr : b.ReadByte = Except.ok (c, r)) :
    ∃ r2, b2.ReadByte = Except.ok (c, r2) ∧ r.Extends x r2 := by
  have hfill := fill_extends x b b2 h
  obtain ⟨u, g1, g2, g3⟩ := h
  unfold Reader.ReadByte at hr
  split at hr
  · rename_i c1 cs hb
    injection hr with e
    injection e with e1 e2
    subst e1 e2
    refine ⟨{ buf := cs ++ u, rd := b2.rd }, ?_, u, rfl, g2, g3⟩
    unfold Reader.ReadByte
    rw [g1, hb]
    rfl
  · rename_i hb
    split at hr
    · rename_i c1 cs hfb
      injection hr with e
      injection e with e1 e2
      subst e1 e2
      have hrd : b.rd ≠ [] := by
        intro e
        rw [fill_of_rd_nil b e, hb] at hfb
        cases hfb
      have hu : u = [] := by
        rcases g3 with g3 | g3
        · exact g3
        · exact absurd g3 hrd
      subst hu
      have hb2 : b2.buf = [] := by rw [g1, hb]; rfl
      obtain ⟨u2, f1, f2, f3⟩ := hfill
      refine ⟨{ buf := cs ++ u2, rd := b2.fill.rd }, ?_, u2, rfl, f2, f3⟩
      unfold Reader.ReadByte
      rw [hb2]
      simp only
      rw [f1, hfb]
      rfl
    · cases hr

theorem cutAt_append_right (d : Nat) (l u line rest : List Nat)
    (h : cutAt d l = some (line, rest)) : cutAt d (l ++ u) = some (line, rest ++ u) := by
  induction l generalizing line rest with
  | nil => simp [cutAt] at h
  | cons c cs ih =>
    rw [List.cons_append]
    unfold cutAt at h ⊢
    split at h
    · rename_i hc
      cases h
      rw [if_pos hc]
    · rename_i hc
      rw [if_neg hc]
      split at h
      · rename_i l2 r2 hcs
        cases h
        rw [ih l2 _ hcs]
      · cases h

theorem cutAt_line (d : Nat) (l line rest : List Nat) (h : cutAt d l = some (line, rest)) :
    ∃ a, line = a ++ [d] ∧ d ∉ a := by
  induction l generalizing line rest with
  | nil => simp [cutAt] at h
  | cons c cs ih =>
    unfold cutAt at h
    split at h
    · rename_i hc
      cases h
      exact ⟨[], by simp [hc], by simp⟩
    · rename_i hc
      split at h
      · rename_i l2 r2 hcs
        cases h
        obtain ⟨a, ha, hd⟩ := ih l2 _ hcs
        refine ⟨c :: a, by simp [ha], ?_⟩
        intro hm
        rcases List.mem_cons.mp hm with e | e
        · exact hc e.symm
        · exact hd e
      · cases h

theorem not_mem_of_cutAt_none (d : Nat) (l : List Nat) (h : cutAt d l = none) : d ∉ l := by
  induction l with
  | nil => simp
  | cons c cs ih =>
    unfold cutAt at h
    split at h
    · cases h
    · rename_i hc
      split at h
      · cases h
      · rename_i hcs
        intro hm
        rcases List.mem_cons.mp hm with e | e
        · exact hc e.symm
        · exact ih hcs e

/-- A line that `ReadBytes` returns without an error ends at the first
delimiter. -/
theorem readBytesLoop_line (delim n : Nat) (b : Reader) (acc : List Nat)
    (h : (b.readBytesLoop delim n acc).2.1 = none) :
    ∃ l, (b.readBytesLoop delim n acc).1 = acc ++ l ++ [delim] ∧ delim ∉ l := by
  induction n generalizing b acc with
  | zero => simp [Reader.readBytesLoop] at h
  | succ n ih =>
    unfold Reader.readBytesLoop at h ⊢
    split at h
    · rename_i line rest hc
      obtain ⟨a, ha, hd⟩ := cutAt_line delim b.buf line rest hc
      exact ⟨a, by simp [ha], hd⟩
    · rename_i hc
      have hnb := not_mem_of_cutAt_none delim b.buf hc
      split at h
      · rename_i hfull
        rw [if_pos hfull]
        obtain ⟨l, hl, hd⟩ := ih _ _ h
        refine ⟨b.buf ++ l, by rw [hl]; simp, ?_⟩
        intro hm
        rcases List.mem_append.mp hm with e | e
        · exact hnb e
        · exact hd e
      · rename_i hfull
        rw [if_neg hfull]
        split at h
        · simp at h
        · rename_i hrd
          rw [if_neg hrd]
          exact ih _ _ h

/-- A `ReadBytes` whose delimiter is in the input of `b` returns the same on
the extended input. -/
theorem readBytesLoop_extends (x : List Nat) (delim n : Nat) :
    ∀ (m : Nat) (b b2 : Reader) (acc : List Nat), b.Extends x b2 → delim ∈ b.stream →
      2 * b.rd.length + (if defaultBufSize ≤ b.buf.length then 2 else 1) ≤ n →
      2 * b2.rd.length + (if defaultBufSize ≤ b2.buf.length then 2 else 1) ≤ m →
      (b2.readBytesLoop delim m acc).1 = (b.readBytesLoop delim n acc).1
        ∧ (b2.readBytesLoop delim m acc).2.1 = (b.readBytesLoop delim n acc).2.1
        ∧ (b.readBytesLoop delim n acc).2.2.Extends x (b2.readBytesLoop delim m acc).2.2 := by
  induction n with
  | zero =>
    intro m b b2 acc _ _ hn _
    split at hn <;> omega
  | succ n ih =>
    intro m b b2 acc h hd hn hm
    obtain ⟨m, rfl⟩ : ∃ m2, m = m2 + 1 := ⟨m - 1, by split at hm <;> omega⟩
    have hfill := fill_extends x b b2 h
    obtain ⟨u, g1, g2, g3⟩ := h
    unfold Reader.readBytesLoop
    cases hc : cutAt delim b.buf with
    | some v =>
      obtain ⟨line, rest⟩ := v
      have hc2 := cutAt_append_right delim b.buf u line rest hc
      rw [← g1] at hc2
      rw [hc2]
      exact ⟨rfl, rfl, u, rfl, g2, g3⟩
    | none =>
      have hnb := not_mem_of_cutAt_none delim b.buf hc
      have hdr : delim ∈ b.rd := by
        rcases List.mem_append.mp hd with e | e
        · exact absurd e hnb
        · exact e
      have hrd : b.rd ≠ [] := List.ne_nil_of_mem hdr
      have hu : u = [] := by
        rcases g3 with g3 | g3
        · exact g3
        · exact absurd g3 hrd
      subst hu
      simp only [List.nil_append, List.append_nil] at g1 g2
      have hrd2 : b2.rd ≠ [] := by
        rw [g2]
        intro e
        exact hrd (List.append_eq_nil.mp e).1
      rw [g1, hc]
      simp only
      by_cases hfull : defaultBufSize ≤ b.buf.length
      · rw [if_pos hfull, if_pos hfull]
        rw [if_pos hfull] at hn
        rw [g1, if_pos hfull] at hm
        apply ih
        · exact ⟨[], rfl, by simp [g2], Or.inl rfl⟩
        · simpa [Reader.stream] using hdr
        · simp [defaultBufSize]
          omega
        · simp [defaultBufSize]
          omega
      · rw [if_neg hfull, if_neg hfull, if_neg hrd, if_neg hrd2]
        rw [if_neg hfull] at hn
        rw [g1, if_neg hfull] at hm
        have hpos : 0 < b.rd.length := List.length_pos.mpr hrd
        have hpos2 : 0 < b2.rd.length := List.length_pos.mpr hrd2
        apply ih
        · exact hfill
        · rw [fill_stream]
          exact hd
        · simp only [Reader.fill, List.length_drop]
          split <;> omega
        · simp only [Reader.fill, List.length_drop, g1]
          split <;> omega

theorem ReadBytes_extends (x : List Nat) (delim : Nat) (b b2 : Reader) (h : b.Extends x b2)
    (hd : delim ∈ b.stream) :
    (b2.ReadBytes delim).1 = (b.ReadBytes delim).1
      ∧ (b2.ReadBytes delim).2.1 = (b.ReadBytes delim).2.1
      ∧ (b.ReadBytes delim).2.2.Extends x (b2.ReadBytes delim).2.2 := by
  apply readBytesLoop_extends x delim _ _ b b2 [] h hd
  · split <;> omega
  · split <;> omega

/-- The first delimiter splits a list in one way only. -/
theorem split_at_first (d : Nat) (l q s t : List Nat) (hl : d ∉ l) (hq : d ∉ q)
    (h : l ++ d :: s = q ++ d :: t) : l = q ∧ s = t := by
  induction l generalizing q with
  | nil =>
    cases q with
    | nil => simpa using h
    | cons c cs =>
      simp only [List.nil_append, List.cons_append, List.cons.injEq] at h
      exact absurd (by simp [h.1]) hq
  | cons a as ih =>
    cases q with
    | nil =>
      simp only [List.nil_append, List.cons_append, List.cons.injEq] at h
      exact absurd (by simp [h.1]) hl
    | cons c cs =>
      simp only [List.cons_append, List.cons.injEq] at h
      obtain ⟨e1, e2⟩ := ih cs (fun hm => hl (by simp [hm])) (fun hm => hq (by simp [hm])) h.2
      exact ⟨by rw [h.1, e1], e2⟩

/-- The name loop on a name that lies in the input of `b`, literal bytes ended
by a zero byte or by a pointer: on the extended input it returns the same and
leaves the reader where it leaves `b`. -/
theorem name_extends (x : List Nat) (fuel : Nat) (lit tail rest : List Nat)
    (hlit : ∀ c ∈ lit, literalByte c)
    (htail : tail = [0] ∨ ∃ p0 p1, tail = [p0, p1] ∧ p0 &&& pointer = pointer) :
    ∀ (n : Nat) (b b2 : Reader) (data name : List Nat), b.Extends x b2 →
      b.stream = lit ++ tail ++ rest →
      (unpackResponse.name fuel n b data name = none
          ∧ unpackResponse.name fuel n b2 data name = none)
        ∨ (∃ e, unpackResponse.name fuel n b data name = some (Except.error e)
          ∧ unpackResponse.name fuel n b2 data name = some (Except.error e))
        ∨ ∃ r r2 d2 n2, unpackResponse.name fuel n b data name = some (Except.ok (r, d2, n2))
          ∧ unpackResponse.name fuel n b2 data name = some (Except.ok (r2, d2, n2))
          ∧ r.Extends x r2 ∧ r.stream = rest := by
  induction lit with
  | nil =>
    intro n b b2 data name h hs
    cases n with
    | zero => exact Or.inl ⟨rfl, rfl⟩
    | succ m =>
      rcases htail with ht | ⟨p0, p1, ht, hp⟩
      · subst ht
        obtain ⟨r, hr, hrs⟩ := ReadByte_of_stream b 0 rest (by simpa using hs)
        obtain ⟨r2, hr2, he⟩ := ReadByte_extends x b b2 r 0 h hr
        refine Or.inr (Or.inr ⟨r, r2, data ++ [0], name ++ [0], ?_, ?_, he, hrs⟩)
        · rw [unpackResponse.name, hr]
          simp [pointer, eof]
        · rw [unpackResponse.name, hr2]
          simp [pointer, eof]
      · subst ht
        obtain ⟨r, hr, hrs⟩ := ReadByte_of_stream b p0 (p1 :: rest) (by simpa using hs)
        obtain ⟨r2, hr2, he⟩ := ReadByte_extends x b b2 r p0 h hr
        obtain ⟨s, hs1, hss⟩ := ReadByte_of_stream r p1 rest hrs
        obtain ⟨s2, hs2, hse⟩ := ReadByte_extends x r r2 s p1 he hs1
        rw [unpackResponse.name, unpackResponse.name, hr, hr2]
        simp only [hp, if_true, hs1, hs2]
        cases getRefData fuel (data ++ [p0] ++ [p1]) (getUint16 [p0 ^^^ pointer, p1]) with
        | none => exact Or.inl ⟨rfl, rfl⟩
        | some buf =>
          simp only
          by_cases hb : buf.length = 0
          · simp only [if_pos hb]
            exact Or.inr (Or.inl ⟨Err.invalidAnswerPacket, rfl, rfl⟩)
          · simp only [if_neg hb]
            exact Or.inr (Or.inr ⟨s, s2, _, _, rfl, rfl, hse, hss⟩)
  | cons c cs ih =>
    intro n b b2 data name h hs
    cases n with
    | zero => exact Or.inl ⟨rfl, rfl⟩
    | succ m =>
      obtain ⟨hc0, hcp⟩ := hlit c (by simp)
      obtain ⟨r, hr, hrs⟩ := ReadByte_of_stream b c (cs ++ tail ++ rest) (by simpa using hs)
      obtain ⟨r2, hr2, he⟩ := ReadByte_extends x b b2 r c h hr
      have := ih (fun y hy => hlit y (by simp [hy])) m r r2 (data ++ [c]) (name ++ [c]) he hrs
      rw [unpackResponse.name, unpackResponse.name, hr, hr2]
      simp only [hcp, if_false, eof, hc0]
      exact this

theorem nameBytes_tail (a : WireAnswer) :
    (if a.compressed then [0xC0, 0x0C] else [0]) = [0]
      ∨ ∃ p0 p1, (if a.compressed then [0xC0, 0x0C] else [0]) = [p0, p1]
        ∧ p0 &&& pointer = pointer := by
  cases a.compressed with
  | false => exact Or.inl rfl
  | true => exact Or.inr ⟨0xC0, 0x0C, rfl, by decide⟩

/-- The loop over the answers on well-formed records that make up the input of
`b`: on the extended input it returns the same. -/
theorem answers_extends (x : List Nat) (fuel : Nat) (recs : List WireAnswer)
    (hwf : ∀ a ∈ recs, a.WellFormed) :
    ∀ (i : Nat) (b b2 : Reader) (data : List Nat) (answers : List (Option dnsAnswer)),
      b.Extends x b2 → b.stream = recs.flatMap WireAnswer.bytes →
      unpackResponse.answers fuel recs.length i b2 data answers
        = unpackResponse.answers fuel recs.length i b data answers := by
  induction recs with
  | nil => intro i b b2 data answers _ _; rfl
  | cons a as ih =>
    intro i b b2 data answers h hs
    have hwfa := hwf a (by simp)
    have hs1 : b.stream = a.literal ++ (if a.compressed then [0xC0, 0x0C] else [0])
        ++ (a.fixedBytes ++ (a.rdata ++ as.flatMap WireAnswer.bytes)) := by
      rw [hs]
      simp [WireAnswer.bytes, WireAnswer.nameBytes]
    rw [List.length_cons, unpackResponse.answers, unpackResponse.answers]
    rcases name_extends x fuel a.literal _ _ hwfa.1 (nameBytes_tail a) fuel b b2 data [] h hs1
      with ⟨h1, h2⟩ | ⟨e, h1, h2⟩ | ⟨r, r2, d2, n2, h1, h2, he, hrs⟩
    · rw [h1, h2]
    · rw [h1, h2]
    · rw [h1, h2]
      simp only
      have hk10 : 10 ≤ r.stream.length := by
        rw [hrs, List.length_append, fixedBytes_length]
        omega
      obtain ⟨e1, e2, e3⟩ := Read_extends x r r2 10 he hk10
      have hst := Read_stream r 10
      rw [e1, e2]
      by_cases hc : (r.Read 10).2.1 ≠ none ∨ (r.Read 10).1.length ≠ 10
      · rw [if_pos hc, if_pos hc]
      · rw [if_neg hc, if_neg hc]
        simp only [not_or, ne_eq, not_not] at hc
        have hfix : (r.Read 10).1 = a.fixedBytes
            ∧ (r.Read 10).2.2.stream = a.rdata ++ as.flatMap WireAnswer.bytes := by
          rw [hrs] at hst
          exact List.append_inj hst (by rw [hc.2, fixedBytes_length])
        obtain ⟨f1, f2, f3, f4⟩ := fixedBytes_fields a hwfa
        rw [hfix.1]
        simp only [f1, f2, f3, f4]
        have hkr : a.rdata.length ≤ (r.Read 10).2.2.stream.length := by
          rw [hfix.2, List.length_append]
          omega
        obtain ⟨g1, g2, g3⟩ := Read_extends x _ _ a.rdata.length e3 hkr
        have hst2 := Read_stream (r.Read 10).2.2 a.rdata.length
        rw [g1, g2]
        by_cases hc2 : ((r.Read 10).2.2.Read a.rdata.length).2.1 ≠ none
            ∨ ((r.Read 10).2.2.Read a.rdata.length).1.length < a.rdata.length
        · rw [if_pos hc2, if_pos hc2]
        · rw [if_neg hc2, if_neg hc2]
          simp only [not_or, ne_eq, not_not, not_lt] at hc2
          have hle := Read_length_le (r.Read 10).2.2 a.rdata.length
          have hrdata : ((Reader.Read (r.Read 10).2.2 a.rdata.length)).1 = a.rdata
              ∧ ((Reader.Read (r.Read 10).2.2 a.rdata.length)).2.2.stream
                = as.flatMap WireAnswer.bytes := by
            rw [hfix.2] at hst2
            exact List.append_inj hst2 (by omega)
          split
          · rename_i heq
            rw [heq]
          · rename_i heq
            rw [heq]
            exact ih (fun y hy => hwf y (by simp [hy])) _ _ _ _ _ g3 hrdata.2

/-- Bytes behind a response made of header, question and well-formed records
change nothing of what `unpackResponse` returns, whatever the length of the
response. -/
theorem unpackResponse_extends (fuel : Nat) (hdr qlit qtc : List Nat) (recs : List WireAnswer)
    (x : List Nat) (hhdr : hdr.length = 12)
    (hcount : getUint16 ((hdr.drop 6).take 2) = recs.length) (hq0 : 0 ∉ qlit)
    (hqtc : qtc.length = 4) (hwf : ∀ a ∈ recs, a.WellFormed) :
    unpackResponse fuel (response hdr (qlit ++ [0]) qtc recs ++ x)
      = unpackResponse fuel (response hdr (qlit ++ [0]) qtc recs) := by
  have hext0 : Reader.Extends x { buf := [], rd := response hdr (qlit ++ [0]) qtc recs }
      { buf := [], rd := response hdr (qlit ++ [0]) qtc recs ++ x } :=
    ⟨[], rfl, rfl, Or.inl rfl⟩
  have hs0 : Reader.stream { buf := [], rd := response hdr (qlit ++ [0]) qtc recs }
      = hdr ++ (qlit ++ 0 :: (qtc ++ recs.flatMap WireAnswer.bytes)) := by
    simp [Reader.stream, response]
  obtain ⟨a1, a2, a3⟩ := Read_extends x _ _ 12 hext0 (by rw [hs0, List.length_append]; omega)
  have hst1 := Read_stream { buf := [], rd := response hdr (qlit ++ [0]) qtc recs } 12
  unfold unpackResponse unpackResponse.prelude
  simp only
  rw [a1, a2]
  by_cases hc1 : (Reader.Read { buf := [], rd := response hdr (qlit ++ [0]) qtc recs } 12).2.1
      ≠ none
    ∨ (Reader.Read { buf := [], rd := response hdr (qlit ++ [0]) qtc recs } 12).1.length ≠ 12
  · rw [if_pos hc1, if_pos hc1]
  rw [if_neg hc1, if_neg hc1]
  simp only [not_or, ne_eq, not_not] at hc1
  generalize Reader.Read { buf := [], rd := response hdr (qlit ++ [0]) qtc recs } 12 = R1
    at a1 a2 a3 hst1 hc1
  generalize Reader.Read { buf := [], rd := response hdr (qlit ++ [0]) qtc recs ++ x } 12 = R1x
    at a1 a2 a3
  have h1 : R1.1 = hdr ∧ R1.2.2.stream = qlit ++ 0 :: (qtc ++ recs.flatMap WireAnswer.bytes) := by
    rw [hs0] at hst1
    exact List.append_inj hst1 (by rw [hc1.2, hhdr])
  obtain ⟨b1, b2, b3⟩ := ReadBytes_extends x eof _ _ a3 (by rw [h1.2]; simp [eof])
  have hst2 := ReadBytes_stream R1.2.2 eof
  rw [b1, b2]
  by_cases hc2 : (R1.2.2.ReadBytes eof).2.1 ≠ none
  · rw [if_pos hc2, if_pos hc2]
  rw [if_neg hc2, if_neg hc2]
  simp only [ne_eq, not_not] at hc2
  obtain ⟨l, hl1, hl2⟩ := readBytesLoop_line eof _ R1.2.2 [] hc2
  have hl1 : (R1.2.2.ReadBytes eof).1 = l ++ [0] := by simpa [eof] using hl1
  generalize R1.2.2.ReadBytes eof = R2 at b1 b2 b3 hst2 hc2 hl1
  generalize R1x.2.2.ReadBytes eof = R2x at b1 b2 b3
  have h2 : l = qlit ∧ R2.2.2.stream = qtc ++ recs.flatMap WireAnswer.bytes := by
    rw [h1.2, hl1] at hst2
    exact split_at_first 0 l qlit _ _ hl2 hq0 (by simpa using hst2)
  obtain ⟨c1, c2, c3⟩ := Read_extends x _ _ 4 b3 (by rw [h2.2, List.length_append]; omega)
  have hst3 := Read_stream R2.2.2 4
  rw [c1, c2]
  by_cases hc3 : (R2.2.2.Read 4).2.1 ≠ none ∨ (R2.2.2.Read 4).1.length ≠ 4
  · rw [if_pos hc3, if_pos hc3]
  rw [if_neg hc3, if_neg hc3]
  simp only [not_or, ne_eq, not_not] at hc3
  generalize R2.2.2.Read 4 = R3 at c1 c2 c3 hst3 hc3
  generalize R2x.2.2.Read 4 = R3x at c1 c2 c3
  have h3 : R3.1 = qtc ∧ R3.2.2.stream = recs.flatMap WireAnswer.bytes := by
    rw [h2.2] at hst3
    exact List.append_inj hst3 (by rw [hc3.2, hqtc])
  simp only [h1.1, hcount]
  exact answers_extends x fuel recs hwf 0 _ _ _ _ (Peek_extends x _ _ 59 c3)
    (by rw [Peek_stream]; exact h3.2)

theorem getElem?_header (h h2 d : List Nat) (hh : h.length = 12) (hh2 : h2.length = 12)
    (j : Nat) (hj : 12 ≤ j) : (h2 ++ d)[j]? = (h ++ d)[j]? := by
  rw [List.getElem?_append_right (by omega), List.getElem?_append_right (by omega), hh, hh2]

theorem lt_of_getElem?_header (h d : List Nat) (hh : h.length = 12) (hb : ∀ c ∈ d, c < 256)
    (j b : Nat) (hj : 12 ≤ j) (hg : (h ++ d)[j]? = some b) : b < 256 := by
  rw [List.getElem?_append_right (by omega)] at hg
  exact hb b (List.getElem?_mem hg)

/-- The loop of `getRefData` from an index behind the header, following no
pointer into the header, does not depend on the header bytes. -/
theorem getRefData_loop_header (h h2 d : List Nat) (hh : h.length = 12) (hh2 : h2.length = 12)
    (hb : ∀ c ∈ d, c < 256) (fuel : Nat) :
    ∀ i acc, 12 ≤ i → (∀ t ∈ getRefData.targets (h ++ d) fuel i, 12 ≤ t) →
      getRefData.loop (h2 ++ d) fuel i acc = getRefData.loop (h ++ d) fuel i acc := by
  induction fuel with
  | zero => intro i acc _ _; rfl
  | succ fuel ih =>
    intro i acc hi ht
    rw [getRefData.loop, getRefData.loop, getElem?_header h h2 d hh hh2 i hi,
      getElem?_header h h2 d hh hh2 (i + 1) (by omega)]
    rw [getRefData.targets] at ht
    cases hg : (h ++ d)[i]? with
    | none => rfl
    | some b =>
      rw [hg] at ht
      simp only at ht ⊢
      by_cases hp : b &&& pointer = pointer
      · simp only [if_pos hp] at ht ⊢
        cases hg1 : (h ++ d)[i + 1]? with
        | none => rfl
        | some b1 =>
          rw [hg1] at ht
          simp only at ht ⊢
          have hb0 := lt_of_getElem?_header h d hh hb i b hi hg
          have hb1 := lt_of_getElem?_header h d hh hb (i + 1) b1 (by omega) hg1
          have hlt := pointer_target_lt b b1 hb0 hb1 hp
          have h12 := ht _ (List.mem_cons_self _ _)
          have hw : (getUint16 [b ^^^ pointer, b1] + 65535) % 65536 + 1
              = getUint16 [b ^^^ pointer, b1] := by omega
          rw [hw] at ht ⊢
          exact ih _ _ h12 (fun t hm => ht t (List.mem_cons_of_mem _ hm))
      · simp only [if_neg hp] at ht ⊢
        by_cases h0 : b = eof
        · simp only [if_pos h0]
        · simp only [if_neg h0] at ht ⊢
          exact ih _ _ (by omega) ht

/-- The NAME loop with `data` behind the header, following no pointer into the
header, does not depend on the header bytes. -/
theorem name_header (h h2 : List Nat) (hh : h.length = 12) (hh2 : h2.length = 12) (fuel : Nat) :
    ∀ (n : Nat) (reader : Reader) (d name : List Nat),
      (∀ c ∈ d ++ reader.stream, c < 256) →
      (∀ t ∈ unpackResponse.nameTargets fuel n reader (h ++ d), 12 ≤ t) →
      (unpackResponse.name fuel n reader (h ++ d) name = none
          ∧ unpackResponse.name fuel n reader (h2 ++ d) name = none)
        ∨ (∃ e, unpackResponse.name fuel n reader (h ++ d) name = some (Except.error e)
          ∧ unpackResponse.name fuel n reader (h2 ++ d) name = some (Except.error e))
        ∨ ∃ r d2 n2,
          unpackResponse.name fuel n reader (h ++ d) name = some (Except.ok (r, h ++ d2, n2))
          ∧ unpackResponse.name fuel n reader (h2 ++ d) name = some (Except.ok (r, h2 ++ d2, n2))
          ∧ d2 ++ r.stream = d ++ reader.stream := by
  intro n
  induction n with
  | zero => intro reader d name _ _; exact Or.inl ⟨rfl, rfl⟩
  | succ n ih =>
    intro reader d name hb ht
    rw [unpackResponse.name, unpackResponse.name]
    rw [unpackResponse.nameTargets] at ht
    cases hr : reader.ReadByte with
    | error e => exact Or.inr (Or.inl ⟨e, rfl, rfl⟩)
    | ok v =>
      obtain ⟨b, r⟩ := v
      have hs := ReadByte_stream reader r b hr
      rw [hr] at ht
      simp only at ht ⊢
      by_cases hp : b &&& pointer = pointer
      · simp only [if_pos hp] at ht ⊢
        cases hr1 : r.ReadByte with
        | error e => exact Or.inr (Or.inl ⟨e, rfl, rfl⟩)
        | ok v1 =>
          obtain ⟨b1, r1⟩ := v1
          have hs1 := ReadByte_stream r r1 b1 hr1
          rw [hr1] at ht
          simp only at ht ⊢
          have hst : (d ++ [b] ++ [b1]) ++ r1.stream = d ++ reader.stream := by
            rw [← hs, ← hs1]
            simp
          have hbd : ∀ c ∈ d ++ [b] ++ [b1], c < 256 := by
            intro c hc
            apply hb c
            rw [← hst]
            exact List.mem_append_left _ hc
          have hg : getRefData fuel (h2 ++ d ++ [b] ++ [b1]) (getUint16 [b ^^^ pointer, b1])
              = getRefData fuel (h ++ d ++ [b] ++ [b1]) (getUint16 [b ^^^ pointer, b1]) := by
            unfold getRefData
            rw [List.append_assoc, List.append_assoc, List.append_assoc h, List.append_assoc h,
              ← List.append_assoc d]
            apply getRefData_loop_header h h2 _ hh hh2 hbd fuel
            · exact ht _ (List.mem_cons_self _ _)
            · intro t hm
              apply ht t
              rw [List.append_assoc, List.append_assoc h, ← List.append_assoc d]
              exact List.mem_cons_of_mem _ hm
          rw [hg]
          cases getRefData fuel (h ++ d ++ [b] ++ [b1]) (getUint16 [b ^^^ pointer, b1]) with
          | none => exact Or.inl ⟨rfl, rfl⟩
          | some buf =>
            simp only
            by_cases hl : buf.length = 0
            · simp only [if_pos hl]
              exact Or.inr (Or.inl ⟨_, rfl, rfl⟩)
            · simp only [if_neg hl]
              refine Or.inr (Or.inr ⟨r1, d ++ [b] ++ [b1], name ++ buf, ?_, ?_, hst⟩)
              · simp only [List.append_assoc]
              · simp only [List.append_assoc]
      · simp only [if_neg hp] at ht ⊢
        by_cases h0 : b = eof
        · simp only [if_pos h0]
          refine Or.inr (Or.inr ⟨r, d ++ [b], name ++ [b], ?_, ?_, ?_⟩)
          · simp only [List.append_assoc]
          · simp only [List.append_assoc]
          · rw [← hs]
            simp
        · simp only [if_neg h0] at ht ⊢
          have hst : (d ++ [b]) ++ r.stream = d ++ reader.stream := by
            rw [← hs]
            simp
          rw [List.append_assoc h, List.append_assoc h2]
          rw [List.append_assoc h] at ht
          rcases ih r (d ++ [b]) (name ++ [b]) (by rw [hst]; exact hb) ht
            with h1 | h1 | ⟨r2, d2, n2, g1, g2, g3⟩
          · exact Or.inl h1
          · exact Or.inr (Or.inl h1)
          · exact Or.inr (Or.inr ⟨r2, d2, n2, g1, g2, by rw [g3, hst]⟩)

theorem setRData_data (a : dnsAnswer) (rdata d1 d2 : List Nat) :
    a.setRData rdata d1 = a.setRData rdata d2 := rfl

/-- The loop over the answers with `data` behind the header, following no
pointer into the header, does not depend on the header bytes. -/
theorem answers_header (h h2 : List Nat) (hh : h.length = 12) (hh2 : h2.length = 12)
    (fuel k : Nat) :
    ∀ (i : Nat) (reader : Reader) (d : List Nat) (answers : List (Option dnsAnswer)),
      (∀ c ∈ d ++ reader.stream, c < 256) →
      (∀ t ∈ unpackResponse.answersTargets fuel k reader (h ++ d), 12 ≤ t) →
      unpackResponse.answers fuel k i reader (h2 ++ d) answers
        = unpackResponse.answers fuel k i reader (h ++ d) answers := by
  induction k with
  | zero => intro i reader d answers _ _; rfl
  | succ k ih =>
    intro i reader d answers hb ht
    rw [unpackResponse.answers, unpackResponse.answers]
    rw [unpackResponse.answersTargets] at ht
    have ht1 : ∀ t ∈ unpackResponse.nameTargets fuel fuel reader (h ++ d), 12 ≤ t :=
      fun t hm => ht t (List.mem_append_left _ hm)
    rcases name_header h h2 hh hh2 fuel fuel reader d [] hb ht1
      with ⟨g1, g2⟩ | ⟨e, g1, g2⟩ | ⟨r, d2, n2, g1, g2, g3⟩
    · rw [g1, g2]
    · rw [g1, g2]
    · have ht2 := fun t hm => ht t (List.mem_append_right _ hm)
      rw [g1] at ht2
      rw [g1, g2]
      simp only at ht2 ⊢
      have hs10 := Read_stream r 10
      by_cases hc : (r.Read 10).2.1 ≠ none ∨ (r.Read 10).1.length ≠ 10
      · rw [if_pos hc, if_pos hc]
      · rw [if_neg hc, if_neg hc]
        rw [if_neg hc] at ht2
        have hsrd := Read_stream (r.Read 10).2.2
          (getUint16 (List.take 2 (List.drop 8 (r.Read 10).1)))
        by_cases hc2 : ((r.Read 10).2.2.Read
              (getUint16 (List.take 2 (List.drop 8 (r.Read 10).1)))).2.1 ≠ none
            ∨ ((r.Read 10).2.2.Read
              (getUint16 (List.take 2 (List.drop 8 (r.Read 10).1)))).1.length
              < getUint16 (List.take 2 (List.drop 8 (r.Read 10).1))
        · rw [if_pos hc2, if_pos hc2]
        · rw [if_neg hc2, if_neg hc2]
          rw [if_neg hc2] at ht2
          rw [setRData_data _ _ (h2 ++ d2 ++ (r.Read 10).1 ++ _)
            (h ++ d2 ++ (r.Read 10).1 ++ _)]
          split
          · rename_i hset
            rw [hset]
          · rename_i answer hset
            rw [hset] at ht2 ⊢
            simp only [List.append_assoc] at ht2 ⊢
            apply ih
            · intro c hm
              apply hb c
              rw [← g3, ← hs10, ← hsrd]
              simpa [List.append_assoc] using hm
            · exact ht2

/-- The result of `unpackResponse` does not depend on the header bytes other
than ANCOUNT, as long as no pointer into the header is followed. -/
theorem unpackResponse_header (fuel : Nat) (h h2 rest : List Nat) (hh : h.length = 12)
    (hh2 : h2.length = 12) (hcount : (h2.drop 6).take 2 = (h.drop 6).take 2)
    (hb : ∀ c ∈ rest, c < 256)
    (ht : ∀ t ∈ unpackResponse.targets fuel (h ++ rest), 12 ≤ t) :
    unpackResponse fuel (h2 ++ rest) = unpackResponse fuel (h ++ rest) := by
  have hs0 : Reader.stream { buf := rest.take 4084, rd := rest.drop 4084 } = rest := by
    simp [Reader.stream]
  have hs1 := ReadBytes_stream { buf := rest.take 4084, rd := rest.drop 4084 } eof
  unfold unpackResponse.targets at ht
  unfold unpackResponse
  unfold unpackResponse.prelude at ht ⊢
  simp only [Read_header h rest hh, Read_header h2 rest hh2, hh, hh2, ne_eq, not_true_eq_false,
    or_self, if_false, hcount] at ht ⊢
  generalize Reader.ReadBytes { buf := rest.take 4084, rd := rest.drop 4084 } eof = R2
    at ht hs1 ⊢
  by_cases hc2 : R2.2.1 = none
  · simp only [hc2, not_true_eq_false, if_false] at ht ⊢
    have hs2 := Read_stream R2.2.2 4
    generalize R2.2.2.Read 4 = R3 at ht hs2 ⊢
    by_cases hc3 : R3.2.1 = none ∧ R3.1.length = 4
    · simp only [hc3.1, hc3.2, not_true_eq_false, or_self, if_false] at ht ⊢
      simp only [List.append_assoc] at ht ⊢
      apply answers_header h h2 hh hh2
      · intro c hm
        apply hb c
        rw [← hs0, ← hs1, ← hs2]
        simpa [Peek_stream, List.append_assoc] using hm
      · exact ht
    · have hc3b : ¬ R3.2.1 = none ∨ ¬ R3.1.length = 4 := by
        by_cases e : R3.2.1 = none
        · exact Or.inr (fun e2 => hc3 ⟨e, e2⟩)
        · exact Or.inl e
      simp only [hc3b, if_true]
  · simp only [hc2, not_false_eq_true, if_true]

/-! ## Part 4: the claims -/

/-- C1: for every name, `packRequest` is the header bytes
`00 01 01 00 00 01 00 00 00 00 00 00`, then the name as `setQName` encodes it,
then `00 01 00 01`, and nothing else; the twelve bytes are the header with
ID 1, flags `0x0100` (only the recursion-desired bit), QDCOUNT 1 and the other
three counts 0, and the last four are type A and class IN. -/
theorem C1_packRequest_bytes (name : List Nat) :
    packRequest name
        = [0x00, 0x01, 0x01, 0x00, 0x00, 0x01, 0x00, 0x00, 0x00, 0x00, 0x00, 0x00]
          ++ setQName name ++ [0x00, 0x01, 0x00, 0x01]
      ∧ [0x00, 0x01, 0x01, 0x00, 0x00, 0x01, 0x00, 0x00, 0x00, 0x00, 0x00, 0x00]
        = dnsHeader.bytes
            { ID := 1, Flag := 2 ^ 8, QDCount := 1, ANCount := 0, NSCount := 0, ARCount := 0 }
      ∧ [0x00, 0x01, 0x00, 0x01] = putUint16 typeA ++ putUint16 classIN := by
  exact ⟨packRequest_eq name, by decide, by decide⟩

/-- C2: for a name given by its dot-separated labels, each at most 63 bytes
long, `setQName` produces for each label in order its length byte and its
bytes, and then one zero byte; for "example.com" these are the bytes
`07 65 78 61 6D 70 6C 65 03 63 6F 6D 00`. -/
theorem C2_setQName_labels (labels : List (List Nat)) (hne : labels ≠ [])
    (hdot : ∀ l ∈ labels, 46 ∉ l) (hlen : ∀ l ∈ labels, l.length ≤ 63) :
    setQName (List.intercalate [46] labels)
        = labels.flatMap (fun l => l.length :: l) ++ [0]
      ∧ setQName (str "example.com")
        = [0x07, 0x65, 0x78, 0x61, 0x6D, 0x70, 0x6C, 0x65, 0x03, 0x63, 0x6F, 0x6D, 0x00] :=
  ⟨setQName_intercalate labels hne hdot (fun l hl => by have := hlen l hl; omega), by decide⟩

/-- C2 at the labels "www", "example" and "com". -/
theorem C2_setQName_labels_witness :
    setQName (List.intercalate [46] [str "www", str "example", str "com"])
        = [str "www", str "example", str "com"].flatMap (fun l => l.length :: l) ++ [0]
      ∧ setQName (str "example.com")
        = [0x07, 0x65, 0x78, 0x61, 0x6D, 0x70, 0x6C, 0x65, 0x03, 0x63, 0x6F, 0x6D, 0x00] :=
  C2_setQName_labels [str "www", str "example", str "com"] (by decide) (by decide) (by decide)

/-- C3 as amended: for every name of at most 4078 bytes given by dot-separated
labels of 1 to 63 bytes without a zero byte, `unpackResponse` on the bytes of
`packRequest(name)` succeeds with an empty answer list, the question it reads
is the label encoding of the name with type 1 and class 1, and splitting that
encoding into its labels and joining them with dots gives the name back. -/
theorem C3_roundTrip (labels : List (List Nat)) (fuel : Nat) (hne : labels ≠ [])
    (hlab : ∀ l ∈ labels, 1 ≤ l.length ∧ l.length ≤ 63 ∧ 0 ∉ l ∧ 46 ∉ l)
    (hsize : (List.intercalate [46] labels).length ≤ 4078) :
    unpackResponse fuel (packRequest (List.intercalate [46] labels))
        = some { answers := some [], err := none }
      ∧ (∃ s, unpackResponse.prelude (packRequest (List.intercalate [46] labels)) = Except.ok s
          ∧ s.question
            = { QName := setQName (List.intercalate [46] labels), QType := 1, QClass := 1 })
      ∧ decodeName (setQName (List.intercalate [46] labels))
        = some (List.intercalate [46] labels) := by
  have henc := setQName_labelBytes labels hne (fun l hl => (hlab l hl).2.2.2)
    (fun l hl => by have := (hlab l hl).2.1; omega)
  have hq0 := zero_not_mem_labelBytes labels (fun l hl => ⟨(hlab l hl).1, (hlab l hl).2.2.1⟩)
  have hlen := length_labelBytes labels hne
  have hpre := prelude_question [0x00, 0x01, 0x01, 0x00, 0x00, 0x01, 0x00, 0x00, 0x00, 0x00, 0x00, 0x00]
    (labelBytes labels) [0x00, 0x01, 0x00, 0x01] [] rfl hq0 rfl
    (by simp [defaultBufSize, hlen]; omega)
  rw [List.append_nil] at hpre
  rw [packRequest_eq, henc]
  refine ⟨?_, ⟨_, hpre, rfl⟩, decodeName_labelBytes labels (fun l hl => (hlab l hl).1)⟩
  unfold unpackResponse
  rw [hpre]
  rfl

/-- C3 at the name "example.com". -/
theorem C3_roundTrip_witness :
    unpackResponse 64 (packRequest (List.intercalate [46] [str "example", str "com"]))
        = some { answers := some [], err := none }
      ∧ (∃ s, unpackResponse.prelude (packRequest (List.intercalate [46] [str "example", str "com"]))
            = Except.ok s
          ∧ s.question
            = { QName := setQName (List.intercalate [46] [str "example", str "com"]),
                QType := 1, QClass := 1 })
      ∧ decodeName (setQName (List.intercalate [46] [str "example", str "com"]))
        = some (List.intercalate [46] [str "example", str "com"]) :=
  C3_roundTrip [str "example", str "com"] 64 (by decide) (by decide) (by decide)

/-- C3 as stated fails for a name of 4079 bytes made of labels of at most 63
bytes `a`: the request is 4097 bytes long, the type and class of its question
lie across byte 4096, the four-byte `Read` returns three bytes, and
`unpackResponse` returns `nil, nil` without having read a question. -/
theorem C3_roundTrip_long_name :
    (aLabels 47 ≠ [] ∧ ∀ l ∈ aLabels 47, 1 ≤ l.length ∧ l.length ≤ 63 ∧ 0 ∉ l ∧ 46 ∉ l)
      ∧ (List.intercalate [46] (aLabels 47)).length = 4079
      ∧ unpackResponse.prelude (packRequest (List.intercalate [46] (aLabels 47)))
        = Except.error none
      ∧ ∀ fuel, unpackResponse fuel (packRequest (List.intercalate [46] (aLabels 47)))
        = some { answers := none, err := none } := by
  have hok := aLabels_ok 47 (by omega) (by omega)
  have henc := setQName_labelBytes (aLabels 47) (aLabels_ne 47) (fun l hl => (hok l hl).2.2.2.2)
    (fun l hl => by have := (hok l hl).2.1; omega)
  have hq0 := zero_not_mem_labelBytes (aLabels 47)
    (fun l hl => ⟨(hok l hl).1, (hok l hl).2.2.2.1⟩)
  have hlen := length_labelBytes (aLabels 47) (aLabels_ne 47)
  have hpre := prelude_short_question
    [0x00, 0x01, 0x01, 0x00, 0x00, 0x01, 0x00, 0x00, 0x00, 0x00, 0x00, 0x00]
    (labelBytes (aLabels 47)) [0x00, 0x01, 0x00] [0x01] rfl hq0 (by simp) (by simp)
    (by simp [defaultBufSize, length_aLabels 47])
  have hreq : packRequest (List.intercalate [46] (aLabels 47))
      = [0x00, 0x01, 0x01, 0x00, 0x00, 0x01, 0x00, 0x00, 0x00, 0x00, 0x00, 0x00]
        ++ (labelBytes (aLabels 47) ++ [0]) ++ [0x00, 0x01, 0x00] ++ [0x01] := by
    rw [packRequest_eq, henc]
    simp
  refine ⟨⟨aLabels_ne 47, fun l hl => ⟨(hok l hl).1, (hok l hl).2.1, (hok l hl).2.2.2⟩⟩,
    ?_, ?_, ?_⟩
  · have := length_aLabels 47
    omega
  · rw [hreq, hpre]
  · intro fuel
    unfold unpackResponse
    rw [hreq, hpre]

/-- C4 as amended: for every response with ANCOUNT = 1 whose question name holds
no zero byte before the zero byte that ends it and whose answer has a literal
name made of labels of 1 to 63 non-zero ASCII bytes ended by a zero byte,
type 1, class 1, any TTL, RDLENGTH 4 and resource data `b0 b1 b2 b3`, and
whose answer ends within the first 4096 bytes, `unpackResponse` succeeds with
one record whose Name is the literal name, whose Type, Class, TTL and RDLength
are the big-endian values on the wire, and whose `value()` is the dotted
decimal string of the four bytes; `5D B8 D8 22` gives "93.184.216.34". -/
theorem C4_decode_A_record (fuel : Nat) (hdr qlit qtc : List Nat) (labels : List (List Nat))
    (ttl b0 b1 b2 b3 : Nat) (x : List Nat)
    (hhdr : hdr.length = 12) (hcount : getUint16 ((hdr.drop 6).take 2) = 1)
    (hq0 : 0 ∉ qlit) (hqtc : qtc.length = 4)
    (hlab : ∀ l ∈ labels, 1 ≤ l.length ∧ l.length ≤ 63 ∧ ∀ b ∈ l, 1 ≤ b ∧ b < 128)
    (httl : ttl < 4294967296) (hb : b0 < 256 ∧ b1 < 256 ∧ b2 < 256 ∧ b3 < 256)
    (hsize : (oneAnswerA hdr qlit qtc labels ttl [b0, b1, b2, b3]).length ≤ defaultBufSize)
    (hfuel : (oneAnswerA hdr qlit qtc labels ttl [b0, b1, b2, b3]).length ≤ fuel) :
    unpackResponse fuel (oneAnswerA hdr qlit qtc labels ttl [b0, b1, b2, b3] ++ x)
        = some
            { answers := some [some
                { Name := labelBytes labels ++ [0], Typ := 1, Class := 1, TTL := ttl,
                  RDLength := 4, RData := some { addr := [b0, b1, b2, b3] } }],
              err := none }
      ∧ rdataA.value { addr := [b0, b1, b2, b3] }
        = List.intercalate [46]
            [str (Nat.repr b0), str (Nat.repr b1), str (Nat.repr b2), str (Nat.repr b3)]
      ∧ rdataA.value { addr := [0x5D, 0xB8, 0xD8, 0x22] } = str "93.184.216.34" := by
  refine ⟨?_, value_dotted b0 b1 b2 b3 hb.1 hb.2.1 hb.2.2.1 hb.2.2.2, by decide⟩
  have heq := oneAnswerA_eq hdr qlit qtc labels ttl [b0, b1, b2, b3] rfl
  rw [heq] at hsize hfuel ⊢
  have hwf : ∀ a ∈ [recordA labels ttl [b0, b1, b2, b3]], a.WellFormed := by
    intro a ha
    obtain rfl := List.mem_singleton.mp ha
    exact recordA_wellFormed labels ttl _ hlab httl rfl
  have h := unpackResponse_wellFormed fuel hdr qlit qtc _ x hhdr (by simpa using hcount) hq0
    (by simp [recordA]) hqtc hwf hsize hfuel
  rw [h]
  simp [WireAnswer.decoded, recordA, typeA]

/-- C4 at the response to a query for "example.com" with the answer of the
specification: TTL 300 and the address bytes `5D B8 D8 22`. -/
theorem C4_decode_A_record_witness :
    unpackResponse 64
        (oneAnswerA [0x00, 0x01, 0x81, 0x80, 0x00, 0x01, 0x00, 0x01, 0x00, 0x00, 0x00, 0x00]
          (labelBytes [str "example", str "com"]) [0x00, 0x01, 0x00, 0x01]
          [str "example", str "com"] 300 [0x5D, 0xB8, 0xD8, 0x22] ++ [])
        = some
            { answers := some [some
                { Name := labelBytes [str "example", str "com"] ++ [0], Typ := 1, Class := 1,
                  TTL := 300, RDLength := 4, RData := some { addr := [0x5D, 0xB8, 0xD8, 0x22] } }],
              err := none }
      ∧ rdataA.value { addr := [0x5D, 0xB8, 0xD8, 0x22] }
        = List.intercalate [46]
            [str (Nat.repr 0x5D), str (Nat.repr 0xB8), str (Nat.repr 0xD8), str (Nat.repr 0x22)]
      ∧ rdataA.value { addr := [0x5D, 0xB8, 0xD8, 0x22] } = str "93.184.216.34" :=
  C4_decode_A_record 64 _ _ _ _ 300 0x5D 0xB8 0xD8 0x22 [] (by decide) (by decide) (by decide)
    (by decide) (by decide) (by decide) (by decide) (by decide) (by decide)

/-- C4 as stated fails in two ways.  For a response of 4105 bytes whose answer
has a literal name of 4062 bytes (labels of at most 63 bytes `a`) the ten fixed
bytes of the answer lie across byte 4096, `Read(buf)` at line 249 returns the
five buffered bytes with a `nil` error, and `unpackResponse` returns
`nil, nil`.  For a response whose question name is `02 00 41 00`, a label of
the two bytes `00 41` and the terminating zero, with the answer of the
specification behind it, `ReadBytes(0)` at line 186 ends the question name at
the zero byte inside the label, the answer is read from two bytes before its
name, and `unpackResponse` returns `nil, nil`. -/
theorem C4_long_name_or_zero_in_question :
    ((∀ l ∈ aLabels 28, 1 ≤ l.length ∧ l.length ≤ 63 ∧ ∀ b ∈ l, 1 ≤ b ∧ b < 128)
      ∧ longNameResponse.length = 4105
      ∧ ∀ fuel, 4096 ≤ fuel →
          unpackResponse fuel longNameResponse = some { answers := none, err := none })
      ∧ ((∀ l ∈ exampleLabels, 1 ≤ l.length ∧ l.length ≤ 63 ∧ ∀ b ∈ l, 1 ≤ b ∧ b < 128)
        ∧ labelBytes [[0x00, 0x41]] ++ [0] = [0x02, 0x00, 0x41, 0x00]
        ∧ unpackResponse 64
            (oneAnswerA [0x00, 0x01, 0x81, 0x80, 0x00, 0x01, 0x00, 0x01, 0x00, 0x00, 0x00, 0x00]
              (labelBytes [[0x00, 0x41]]) [0x00, 0x01, 0x00, 0x01] exampleLabels 300
              [0x5D, 0xB8, 0xD8, 0x22])
          = some { answers := none, err := none }) := by
  have hok := aLabels_ok 28 (by omega) (by omega)
  have hlab : ∀ l ∈ aLabels 28, 1 ≤ l.length ∧ l.length ≤ 63 ∧ ∀ b ∈ l, 1 ≤ b ∧ b < 128 :=
    fun l hl => ⟨(hok l hl).1, (hok l hl).2.1, (hok l hl).2.2.1⟩
  have hlen := length_aLabels 28
  have hwf := recordA_wellFormed (aLabels 28) 300 [0x5D, 0xB8, 0xD8, 0x22] hlab (by omega) rfl
  have hshape : longNameResponse
      = [0x00, 0x01, 0x81, 0x80, 0x00, 0x01, 0x00, 0x01, 0x00, 0x00, 0x00, 0x00]
        ++ (labelBytes [str "example", str "com"] ++ [0]) ++ [0x00, 0x01, 0x00, 0x01]
        ++ (((recordA (aLabels 28) 300 [0x5D, 0xB8, 0xD8, 0x22]).nameBytes
              ++ [0x00, 0x01, 0x00, 0x01, 0x00])
            ++ [0x00, 0x01, 0x2C, 0x00, 0x04, 0x5D, 0xB8, 0xD8, 0x22]) := by
    simp [longNameResponse, oneAnswerA, recordA, WireAnswer.nameBytes, putUint16, putUint32]
  have hqlen : (labelBytes [str "example", str "com"]).length = 12 := by decide
  have hq0 : 0 ∉ labelBytes [str "example", str "com"] := by decide
  have hnb : (recordA (aLabels 28) 300 [0x5D, 0xB8, 0xD8, 0x22]).nameBytes.length = 4062 := by
    simp [recordA, WireAnswer.nameBytes, hlen]
  refine ⟨⟨hlab, ?_, ?_⟩, by decide, by decide, by decide⟩
  · rw [hshape]
    simp only [List.length_append, hqlen, hnb, List.length_cons, List.length_nil]
  · intro fuel hfuel
    rw [hshape, unpackResponse_buffer_end fuel
      [0x00, 0x01, 0x81, 0x80, 0x00, 0x01, 0x00, 0x01, 0x00, 0x00, 0x00, 0x00]
      (labelBytes [str "example", str "com"]) [0x00, 0x01, 0x00, 0x01] _ _ rfl hq0 rfl
      (by simp only [List.length_append, hqlen, hnb, List.length_cons, List.length_nil,
        defaultBufSize])
      (by simp only [List.length_append, hnb, List.length_cons, List.length_nil]; omega)]
    exact answers_short_fixed fuel 0 0 _ _ _ _ _ _ _ rfl (by simp [recordA])
      (by omega) hwf (by simp only [recordA, hlen]; omega) (by simp) (by simp)

/-- C5 as amended: for every response whose question name is a sequence of
labels of 1 to 63 non-zero ASCII bytes ended by a zero byte, whose records are
well formed and end within the first 4096 bytes, and for every answer in it
whose name ends in the pointer `C0 0C` to the question name at offset 12,
`unpackResponse` succeeds and the Name decoded for that answer is the literal
labels in front of the pointer followed by the question name with its
terminating zero: the question name itself when the name is the pointer
alone. -/
theorem C5_pointer_to_question (fuel : Nat) (hdr : List Nat) (qlabels : List (List Nat))
    (qtc : List Nat) (recs : List WireAnswer) (x : List Nat) (i : Nat) (a : WireAnswer)
    (hhdr : hdr.length = 12) (hcount : getUint16 ((hdr.drop 6).take 2) = recs.length)
    (hqlab : ∀ l ∈ qlabels, 1 ≤ l.length ∧ l.length ≤ 63 ∧ ∀ b ∈ l, 1 ≤ b ∧ b < 128)
    (hqtc : qtc.length = 4) (hwf : ∀ r ∈ recs, r.WellFormed)
    (hsize : (response hdr (labelBytes qlabels ++ [0]) qtc recs).length ≤ defaultBufSize)
    (hfuel : (response hdr (labelBytes qlabels ++ [0]) qtc recs).length ≤ fuel)
    (hi : recs[i]? = some a) (hptr : a.compressed = true) :
    ∃ answers r,
      unpackResponse fuel (response hdr (labelBytes qlabels ++ [0]) qtc recs ++ x)
          = some { answers := some answers, err := none }
        ∧ answers[i]? = some (some r)
        ∧ r.Name = a.literal ++ (labelBytes qlabels ++ [0])
        ∧ (a.nameBytes = [0xC0, 0x0C] → r.Name = labelBytes qlabels ++ [0]) := by
  refine ⟨_, a.decoded (labelBytes qlabels ++ [0]),
    response_wellFormed fuel hdr qlabels qtc recs x hhdr hcount hqlab hqtc hwf hsize hfuel,
    by simp [List.getElem?_map, hi], by simp [WireAnswer.decoded, hptr], ?_⟩
  intro hn
  have hl : a.literal = [] := by
    simp only [WireAnswer.nameBytes, hptr, if_true] at hn
    have := congrArg List.length hn
    simp at this
    exact this
  simp [WireAnswer.decoded, hptr, hl]

/-- C5 at a response to a query for "example.com" with two answers, the first
under the pointer `C0 0C`, the second under "www" and the pointer. -/
theorem C5_pointer_to_question_witness :
    ∃ answers r,
      unpackResponse 128
          (response [0x00, 0x01, 0x81, 0x80, 0x00, 0x01, 0x00, 0x02, 0x00, 0x00, 0x00, 0x00]
            (labelBytes exampleLabels ++ [0]) [0x00, 0x01, 0x00, 0x01]
            [pointerA, wwwPointerA] ++ [])
          = some { answers := some answers, err := none }
        ∧ answers[0]? = some (some r)
        ∧ r.Name = pointerA.literal ++ (labelBytes exampleLabels ++ [0])
        ∧ (pointerA.nameBytes = [0xC0, 0x0C] → r.Name = labelBytes exampleLabels ++ [0]) :=
  C5_pointer_to_question 128 _ exampleLabels _ _ [] 0 pointerA (by decide) (by decide) (by decide)
    (by decide) (by decide) (by decide) (by decide) (by decide) (by decide)

/-- C5 as stated fails for a response of 4125 bytes to a query for
"example.com" with 256 answers of type A, each under the pointer `C0 0C`: the
fixed bytes of the 255th answer lie across byte 4096, `Read(buf)` at line 249
returns the one buffered byte with a `nil` error, and `unpackResponse` returns
`nil, nil`, so no Name is decoded for any answer. -/
theorem C5_many_pointer_answers :
    (response [0x00, 0x01, 0x81, 0x80, 0x00, 0x01, 0x01, 0x00, 0x00, 0x00, 0x00, 0x00]
        (labelBytes exampleLabels ++ [0]) [0x00, 0x01, 0x00, 0x01]
        (List.replicate 256 pointerA)).length = 4125
      ∧ pointerA.WellFormed ∧ pointerA.nameBytes = [0xC0, 0x0C]
      ∧ ∀ fuel, 4096 ≤ fuel →
          unpackResponse fuel
              (response [0x00, 0x01, 0x81, 0x80, 0x00, 0x01, 0x01, 0x00, 0x00, 0x00, 0x00, 0x00]
                (labelBytes exampleLabels ++ [0]) [0x00, 0x01, 0x00, 0x01]
                (List.replicate 256 pointerA) ++ [])
            = some { answers := none, err := none } := by
  have hb : pointerA.bytes.length = 16 := by decide
  have hrep : List.replicate 256 pointerA
      = List.replicate 254 pointerA ++ pointerA :: List.replicate 1 pointerA := by
    rw [show 256 = 254 + 2 from rfl, List.replicate_add]
    rfl
  have hl254 : ((List.replicate 254 pointerA).flatMap WireAnswer.bytes).length = 4064 := by
    rw [length_flatMap_replicate, hb]
  refine ⟨?_, by decide, by decide, ?_⟩
  · rw [response]
    simp only [List.length_append, length_flatMap_replicate, hb]
    decide
  · intro fuel hfuel
    rw [hrep]
    exact unpackResponse_short_fixed fuel 1
      [0x00, 0x01, 0x81, 0x80, 0x00, 0x01, 0x01, 0x00, 0x00, 0x00, 0x00, 0x00]
      (labelBytes exampleLabels) [0x00, 0x01, 0x00, 0x01] (List.replicate 254 pointerA) pointerA
      (List.replicate 1 pointerA)
      [0x00] [0x01, 0x00, 0x01, 0x00, 0x00, 0x01, 0x2C, 0x00, 0x04] []
      rfl (by rw [List.length_replicate]; decide) (by decide)
      (fun _ _ _ => exampleLabels_literal) rfl
      (replicate_wellFormed 254 pointerA (by decide)) (by decide) (by simp) (by simp)
      (by simp only [List.length_append, hl254]; decide)
      (by simp only [List.length_append, hl254]; omega) hfuel

/-- C6 fails at a pointer to offset 0: in the buffer `00 C0 00` the bytes at 1
and 2 form a pointer to offset 0, resolving from 0 returns the name `00`, and
resolving from 1 returns the empty slice, because `i = int(p - 1)` at line 149
wraps to 65535 for `p = 0` and the loop ends.  In `unpackResponse` an answer
name that points at the pointer `C0 00` is refused with "invalid answer
packet", while an answer name that is `C0 00` itself decodes to `00`. -/
theorem C6_pointer_to_offset_zero :
    (([0x00, 0xC0, 0x00] : List Nat)[1]? = some (0xC0 + 0 / 256)
        ∧ ([0x00, 0xC0, 0x00] : List Nat)[1 + 1]? = some (0 % 256))
      ∧ (∀ fuel, 2 ≤ fuel →
          getRefData fuel [0x00, 0xC0, 0x00] 0 = some [0x00]
            ∧ getRefData fuel [0x00, 0xC0, 0x00] 1 = some [])
      ∧ unpackResponse 64 chainToZero
        = some { answers := none, err := some Err.invalidAnswerPacket }
      ∧ unpackResponse 64 directToZero
        = some
            { answers := some
                [some { Name := [0x00], Typ := 1, Class := 1, TTL := 300, RDLength := 4,
                        RData := some { addr := [0x5D, 0xB8, 0xD8, 0x22] } },
                 some { Name := [0x00], Typ := 1, Class := 1, TTL := 300, RDLength := 4,
                        RData := some { addr := [0x5D, 0xB8, 0xD8, 0x22] } }],
              err := none } := by
  refine ⟨by decide, ?_, by decide, by decide⟩
  intro fuel h
  obtain ⟨f, rfl⟩ : ∃ f, fuel = f + 2 := ⟨fuel - 2, by omega⟩
  exact ⟨rfl, rfl⟩

/-- C7 fails at prefixes of a well-formed response of 45 bytes: cut inside the
header (5 bytes), inside the type and class of the question (27), inside the
ten fixed bytes of the answer (35) and inside its resource data (43),
`unpackResponse` returns `nil, nil`, a `nil` error, since `reader.Read` reports
the short read by its count alone and lines 176, 198, 250 and 262 return the
`nil` error; a cut inside the question name (20) gives `io.EOF`. -/
theorem C7_truncated_without_error :
    (shortResponse.length = 45
        ∧ unpackResponse 64 shortResponse
          = some { answers := some [some (pointerA.decoded (labelBytes exampleLabels ++ [0]))],
                   err := none })
      ∧ unpackResponse 64 (shortResponse.take 5) = some { answers := none, err := none }
      ∧ unpackResponse 64 (shortResponse.take 27) = some { answers := none, err := none }
      ∧ unpackResponse 64 (shortResponse.take 35) = some { answers := none, err := none }
      ∧ unpackResponse 64 (shortResponse.take 43) = some { answers := none, err := none }
      ∧ unpackResponse 64 (shortResponse.take 20) = some { answers := none, err := some Err.EOF } := by
  decide

/-- C8: for every record list that `unpackResponse` returns without an error
(on a response of bytes), every entry is a record, every record of type 1
holds four resource-data bytes, and the list `Resolve` builds has exactly the
addresses `net.IPv4(b0, b1, b2, b3)` of the records of type 1, in the order of
the records, and nothing for a record of another type; a response with one
answer of type A and one of type 28 gives the one address of the A record. -/
theorem C8_resolve_addresses (fuel : Nat) (resp : List Nat) (answers : List (Option dnsAnswer))
    (hbytes : ∀ x ∈ resp, x < 256)
    (h : unpackResponse fuel resp = some { answers := some answers, err := none }) :
    ∃ records : List dnsAnswer,
      answers = records.map some
        ∧ (∀ r ∈ records, r.Typ = typeA →
            ∃ b0 b1 b2 b3, r.RData = some { addr := [b0, b1, b2, b3] }
              ∧ address r = net.IPv4 b0 b1 b2 b3)
        ∧ Resolve.names answers []
          = some ((records.filter (fun r => r.Typ = typeA)).map address)
        ∧ (unpackResponse 128 twoTypes).bind
            (fun res => res.answers.bind (fun list => Resolve.names list []))
          = some [net.IPv4 0x5D 0xB8 0xD8 0x22] := by
  have hgood := unpackResponse_good fuel resp answers hbytes h
  have hrec : answers = (answers.filterMap id).map some := by
    clear h
    induction answers with
    | nil => rfl
    | cons e es ih =>
      obtain ⟨r, rfl, _⟩ := hgood (e) (by simp)
      have := ih (fun x hx => hgood x (List.mem_cons_of_mem _ hx))
      simp only [List.filterMap_cons, id, List.map_cons]
      rw [← this]
  have hall : ∀ r ∈ answers.filterMap id, goodRecord r := by
    intro r hr
    obtain ⟨e, he, hid⟩ := List.mem_filterMap.mp hr
    obtain ⟨r2, rfl, hg⟩ := hgood e he
    simp only [id, Option.some.injEq] at hid
    exact hid ▸ hg
  refine ⟨answers.filterMap id, hrec, ?_, ?_⟩
  · intro r hr ht
    obtain ⟨b0, b1, b2, b3, hrd, _⟩ := hall r hr ht
    exact ⟨b0, b1, b2, b3, hrd, by simp [address, hrd]⟩
  · have := names_good (answers.filterMap id) [] hall
    rw [← hrec] at this
    exact ⟨by simpa using this, by decide⟩

/-- C8 at the response with an answer of type A and an answer of type 28. -/
theorem C8_resolve_addresses_witness :
    ∃ records : List dnsAnswer,
      [some (pointerA.decoded (labelBytes exampleLabels ++ [0])),
        some (pointerAAAA.decoded (labelBytes exampleLabels ++ [0]))] = records.map some
        ∧ (∀ r ∈ records, r.Typ = typeA →
            ∃ b0 b1 b2 b3, r.RData = some { addr := [b0, b1, b2, b3] }
              ∧ address r = net.IPv4 b0 b1 b2 b3)
        ∧ Resolve.names
            [some (pointerA.decoded (labelBytes exampleLabels ++ [0])),
              some (pointerAAAA.decoded (labelBytes exampleLabels ++ [0]))] []
          = some ((records.filter (fun r => r.Typ = typeA)).map address)
        ∧ (unpackResponse 128 twoTypes).bind
            (fun res => res.answers.bind (fun list => Resolve.names list []))
          = some [net.IPv4 0x5D 0xB8 0xD8 0x22] :=
  C8_resolve_addresses 128 twoTypes _ (by decide) (by decide)

/-- C9 as amended: for every response made of a header with ANCOUNT = n, a
question whose name is a sequence of labels of 1 to 63 non-zero ASCII bytes
ended by a zero byte, and n well-formed answer records (each name a literal
sequence of labels of 1 to 63 non-zero ASCII bytes ended by a zero byte, or
such labels followed by the pointer `C0 0C` to the question name; records of
type 1 with RDLENGTH 4), all within the first 4096 bytes, `unpackResponse`
succeeds and returns n records, in the order of the answer section, each with
the Type, Class, TTL and RDLength its record carries on the wire in big-endian
form. -/
theorem C9_answer_section (fuel : Nat) (hdr : List Nat) (qlabels : List (List Nat))
    (qtc : List Nat) (recs : List WireAnswer) (x : List Nat)
    (hhdr : hdr.length = 12) (hcount : getUint16 ((hdr.drop 6).take 2) = recs.length)
    (hqlab : ∀ l ∈ qlabels, 1 ≤ l.length ∧ l.length ≤ 63 ∧ ∀ b ∈ l, 1 ≤ b ∧ b < 128)
    (hqtc : qtc.length = 4) (hwf : ∀ r ∈ recs, r.WellFormed)
    (hsize : (response hdr (labelBytes qlabels ++ [0]) qtc recs).length ≤ defaultBufSize)
    (hfuel : (response hdr (labelBytes qlabels ++ [0]) qtc recs).length ≤ fuel) :
    ∃ answers,
      unpackResponse fuel (response hdr (labelBytes qlabels ++ [0]) qtc recs ++ x)
          = some { answers := some answers, err := none }
        ∧ answers.length = getUint16 ((hdr.drop 6).take 2)
        ∧ ∀ (i : Nat) (a : WireAnswer), recs[i]? = some a →
            ∃ r : dnsAnswer, answers[i]? = some (some r)
              ∧ r.Typ = getUint16 (a.fixedBytes.take 2)
              ∧ r.Class = getUint16 ((a.fixedBytes.drop 2).take 2)
              ∧ r.TTL = getUint32 ((a.fixedBytes.drop 4).take 4)
              ∧ r.RDLength = getUint16 ((a.fixedBytes.drop 8).take 2) := by
  refine ⟨_, response_wellFormed fuel hdr qlabels qtc recs x hhdr hcount hqlab hqtc hwf hsize hfuel,
    by simp [hcount], ?_⟩
  intro i a hi
  obtain ⟨f1, f2, f3, f4⟩ := fixedBytes_fields a (hwf a (List.getElem?_mem hi))
  exact ⟨a.decoded (labelBytes qlabels ++ [0]), by simp [List.getElem?_map, hi],
    f1.symm, f2.symm, f3.symm, f4.symm⟩

/-- C9 at a response to a query for "example.com" with two answers of type A,
the first under "www" and the pointer, the second under the literal name. -/
theorem C9_answer_section_witness :
    ∃ answers,
      unpackResponse 128
          (response [0x00, 0x01, 0x81, 0x80, 0x00, 0x01, 0x00, 0x02, 0x00, 0x00, 0x00, 0x00]
            (labelBytes exampleLabels ++ [0]) [0x00, 0x01, 0x00, 0x01]
            [wwwPointerA, recordA exampleLabels 60 [0x5D, 0xB8, 0xD8, 0x22]] ++ [])
          = some { answers := some answers, err := none }
        ∧ answers.length
          = getUint16 (([0x00, 0x01, 0x81, 0x80, 0x00, 0x01, 0x00, 0x02, 0x00, 0x00, 0x00, 0x00].drop 6).take 2)
        ∧ ∀ (i : Nat) (a : WireAnswer),
            [wwwPointerA, recordA exampleLabels 60 [0x5D, 0xB8, 0xD8, 0x22]][i]? = some a →
            ∃ r : dnsAnswer, answers[i]? = some (some r)
              ∧ r.Typ = getUint16 (a.fixedBytes.take 2)
              ∧ r.Class = getUint16 ((a.fixedBytes.drop 2).take 2)
              ∧ r.TTL = getUint32 ((a.fixedBytes.drop 4).take 4)
              ∧ r.RDLength = getUint16 ((a.fixedBytes.drop 8).take 2) :=
  C9_answer_section 128 [0x00, 0x01, 0x81, 0x80, 0x00, 0x01, 0x00, 0x02, 0x00, 0x00, 0x00, 0x00]
    exampleLabels [0x00, 0x01, 0x00, 0x01]
    [wwwPointerA, recordA exampleLabels 60 [0x5D, 0xB8, 0xD8, 0x22]] [] (by decide) (by decide) (by decide) (by decide)
    (by decide) (by decide) (by decide)

/-- C9 as stated fails in three ways.  For a response of 4229 bytes to a query
for "example.com" with 210 answers of type A under "www" and the pointer
`C0 0C`, the fixed bytes of the 204th answer lie across byte 4096, `Read(buf)`
at line 249 returns the one buffered byte with a `nil` error, and
`unpackResponse` returns `nil, nil` instead of 210 records.  For the response
`zeroName`, whose one answer has the name `01 00 00`, a label of the one byte
`00` and the terminating zero, the NAME loop ends the name at the zero byte of
the label, and `unpackResponse` returns `nil, nil` instead of one record.  For
a response whose question name is `02 00 41 00`, a label of the two bytes
`00 41` and the terminating zero, `ReadBytes(0)` at line 186 ends the question
name at the zero byte of the label, and `unpackResponse` returns `nil, nil` for
one well-formed answer. -/
theorem C9_many_answers_or_zero_byte :
    ((response [0x00, 0x01, 0x81, 0x80, 0x00, 0x01, 0x00, 0xD2, 0x00, 0x00, 0x00, 0x00]
        (labelBytes exampleLabels ++ [0]) [0x00, 0x01, 0x00, 0x01]
        (List.replicate 210 wwwPointerA)).length = 4229
      ∧ wwwPointerA.WellFormed
      ∧ ∀ fuel, 4096 ≤ fuel →
          unpackResponse fuel
              (response [0x00, 0x01, 0x81, 0x80, 0x00, 0x01, 0x00, 0xD2, 0x00, 0x00, 0x00, 0x00]
                (labelBytes exampleLabels ++ [0]) [0x00, 0x01, 0x00, 0x01]
                (List.replicate 210 wwwPointerA) ++ [])
            = some { answers := none, err := none })
      ∧ (zeroName
          = response [0x00, 0x01, 0x81, 0x80, 0x00, 0x01, 0x00, 0x01, 0x00, 0x00, 0x00, 0x00]
              (labelBytes exampleLabels ++ [0]) [0x00, 0x01, 0x00, 0x01]
              [recordA [[0x00]] 300 [0x5D, 0xB8, 0xD8, 0x22]]
        ∧ (recordA [[0x00]] 300 [0x5D, 0xB8, 0xD8, 0x22]).nameBytes = [0x01, 0x00, 0x00]
        ∧ unpackResponse 64 zeroName = some { answers := none, err := none })
      ∧ (pointerATtl.WellFormed
        ∧ labelBytes [[0x00, 0x41]] ++ [0] = [0x02, 0x00, 0x41, 0x00]
        ∧ unpackResponse 64
            (response [0x00, 0x01, 0x81, 0x80, 0x00, 0x01, 0x00, 0x01, 0x00, 0x00, 0x00, 0x00]
              (labelBytes [[0x00, 0x41]] ++ [0]) [0x00, 0x01, 0x00, 0x01] [pointerATtl])
          = some { answers := none, err := none }) := by
  have hb : wwwPointerA.bytes.length = 20 := by decide
  have hrep : List.replicate 210 wwwPointerA
      = List.replicate 203 wwwPointerA ++ wwwPointerA :: List.replicate 6 wwwPointerA := by
    rw [show 210 = 203 + 7 from rfl, List.replicate_add]
    rfl
  have hl203 : ((List.replicate 203 wwwPointerA).flatMap WireAnswer.bytes).length = 4060 := by
    rw [length_flatMap_replicate, hb]
  refine ⟨⟨?_, by decide, ?_⟩, ⟨by decide, by decide, by decide⟩,
    by decide, by decide, by decide⟩
  · rw [response]
    simp only [List.length_append, length_flatMap_replicate, hb]
    decide
  · intro fuel hfuel
    rw [hrep]
    exact unpackResponse_short_fixed fuel 6
      [0x00, 0x01, 0x81, 0x80, 0x00, 0x01, 0x00, 0xD2, 0x00, 0x00, 0x00, 0x00]
      (labelBytes exampleLabels) [0x00, 0x01, 0x00, 0x01] (List.replicate 203 wwwPointerA)
      wwwPointerA (List.replicate 6 wwwPointerA)
      [0x00] [0x01, 0x00, 0x01, 0x00, 0x00, 0x01, 0x2C, 0x00, 0x04] []
      rfl (by rw [List.length_replicate]; decide) (by decide)
      (fun _ _ _ => exampleLabels_literal) rfl
      (replicate_wellFormed 203 wwwPointerA (by decide)) (by decide) (by simp) (by simp)
      (by simp only [List.length_append, hl203]; decide)
      (by simp only [List.length_append, hl203]; omega) hfuel

/-- C10 as amended: for every response whose records are well formed and end
within the first 4096 bytes (question name of labels of non-zero ASCII bytes),
and for every answer record in it of a type other than 1, with any RDLENGTH
and that many bytes of resource data, `unpackResponse` succeeds, and the
record it returns for that answer has the Type and RDLength of the wire and
`RData` `nil`. -/
theorem C10_other_types (fuel : Nat) (hdr : List Nat) (qlabels : List (List Nat))
    (qtc : List Nat) (recs : List WireAnswer) (x : List Nat) (i : Nat) (a : WireAnswer)
    (hhdr : hdr.length = 12) (hcount : getUint16 ((hdr.drop 6).take 2) = recs.length)
    (hqlab : ∀ l ∈ qlabels, 1 ≤ l.length ∧ l.length ≤ 63 ∧ ∀ b ∈ l, 1 ≤ b ∧ b < 128)
    (hqtc : qtc.length = 4) (hwf : ∀ r ∈ recs, r.WellFormed)
    (hsize : (response hdr (labelBytes qlabels ++ [0]) qtc recs).length ≤ defaultBufSize)
    (hfuel : (response hdr (labelBytes qlabels ++ [0]) qtc recs).length ≤ fuel)
    (hi : recs[i]? = some a) (htype : a.typ ≠ 1) :
    ∃ answers r,
      unpackResponse fuel (response hdr (labelBytes qlabels ++ [0]) qtc recs ++ x)
          = some { answers := some answers, err := none }
        ∧ answers[i]? = some (some r)
        ∧ r.Typ = getUint16 (a.fixedBytes.take 2)
        ∧ r.RDLength = getUint16 ((a.fixedBytes.drop 8).take 2)
        ∧ r.RDLength = a.rdata.length
        ∧ r.RData = none := by
  obtain ⟨f1, _, _, f4⟩ := fixedBytes_fields a (hwf a (List.getElem?_mem hi))
  exact ⟨_, a.decoded (labelBytes qlabels ++ [0]),
    response_wellFormed fuel hdr qlabels qtc recs x hhdr hcount hqlab hqtc hwf hsize hfuel,
    by simp [List.getElem?_map, hi], f1.symm, f4.symm, rfl, by simp [WireAnswer.decoded, typeA, htype]⟩

/-- C10 at a response to a query for "example.com" with an answer of type A and
one of type 28. -/
theorem C10_other_types_witness :
    ∃ answers r,
      unpackResponse 128
          (response [0x00, 0x01, 0x81, 0x80, 0x00, 0x01, 0x00, 0x02, 0x00, 0x00, 0x00, 0x00]
            (labelBytes exampleLabels ++ [0]) [0x00, 0x01, 0x00, 0x01]
            [pointerA, pointerAAAA] ++ [])
          = some { answers := some answers, err := none }
        ∧ answers[1]? = some (some r)
        ∧ r.Typ = getUint16 (pointerAAAA.fixedBytes.take 2)
        ∧ r.RDLength = getUint16 ((pointerAAAA.fixedBytes.drop 8).take 2)
        ∧ r.RDLength = pointerAAAA.rdata.length
        ∧ r.RData = none :=
  C10_other_types 128 _ exampleLabels _ _ [] 1 pointerAAAA (by decide) (by decide) (by decide)
    (by decide) (by decide) (by decide) (by decide) (by decide) (by decide)

/-- C10 as stated fails for a response of 4137 bytes to a query for
"example.com" with one answer of type 16 and RDLENGTH 4096: the buffer holds
the first 4055 bytes of the resource data, `Read(buf)` at line 261 returns
them with a `nil` error, and `unpackResponse` returns `nil, nil`. -/
theorem C10_long_resource_data :
    (response [0x00, 0x01, 0x81, 0x80, 0x00, 0x01, 0x00, 0x01, 0x00, 0x00, 0x00, 0x00]
        (labelBytes exampleLabels ++ [0]) [0x00, 0x01, 0x00, 0x01] [longTXT]).length = 4137
      ∧ longTXT.WellFormed ∧ longTXT.typ ≠ 1 ∧ longTXT.rdata.length = 4096
      ∧ ∀ fuel, 4096 ≤ fuel →
          unpackResponse fuel
              (response [0x00, 0x01, 0x81, 0x80, 0x00, 0x01, 0x00, 0x01, 0x00, 0x00, 0x00, 0x00]
                (labelBytes exampleLabels ++ [0]) [0x00, 0x01, 0x00, 0x01] [longTXT] ++ [])
            = some { answers := none, err := none } := by
  have hrd : longTXT.rdata = List.replicate 4055 97 ++ List.replicate 41 97 := by
    rw [← List.replicate_add]
    rfl
  have hlen : longTXT.rdata.length = 4096 := by
    show (List.replicate 4096 97).length = 4096
    rw [List.length_replicate]
  have hfix : longTXT.fixedBytes = [0x00, 0x10, 0x00, 0x01, 0x00, 0x00, 0x01, 0x2C, 0x10, 0x00] := by
    show putUint16 16 ++ putUint16 1 ++ putUint32 300 ++ putUint16 longTXT.rdata.length = _
    rw [hlen]
    rfl
  have hname : longTXT.nameBytes = [0xC0, 0x0C] := rfl
  refine ⟨?_, longTXT_wellFormed, by decide, hlen, ?_⟩
  · simp only [response, List.flatMap_cons, List.flatMap_nil, List.append_nil, WireAnswer.bytes,
      List.length_append, hname, hfix, hlen]
    decide
  · intro fuel hfuel
    exact unpackResponse_short_rdata fuel 0
      [0x00, 0x01, 0x81, 0x80, 0x00, 0x01, 0x00, 0x01, 0x00, 0x00, 0x00, 0x00]
      (labelBytes exampleLabels) [0x00, 0x01, 0x00, 0x01] [] longTXT []
      (List.replicate 4055 97) (List.replicate 41 97) []
      rfl (by decide) (by decide) (fun _ _ _ => exampleLabels_literal) rfl
      (by intro r hr; rw [List.mem_singleton.mp hr]; exact longTXT_wellFormed) hrd
      (fun e => by
        have := congrArg List.length e
        rw [List.length_replicate] at this
        exact absurd this (by decide))
      (fun e => by
        have := congrArg List.length e
        rw [List.length_replicate] at this
        exact absurd this (by decide))
      (by simp only [List.flatMap_nil, List.nil_append, List.length_append, hname, hfix,
            List.length_replicate]; decide)
      (by simp only [List.flatMap_nil, List.nil_append, List.length_append, hname, hfix,
            List.length_replicate]; decide) hfuel

/-- C11 as amended: for every response in which an answer record has type 1
and an RDLENGTH other than 4, with RDLENGTH bytes of resource data present, all
earlier records well formed, and the record ending within the first 4096 bytes
of the response, `unpackResponse` fails with the error "invalid resource record
data" and returns no records, whatever follows the record. -/
theorem C11_invalid_A_data (fuel k : Nat) (hdr : List Nat) (qlabels : List (List Nat))
    (qtc : List Nat) (recs : List WireAnswer) (a : WireAnswer) (x : List Nat)
    (hhdr : hdr.length = 12)
    (hcount : getUint16 ((hdr.drop 6).take 2) = recs.length + (k + 1))
    (hqlab : ∀ l ∈ qlabels, 1 ≤ l.length ∧ l.length ≤ 63 ∧ ∀ b ∈ l, 1 ≤ b ∧ b < 128)
    (hqtc : qtc.length = 4) (hwf : ∀ r ∈ recs, r.WellFormed)
    (hlit : ∀ b ∈ a.literal, literalByte b) (hcls : a.cls < 65536) (httl : a.ttl < 4294967296)
    (htyp : a.typ = 1) (h4 : a.rdata.length ≠ 4)
    (hsize : (response hdr (labelBytes qlabels ++ [0]) qtc (recs ++ [a])).length ≤ defaultBufSize)
    (hfuel : (response hdr (labelBytes qlabels ++ [0]) qtc (recs ++ [a])).length ≤ fuel) :
    unpackResponse fuel (response hdr (labelBytes qlabels ++ [0]) qtc (recs ++ [a]) ++ x)
      = some { answers := none, err := some Err.invalidResourceRecordData } := by
  have hq0 : 0 ∉ labelBytes qlabels := by
    apply zero_not_mem_labelBytes
    intro l hl
    obtain ⟨h1, _, h3⟩ := hqlab l hl
    exact ⟨h1, fun h0 => by have := (h3 0 h0).1; omega⟩
  have hqlit := literal_labelBytes qlabels hqlab
  have hshape : response hdr (labelBytes qlabels ++ [0]) qtc (recs ++ [a]) ++ x
      = hdr ++ (labelBytes qlabels ++ [0]) ++ qtc
        ++ (recs.flatMap WireAnswer.bytes ++ a.bytes) ++ x := by
    simp [response, List.flatMap_append]
  have hsz : (hdr ++ (labelBytes qlabels ++ [0]) ++ qtc
      ++ (recs.flatMap WireAnswer.bytes ++ a.bytes)).length ≤ defaultBufSize := by
    have : response hdr (labelBytes qlabels ++ [0]) qtc (recs ++ [a])
        = hdr ++ (labelBytes qlabels ++ [0]) ++ qtc
          ++ (recs.flatMap WireAnswer.bytes ++ a.bytes) := by
      simp [response, List.flatMap_append]
    rw [← this]
    exact hsize
  have hfl : (hdr ++ (labelBytes qlabels ++ [0]) ++ qtc
      ++ (recs.flatMap WireAnswer.bytes ++ a.bytes)).length ≤ fuel := by
    have : response hdr (labelBytes qlabels ++ [0]) qtc (recs ++ [a])
        = hdr ++ (labelBytes qlabels ++ [0]) ++ qtc
          ++ (recs.flatMap WireAnswer.bytes ++ a.bytes) := by
      simp [response, List.flatMap_append]
    rw [← this]
    exact hfuel
  obtain ⟨t, rd, hpre⟩ := prelude_wellFormed hdr (labelBytes qlabels) qtc
    (recs.flatMap WireAnswer.bytes ++ a.bytes) x hhdr hq0 hqtc hsz
  obtain ⟨y, rd2, hpeek⟩ := Peek_buf (recs.flatMap WireAnswer.bytes ++ a.bytes ++ t) rd 59
  have halen : a.literal.length + 11 ≤ a.bytes.length := by
    simp only [WireAnswer.bytes, WireAnswer.nameBytes, List.length_append, fixedBytes_length]
    split
    · simp
      omega
    · simp
  have hlens : (labelBytes qlabels).length < fuel ∧ a.literal.length < fuel
      ∧ a.rdata.length < 65536 ∧ (recs.flatMap WireAnswer.bytes).length < fuel := by
    simp only [List.length_append, defaultBufSize, WireAnswer.bytes] at hfl hsz halen
    omega
  have hpfx := answers_prefix fuel recs (k + 1) 0 hdr (labelBytes qlabels) qtc
    (a.bytes ++ (t ++ y)) rd2 (List.replicate (recs.length + (k + 1)) none) hhdr
    (fun _ _ _ => hqlit) hlens.1 hwf
    (fun r hr => by have := literal_length_lt recs r hr; omega)
  have hbad := answers_invalid_A fuel k (0 + recs.length) a hdr (labelBytes qlabels)
    (qtc ++ recs.flatMap WireAnswer.bytes) (t ++ y) rd2
    (storeFrom (List.replicate (recs.length + (k + 1)) none) 0
      (recs.map (WireAnswer.decoded (labelBytes qlabels ++ [0])))) hhdr
    (fun _ => hqlit) hlens.1 hlit hcls httl hlens.2.2.1 hlens.2.1 htyp h4
  rw [hshape]
  unfold unpackResponse
  rw [hpre]
  simp only [List.append_assoc] at hpfx hbad hpeek
  simp only [hcount, List.append_assoc, hpeek]
  rw [hpfx, hbad]

/-- C11 at a response to a query for "example.com" with a well-formed answer of
type A and then an answer of type A with five bytes of resource data. -/
theorem C11_invalid_A_data_witness :
    unpackResponse 128
        (response [0x00, 0x01, 0x81, 0x80, 0x00, 0x01, 0x00, 0x02, 0x00, 0x00, 0x00, 0x00]
          (labelBytes exampleLabels ++ [0]) [0x00, 0x01, 0x00, 0x01] ([pointerA] ++ [fiveByteA])
          ++ [])
      = some { answers := none, err := some Err.invalidResourceRecordData } :=
  C11_invalid_A_data 128 0 _ exampleLabels _ [pointerA] fiveByteA [] (by decide) (by decide)
    (by decide) (by decide) (by decide) (by decide) (by decide) (by decide) (by decide)
    (by decide) (by decide) (by decide)

/-- C11 as stated fails for a response of 4126 bytes to a query for
"example.com" with 255 well-formed answers of type A under the pointer `C0 0C`
and then an answer of type A with RDLENGTH 5 and its five bytes of resource
data: the fixed bytes of the 255th answer lie across byte 4096, `Read(buf)` at
line 249 returns the one buffered byte with a `nil` error, and `unpackResponse`
returns `nil, nil`, not the error "invalid resource record data". -/
theorem C11_many_answers_before :
    (response [0x00, 0x01, 0x81, 0x80, 0x00, 0x01, 0x01, 0x00, 0x00, 0x00, 0x00, 0x00]
        (labelBytes exampleLabels ++ [0]) [0x00, 0x01, 0x00, 0x01]
        (List.replicate 255 pointerA ++ [fiveByteA])).length = 4126
      ∧ pointerA.WellFormed ∧ fiveByteA.typ = 1 ∧ fiveByteA.rdata.length = 5
      ∧ ∀ fuel, 4096 ≤ fuel →
          unpackResponse fuel
              (response [0x00, 0x01, 0x81, 0x80, 0x00, 0x01, 0x01, 0x00, 0x00, 0x00, 0x00, 0x00]
                (labelBytes exampleLabels ++ [0]) [0x00, 0x01, 0x00, 0x01]
                (List.replicate 255 pointerA ++ [fiveByteA]) ++ [])
            = some { answers := none, err := none } := by
  have hb : pointerA.bytes.length = 16 := by decide
  have hrep : List.replicate 255 pointerA ++ [fiveByteA]
      = List.replicate 254 pointerA ++ pointerA :: [fiveByteA] := by
    rw [show 255 = 254 + 1 from rfl, List.replicate_add, List.append_assoc]
    rfl
  have hl254 : ((List.replicate 254 pointerA).flatMap WireAnswer.bytes).length = 4064 := by
    rw [length_flatMap_replicate, hb]
  refine ⟨?_, by decide, rfl, rfl, ?_⟩
  · rw [response]
    simp only [List.length_append, List.flatMap_append, length_flatMap_replicate, hb]
    decide
  · intro fuel hfuel
    rw [hrep]
    exact unpackResponse_short_fixed fuel 1
      [0x00, 0x01, 0x81, 0x80, 0x00, 0x01, 0x01, 0x00, 0x00, 0x00, 0x00, 0x00]
      (labelBytes exampleLabels) [0x00, 0x01, 0x00, 0x01] (List.replicate 254 pointerA) pointerA
      [fiveByteA]
      [0x00] [0x01, 0x00, 0x01, 0x00, 0x00, 0x01, 0x2C, 0x00, 0x04] []
      rfl (by rw [List.length_replicate]; decide) (by decide)
      (fun _ _ _ => exampleLabels_literal) rfl
      (replicate_wellFormed 254 pointerA (by decide)) (by decide) (by simp) (by simp)
      (by simp only [List.length_append, hl254]; decide)
      (by simp only [List.length_append, hl254]; omega) hfuel

/-- C12 at its failing input, a response to a query for "example.com" of 63
bytes: the name of the second answer is a pointer to offset 41, where the label
"www" is followed by the pointer `C0 FF` to offset 255, outside the 49 bytes
read so far.  `getRefData` returns the bytes `03 77 77 77` it has collected,
and `unpackResponse` returns both records without an error, the second with
that Name.  With the same label and pointer as the name of the second answer
itself, it returns "invalid answer packet". -/
theorem C12_chained_pointer_outside :
    chainOutside.length = 63
      ∧ chainOutside[45]? = some 0xC0 ∧ chainOutside[46]? = some 0xFF
      ∧ getRefData 64 (chainOutside.take 49) 41 = some [0x03, 0x77, 0x77, 0x77]
      ∧ unpackResponse 64 chainOutside
        = some
            { answers := some
                [some { Name := labelBytes exampleLabels ++ [0], Typ := 5, Class := 1, TTL := 300,
                        RDLength := 6, RData := none },
                 some { Name := [0x03, 0x77, 0x77, 0x77], Typ := 1, Class := 1, TTL := 300,
                        RDLength := 4, RData := some { addr := [0x5D, 0xB8, 0xD8, 0x22] } }]
              err := none }
      ∧ unpackResponse 64 directOutside
        = some { answers := none, err := some Err.invalidAnswerPacket } := by
  decide

/-- C13 as amended: for every input of at least twelve bytes in which no zero
byte follows the header, so that the question name is not ended (as when its
last label is cut short by the end of the input and the label contents hold
no zero byte), `unpackResponse` returns the error `io.EOF` and no records. -/
theorem C13_unterminated_question (fuel : Nat) (hdr rest : List Nat) (hhdr : hdr.length = 12)
    (h0 : 0 ∉ rest) :
    unpackResponse fuel (hdr ++ rest) = some { answers := none, err := some Err.EOF } :=
  unpackResponse_unterminated fuel hdr rest hhdr h0

/-- C13 at the first 17 bytes of a query for "example.com": the label of
declared length 7 has four bytes. -/
theorem C13_unterminated_question_witness :
    labelOverrun 6 [0x07, 0x65, 0x78, 0x61, 0x6D] = true
      ∧ unpackResponse 64
          ([0x00, 0x01, 0x01, 0x00, 0x00, 0x01, 0x00, 0x00, 0x00, 0x00, 0x00, 0x00]
            ++ [0x07, 0x65, 0x78, 0x61, 0x6D])
        = some { answers := none, err := some Err.EOF } :=
  ⟨by decide,
    C13_unterminated_question 64
      [0x00, 0x01, 0x01, 0x00, 0x00, 0x01, 0x00, 0x00, 0x00, 0x00, 0x00, 0x00]
      [0x07, 0x65, 0x78, 0x61, 0x6D] (by decide) (by decide)⟩

/-- C13 as stated fails for the header of a query and the bytes
`09 65 78 00 00 01 00 01`: the first label declares nine bytes and seven
remain, but `ReadBytes` at line 189 stops at the first zero byte, takes
`09 65 78 00` as the question name and the next four bytes as type and class,
and `unpackResponse` returns an empty record list without an error. -/
theorem C13_label_overrun_accepted :
    labelOverrun 9 [0x09, 0x65, 0x78, 0x00, 0x00, 0x01, 0x00, 0x01] = true
      ∧ (∀ fuel, unpackResponse fuel
          ([0x00, 0x01, 0x01, 0x00, 0x00, 0x01, 0x00, 0x00, 0x00, 0x00, 0x00, 0x00]
            ++ [0x09, 0x65, 0x78, 0x00, 0x00, 0x01, 0x00, 0x01])
        = some { answers := some [], err := none })
      ∧ (unpackResponse.prelude
          ([0x00, 0x01, 0x01, 0x00, 0x00, 0x01, 0x00, 0x00, 0x00, 0x00, 0x00, 0x00]
            ++ [0x09, 0x65, 0x78, 0x00, 0x00, 0x01, 0x00, 0x01])).toOption.map
          (fun s => s.question.QName) = some [0x09, 0x65, 0x78, 0x00] :=
  ⟨by decide, fun _ => rfl, rfl⟩

/-- C14 as amended: for every response made of twelve header bytes with ANCOUNT
the number of records, a question name that holds no zero byte before the zero
byte that ends it, four bytes of question type and class, and well-formed
answer records (the literal part of each name without a zero byte and without
a byte that has its two top bits set, the name ended by a zero byte or by the
pointer `C0 0C`, records of type 1 with RDLENGTH 4), and for every byte
sequence `x`, `unpackResponse` returns on the response followed by `x` what it
returns on the response alone, whatever the length of the response and
whatever the number of iterations allowed to its loops. -/
theorem C14_trailing_bytes (fuel : Nat) (hdr qlit qtc : List Nat) (recs : List WireAnswer)
    (x : List Nat) (hhdr : hdr.length = 12)
    (hcount : getUint16 ((hdr.drop 6).take 2) = recs.length) (hq0 : 0 ∉ qlit)
    (hqtc : qtc.length = 4) (hwf : ∀ a ∈ recs, a.WellFormed) :
    unpackResponse fuel (response hdr (qlit ++ [0]) qtc recs ++ x)
      = unpackResponse fuel (response hdr (qlit ++ [0]) qtc recs) :=
  unpackResponse_extends fuel hdr qlit qtc recs x hhdr hcount hq0 hqtc hwf

/-- C14 at a response to a query for "example.com" with an answer of type A and
an answer of type 28, followed by sixteen bytes of an additional section. -/
theorem C14_trailing_bytes_witness :
    unpackResponse 128
        (response [0x00, 0x01, 0x81, 0x80, 0x00, 0x01, 0x00, 0x02, 0x00, 0x00, 0x00, 0x01]
          (labelBytes exampleLabels ++ [0]) [0x00, 0x01, 0x00, 0x01] [pointerA, pointerAAAA]
          ++ [0xC0, 0x0C, 0x00, 0x01, 0x00, 0x01, 0x00, 0x00, 0x01, 0x2C, 0x00, 0x04,
              0x0A, 0x00, 0x00, 0x01])
      = unpackResponse 128
        (response [0x00, 0x01, 0x81, 0x80, 0x00, 0x01, 0x00, 0x02, 0x00, 0x00, 0x00, 0x01]
          (labelBytes exampleLabels ++ [0]) [0x00, 0x01, 0x00, 0x01] [pointerA, pointerAAAA]) :=
  C14_trailing_bytes 128 [0x00, 0x01, 0x81, 0x80, 0x00, 0x01, 0x00, 0x02, 0x00, 0x00, 0x00, 0x01]
    (labelBytes exampleLabels) [0x00, 0x01, 0x00, 0x01] [pointerA, pointerAAAA] _ (by decide)
    (by decide) (by decide) (by decide) (by decide)

/-- C14 as stated fails where a label holds a zero byte.  In a response whose
question name is `02 00 41 00`, a label of the two bytes `00 41` and the
terminating zero, with one well-formed answer of type A, `ReadBytes(0)` at line
186 ends the question name at the zero byte of the label, the answer is read
from two bytes before its name, and its RDLENGTH is taken from the TTL: ten
bytes, of which the response holds seven.  On the response alone
`unpackResponse` returns `nil, nil`; on the response followed by three bytes it
returns one record.  In a response to a query for "example.com" with two
answers, the first under the name `01 00 00`, a label of the one byte `00` and
the terminating zero, the NAME loop ends the first name at the zero byte of the
label, and again three bytes behind the response turn `nil, nil` into
records. -/
theorem C14_zero_byte_in_name :
    (getUint16 (([0x00, 0x01, 0x81, 0x80, 0x00, 0x01, 0x00, 0x01, 0x00, 0x00, 0x00, 0x00].drop 6).take 2)
          = [pointerATtl].length
        ∧ pointerATtl.WellFormed
        ∧ labelBytes [[0x00, 0x41]] ++ [0] = [0x02, 0x00, 0x41, 0x00]
        ∧ unpackResponse 64
            (response [0x00, 0x01, 0x81, 0x80, 0x00, 0x01, 0x00, 0x01, 0x00, 0x00, 0x00, 0x00]
              (labelBytes [[0x00, 0x41]] ++ [0]) [0x00, 0x01, 0x00, 0x01] [pointerATtl])
          = some { answers := none, err := none }
        ∧ unpackResponse 64
            (response [0x00, 0x01, 0x81, 0x80, 0x00, 0x01, 0x00, 0x01, 0x00, 0x00, 0x00, 0x00]
              (labelBytes [[0x00, 0x41]] ++ [0]) [0x00, 0x01, 0x00, 0x01] [pointerATtl]
              ++ [0x00, 0x00, 0x00])
          = some
              { answers := some [
                  some { Name := [0x00], Typ := 0x01C0, Class := 0x0C00, TTL := 0x01000100,
                         RDLength := 10, RData := none }],
                err := none })
      ∧ (getUint16 (([0x00, 0x01, 0x81, 0x80, 0x00, 0x01, 0x00, 0x02, 0x00, 0x00, 0x00, 0x00].drop 6).take 2)
          = [zeroLabelA, pointerATtl].length
        ∧ zeroLabelA.nameBytes = [0x01, 0x00, 0x00]
        ∧ unpackResponse 64
            (response [0x00, 0x01, 0x81, 0x80, 0x00, 0x01, 0x00, 0x02, 0x00, 0x00, 0x00, 0x00]
              (labelBytes exampleLabels ++ [0]) [0x00, 0x01, 0x00, 0x01] [zeroLabelA, pointerATtl])
          = some { answers := none, err := none }
        ∧ unpackResponse 64
            (response [0x00, 0x01, 0x81, 0x80, 0x00, 0x01, 0x00, 0x02, 0x00, 0x00, 0x00, 0x00]
              (labelBytes exampleLabels ++ [0]) [0x00, 0x01, 0x00, 0x01] [zeroLabelA, pointerATtl]
              ++ [0x00, 0x00, 0x00])
          = some
              { answers := some [
                  some { Name := [0x01, 0x00], Typ := 0, Class := 0x0100, TTL := 0x01000001,
                         RDLength := 0, RData := none },
                  some { Name := [0x04, 0x0A, 0x01, 0x00], Typ := 0x01C0, Class := 0x0C00,
                         TTL := 0x01000100, RDLength := 10, RData := none }],
                err := none }) :=
  ⟨⟨by decide, by decide, by decide, by decide, by decide⟩,
    by decide, by decide, by decide, by decide⟩

/-- C15 as amended: for every answer name made only of literal labels, each a
length byte between 1 and 63 followed by that many content bytes none of which
is zero or has its two top bits set, ended by a zero-length label, wherever the
name stands in the input: the NAME loop returns the whole literal name as the
decoded Name, appends it to `data`, and leaves the reader at the byte behind
the terminating zero, so that the `Read` of the ten fixed bytes at line 249
returns bytes that start there. -/
theorem C15_literal_name (fuel n : Nat) (labels : List (List Nat)) (rest : List Nat)
    (b : Reader) (data : List Nat)
    (hlab : ∀ l ∈ labels, 1 ≤ l.length ∧ l.length ≤ 63 ∧ ∀ c ∈ l, c ≠ 0 ∧ c &&& 0xC0 ≠ 0xC0)
    (hs : b.stream = labelBytes labels ++ 0 :: rest)
    (hn : (labelBytes labels).length < n) :
    ∃ b2, unpackResponse.name fuel n b data []
        = some (Except.ok (b2, data ++ (labelBytes labels ++ [0]), labelBytes labels ++ [0]))
      ∧ b2.stream = rest ∧ (b2.Read 10).1 <+: rest := by
  obtain ⟨b2, h, hs2⟩ := name_literal_stream fuel (labelBytes labels) rest n b data []
    (literal_labelBytes_general labels hlab) hn hs
  refine ⟨b2, ?_, hs2, ?_⟩
  · simpa using h
  · rw [← hs2]
    exact Read_initial b2 10

/-- C15 at the name "example.com" followed by the fixed bytes and the resource
data of an answer of type A. -/
theorem C15_literal_name_witness :
    ∃ b2, unpackResponse.name 64 64
          { buf := labelBytes exampleLabels ++ 0 ::
              [0x00, 0x01, 0x00, 0x01, 0x00, 0x00, 0x01, 0x2C, 0x00, 0x04, 0x5D, 0xB8, 0xD8, 0x22],
            rd := [] } [] []
        = some (Except.ok (b2, [] ++ (labelBytes exampleLabels ++ [0]),
            labelBytes exampleLabels ++ [0]))
      ∧ b2.stream
        = [0x00, 0x01, 0x00, 0x01, 0x00, 0x00, 0x01, 0x2C, 0x00, 0x04, 0x5D, 0xB8, 0xD8, 0x22]
      ∧ (b2.Read 10).1
        <+: [0x00, 0x01, 0x00, 0x01, 0x00, 0x00, 0x01, 0x2C, 0x00, 0x04, 0x5D, 0xB8, 0xD8, 0x22] :=
  C15_literal_name 64 64 exampleLabels _ _ [] (by decide) rfl (by decide)

/-- C15 as stated fails for label content with the two top bits set or of value
zero.  The name `02 C3 A9 00` is the label "é" in UTF-8 and the terminating
zero: the NAME loop takes the content byte `C3` for a pointer, and
`unpackResponse` returns "invalid answer packet".  The name `01 00 00` is a
label whose one content byte is zero and the terminating zero: the NAME loop
ends the name at the content byte, the decoded Name is `01 00`, and the fixed
bytes are read from the terminating zero on. -/
theorem C15_label_content_bytes :
    (([0x02, 0xC3, 0xA9, 0x00] : List Nat) = labelBytes [[0xC3, 0xA9]] ++ [0]
        ∧ unpackResponse 64 utf8Name
          = some { answers := none, err := some Err.invalidAnswerPacket })
      ∧ (([0x01, 0x00, 0x00] : List Nat) = labelBytes [[0x00]] ++ [0]
        ∧ unpackResponse.name 64 64 { buf := [0x01, 0x00, 0x00, 0x00, 0x01], rd := [] } [] []
          = some (Except.ok ({ buf := [0x00, 0x00, 0x01], rd := [] }, [0x01, 0x00], [0x01, 0x00]))
        ∧ unpackResponse 64 zeroName = some { answers := none, err := none }) :=
  ⟨⟨rfl, by decide⟩, rfl, rfl, by decide⟩

/-- C16 as amended: for every buffer of bytes and every start offset from which
the targets of the pointers that `getRefData` follows strictly decrease,
`getRefData` returns; and `unpackResponse` returns on every response in which,
for each answer name it decodes, the target of the pointer in the name and the
targets `getRefData` follows from there strictly decrease.  `(n + 1) * (n + 1)`
iterations of each loop are enough for `n` bytes, and only the pointers that
are followed count: bytes of the resource data are not looked at. -/
theorem C16_decreasing_targets_terminate (data : List Nat) (fuel : Nat)
    (hbytes : ∀ x ∈ data, x < 256)
    (hfuel : (data.length + 1) * (data.length + 1) ≤ fuel) :
    (∀ p, decreasing (getRefData.targets data fuel p) → ∃ r, getRefData fuel data p = some r)
      ∧ ((∀ c ∈ unpackResponse.chains fuel data, decreasing c)
        → ∃ res, unpackResponse fuel data = some res) :=
  ⟨fun p hdec => getRefData_decreasing data hbytes fuel p hdec hfuel,
    fun hch => unpackResponse_decreasing data hbytes fuel hch hfuel⟩

/-- C16 at the response of 45 bytes to a query for "example.com" with one answer
under the pointer `C0 0C` and the address bytes `5D B8 D8 22`: from offset 29,
the offset of the answer name, `getRefData` follows the one target 12, and the
targets followed for the answer name are 12 and nothing else. -/
theorem C16_decreasing_targets_terminate_witness :
    (shortResponse.length = 45 ∧ getRefData.targets shortResponse 2116 29 = [12]
        ∧ unpackResponse.chains 2116 shortResponse = [[12]])
      ∧ (∃ r, getRefData 2116 shortResponse 29 = some r)
      ∧ ∃ res, unpackResponse 2116 shortResponse = some res :=
  ⟨⟨by decide, by decide, by decide⟩,
    (C16_decreasing_targets_terminate shortResponse 2116 (by decide) (by decide)).1 29
      (by decide),
    (C16_decreasing_targets_terminate shortResponse 2116 (by decide) (by decide)).2
      (by decide)⟩

/-- C16 as stated fails: pointers that point strictly backwards do not end the
loop of `getRefData`.  In the buffer `00 01 61 C0 01` the only pointer, at
offset 3, points to offset 1; from offset 1 the loop takes the label "a", meets
the pointer and is back at offset 1, for any number of iterations: the targets
followed are 1 and 1 again.  In the response `cycleResponse`, whose only
pointer, at offset 31, points to offset 29, `unpackResponse` does not return
either. -/
theorem C16_backward_cycle :
    (pointersBackward [0x00, 0x01, 0x61, 0xC0, 0x01]
        ∧ getRefData.targets [0x00, 0x01, 0x61, 0xC0, 0x01] 6 1 = [1, 1]
        ∧ ∀ fuel, getRefData fuel [0x00, 0x01, 0x61, 0xC0, 0x01] 1 = none)
      ∧ (pointersBackward cycleResponse ∧ ∀ fuel, unpackResponse fuel cycleResponse = none) :=
  ⟨⟨by decide, by decide, fun fuel => (getRefData_loop_cycle fuel []).1⟩,
    ⟨by decide, unpackResponse_cycleResponse⟩⟩

/-- C17: for `qr`, `aa`, `tc`, `rd`, `ra` in {0, 1} and `opcode`, `rcode` below
16, `setFlag` stores a 16-bit word whose bit 15 is `qr`, bits 14 to 11 are
`opcode`, bit 10 is `aa`, bit 9 is `tc`, bit 8 is `rd`, bit 7 is `ra`, bits 6
to 4 are zero and bits 3 to 0 are `rcode`; `setFlag(0, 0, 0, 0, 1, 0, 0)`
gives `0x0100`. -/
theorem C17_setFlag_layout (h : dnsHeader) (qr opcode aa tc rd ra rcode : Nat)
    (hqr : qr < 2) (hop : opcode < 16) (haa : aa < 2) (htc : tc < 2) (hrd : rd < 2) (hra : ra < 2)
    (hrc : rcode < 16) :
    (h.setFlag qr opcode aa tc rd ra rcode).Flag < 65536
      ∧ (h.setFlag qr opcode aa tc rd ra rcode).Flag / 2 ^ 15 % 2 = qr
      ∧ (h.setFlag qr opcode aa tc rd ra rcode).Flag / 2 ^ 11 % 16 = opcode
      ∧ (h.setFlag qr opcode aa tc rd ra rcode).Flag / 2 ^ 10 % 2 = aa
      ∧ (h.setFlag qr opcode aa tc rd ra rcode).Flag / 2 ^ 9 % 2 = tc
      ∧ (h.setFlag qr opcode aa tc rd ra rcode).Flag / 2 ^ 8 % 2 = rd
      ∧ (h.setFlag qr opcode aa tc rd ra rcode).Flag / 2 ^ 7 % 2 = ra
      ∧ (h.setFlag qr opcode aa tc rd ra rcode).Flag / 2 ^ 4 % 8 = 0
      ∧ (h.setFlag qr opcode aa tc rd ra rcode).Flag % 16 = rcode
      ∧ (h.setFlag 0 0 0 0 1 0 0).Flag = 0x0100 := by
  rw [setFlag_value h qr opcode aa tc rd ra rcode hqr hop haa htc hrd hra hrc]
  refine ⟨?_, ?_, ?_, ?_, ?_, ?_, ?_, ?_, ?_, ?_⟩ <;> first | omega | rfl

/-- C17 at the flags of a response: `qr` 1, `opcode` 2, `aa` 1, `rd` 1, `ra` 1
and `rcode` 3 give the word `0x9583`. -/
theorem C17_setFlag_layout_witness :
    (dnsHeader.setFlag ⟨0, 0, 0, 0, 0, 0⟩ 1 2 1 0 1 1 3).Flag = 0x9583
      ∧ (dnsHeader.setFlag ⟨0, 0, 0, 0, 0, 0⟩ 1 2 1 0 1 1 3).Flag / 2 ^ 11 % 16 = 2 :=
  ⟨by decide,
    (C17_setFlag_layout ⟨0, 0, 0, 0, 0, 0⟩ 1 2 1 0 1 1 3 (by decide) (by decide) (by decide)
      (by decide) (by decide) (by decide) (by decide)).2.2.1⟩

/-- C18: for every buffer, every start offset and every number of iterations,
the loop of `getRefData` with the index checks of Go does not end in a panic:
`data[i]` and `data[i+1]` are evaluated at indices inside `data` only; its
result is the result of `getRefData`. -/
theorem C18_getRefData_in_bounds (data : List Nat) (fuel p : Nat) :
    getRefData.checked data fuel p [] ≠ some (Except.error ())
      ∧ getRefData.checked data fuel p [] = (getRefData fuel data p).map Except.ok := by
  have h := getRefData_checked_eq data fuel p []
  refine ⟨?_, h⟩
  rw [h]
  cases getRefData.loop data fuel p [] <;> simp

/-- C19: every record list that `unpackResponse` returns without an error has a
record at every index; the fixed fields and the resource data of each record
stand in the input; every record of type 1 has RDLength 4 and an address value
that holds the four bytes of its resource data; and the loop of `Resolve` over
the list finishes without a call on `nil`. -/
theorem C19_records_complete (fuel : Nat) (resp : List Nat) (res : Result)
    (h : unpackResponse fuel resp = some res) (herr : res.err = none) :
    (∀ e ∈ res.answers.getD [], ∃ r rdata, e = some r ∧ decodedFrom resp r rdata
        ∧ (r.Typ = typeA → r.RDLength = 4 ∧ rdata.length = 4 ∧ r.RData = some { addr := rdata }))
      ∧ ∃ names, Resolve.names (res.answers.getD []) [] = some names := by
  obtain ⟨answers, err⟩ := res
  simp only at herr
  subst herr
  cases answers with
  | none => exact ⟨fun e he => by simp at he, [], rfl⟩
  | some answers =>
    have hst := unpackResponse_stored fuel resp answers h
    simp only [Option.getD_some]
    constructor
    · intro e he
      obtain ⟨r, h1, rdata, h2, h3⟩ := hst e he
      refine ⟨r, rdata, h1, h2, fun ht => ?_⟩
      obtain ⟨g1, g2⟩ := h3 ht
      obtain ⟨_, _, _, _, _, _, _, _, _, hl⟩ := h2
      exact ⟨g1, by rw [hl, g1], g2⟩
    · apply names_some
      intro e he
      obtain ⟨r, h1, rdata, _, h3⟩ := hst e he
      refine ⟨r, h1, fun ht => ?_⟩
      rw [(h3 ht).2]
      simp

/-- C19 at the response `twoTypes`, with an answer of type A and an answer of
type 28. -/
theorem C19_records_complete_witness :
    (∀ e ∈ [some (pointerA.decoded (labelBytes exampleLabels ++ [0])),
          some (pointerAAAA.decoded (labelBytes exampleLabels ++ [0]))],
        ∃ r rdata, e = some r ∧ decodedFrom twoTypes r rdata
          ∧ (r.Typ = typeA → r.RDLength = 4 ∧ rdata.length = 4
            ∧ r.RData = some { addr := rdata }))
      ∧ ∃ names, Resolve.names
          [some (pointerA.decoded (labelBytes exampleLabels ++ [0])),
            some (pointerAAAA.decoded (labelBytes exampleLabels ++ [0]))] [] = some names :=
  C19_records_complete 128 twoTypes
    { answers := some [some (pointerA.decoded (labelBytes exampleLabels ++ [0])),
        some (pointerAAAA.decoded (labelBytes exampleLabels ++ [0]))],
      err := none } (by decide) rfl

/-- C20: for every response of bytes, with any twelve header bytes `h`, in which
no pointer followed while decoding has a target inside the header, and for
every other twelve header bytes `h2` with the same two ANCOUNT bytes,
`unpackResponse` returns on `h2` and the rest of the response what it returns
on the response: ID, flags, QDCOUNT, NSCOUNT and ARCOUNT are not looked at, and
a response with any ID is accepted like one with the ID 1 of the query. -/
theorem C20_header_ignored (fuel : Nat) (h h2 rest : List Nat) (hh : h.length = 12)
    (hh2 : h2.length = 12) (hcount : (h2.drop 6).take 2 = (h.drop 6).take 2)
    (hbytes : ∀ c ∈ rest, c < 256)
    (ht : ∀ t ∈ unpackResponse.targets fuel (h ++ rest), 12 ≤ t) :
    unpackResponse fuel (h2 ++ rest) = unpackResponse fuel (h ++ rest) :=
  unpackResponse_header fuel h h2 rest hh hh2 hcount hbytes ht

/-- C20 at a response to a query for "example.com" with one answer under the
pointer `C0 0C`: with the ID `BEEF`, other flags and other counts in place of
the ID 1, the result is the same, the one record. -/
theorem C20_header_ignored_witness :
    unpackResponse 64
        ([0xBE, 0xEF, 0x85, 0x03, 0x00, 0x07, 0x00, 0x01, 0x00, 0x03, 0x00, 0x09]
          ++ ((labelBytes exampleLabels ++ [0]) ++ [0x00, 0x01, 0x00, 0x01] ++ pointerA.bytes))
      = unpackResponse 64
        ([0x00, 0x01, 0x81, 0x80, 0x00, 0x01, 0x00, 0x01, 0x00, 0x00, 0x00, 0x00]
          ++ ((labelBytes exampleLabels ++ [0]) ++ [0x00, 0x01, 0x00, 0x01] ++ pointerA.bytes)) :=
  C20_header_ignored 64 [0x00, 0x01, 0x81, 0x80, 0x00, 0x01, 0x00, 0x01, 0x00, 0x00, 0x00, 0x00]
    [0xBE, 0xEF, 0x85, 0x03, 0x00, 0x07, 0x00, 0x01, 0x00, 0x03, 0x00, 0x09]
    ((labelBytes exampleLabels ++ [0]) ++ [0x00, 0x01, 0x00, 0x01] ++ pointerA.bytes)
    (by decide) (by decide) (by decide) (by decide) (by decide)

end DomainParser
